import Mathlib

/-!
# porter: the provisioning state stream bridge

A shallow embedding of `InfraStreamStateHandler.ServeHTTP`
(`api/server/handlers/infra/stream_state.go`, lines 72-133): the session that
relays state updates from the provisioner's gRPC stream to a websocket.

The session consists of four goroutines that share the unbuffered channel
`errorchan`, the wait group `wg` and the cancellable context `ctx`:

* the closer (lines 77-80): `wg.Wait(); close(errorchan)`;
* the client-watch pump (lines 82-92);
* the upstream pump (lines 94-115);
* the controller, the goroutine running `ServeHTTP` (lines 117-133, together
  with the `defer cancel()` of line 59).

Every goroutine is a program counter; a step of the system runs one statement
of one goroutine.  What the outside world answers (the result of
`stream.Recv()`, of `safeRW.ReadMessage()`, of the websocket write, of the two
close calls) comes with the scheduling choice, so theorems quantified over all
schedules hold for every interleaving and every behaviour of the two
transports.  A goroutine that is blocked (a send on `errorchan` with nobody
receiving, the range loop with nobody sending, `wg.Wait()` with the counter
above zero) does not move when it is scheduled.
-/

namespace Porter.StreamState

/-! ## Data model -/

/-- A non-nil Go `error` value: the sentinel `io.EOF`, or any other error. -/
inductive GoError where
  | EOF
  | other (code : Nat)
  deriving DecidableEq, Repr

/-- What `stream.Recv()` returns: a state update (`err == nil`) or an error. -/
inductive RecvResult (U : Type) where
  | update (u : U)
  | fail (err : GoError)
  deriving DecidableEq, Repr

/-- The four places of the program where a value is sent on `errorchan`. -/
inductive Site where
  /-- line 87, `errorchan <- nil` of the client-watch pump -/
  | clientClosed
  /-- line 103, `errorchan <- nil` of the upstream pump -/
  | upstreamEnd
  /-- line 105, `errorchan <- err` of the upstream pump -/
  | upstreamErr
  /-- the send made inside `safeRW.WriteJSONWithChannel(stateUpdate, errorchan)` -/
  | forward
  deriving DecidableEq, Repr

/-- The goroutines of one session. -/
inductive Gor where
  | watch
  | upstream
  | controller
  | closer
  deriving DecidableEq, Repr

/-- The observable actions of a session.  An optional error is a Go `error`
value, `none` being `nil`. -/
inductive Action (U : Type) where
  /-- `safeRW.ReadMessage()` returned (line 86) -/
  | readMessage (err : Option GoError)
  /-- `stream.Recv()` returned (line 99) -/
  | recv (r : RecvResult U)
  /-- the condition of line 102 was evaluated; `cancelled` is the value of
  `errors.Is(ctx.Err(), context.Canceled)` at that moment -/
  | errCheck (cancelled : Bool)
  /-- `safeRW.WriteJSONWithChannel(u, errorchan)` was called (line 113) and its
  websocket write returned `err` -/
  | writeJSON (u : U) (err : Option GoError)
  /-- a send on `errorchan` completed: the range loop of line 117 received `sig` -/
  | send (site : Site) (sig : Option GoError)
  /-- `c.HandleAPIErrorNoWrite(w, r, apierrors.NewErrInternal(err))` (line 119) -/
  | report (err : GoError)
  /-- `stream.CloseSend()` returned `err` (line 124) -/
  | closeSend (err : Option GoError)
  /-- `safeRW.Close()` returned `err` (line 128) -/
  | wsClose (err : Option GoError)
  /-- `cancel()` (line 131, or the deferred call of line 59) -/
  | cancel
  /-- the deferred `wg.Done()` of a pump that returns (lines 83, 95) -/
  | wgDone
  /-- `close(errorchan)` (line 79) -/
  | closeChan
  deriving DecidableEq, Repr

/-- An action together with the goroutine that performed it. -/
structure Event (U : Type) where
  actor : Gor
  act : Action U
  deriving DecidableEq, Repr

/-- Program counter of the client-watch pump (lines 82-92). -/
inductive WatchPc where
  /-- line 86, in `safeRW.ReadMessage()` -/
  | read
  /-- line 87, in `errorchan <- nil` -/
  | send
  /-- lines 88-89, returning: the deferred `wg.Done()` is pending -/
  | exit
  /-- returned -/
  | done
  deriving DecidableEq, Repr

/-- Program counter of the upstream pump (lines 94-115). -/
inductive UpPc (U : Type) where
  /-- line 99, in `stream.Recv()` -/
  | recv
  /-- line 102, `Recv` returned the error `err` -/
  | check (err : GoError)
  /-- line 103, in `errorchan <- nil` -/
  | sendNil
  /-- line 105, in `errorchan <- err` -/
  | sendErr (err : GoError)
  /-- line 113, calling `safeRW.WriteJSONWithChannel(u, errorchan)` -/
  | write (u : U)
  /-- inside `WriteJSONWithChannel`, the write failed: in `errorChan <- err` -/
  | forward (err : GoError)
  /-- lines 108-110, returning: the deferred `wg.Done()` is pending -/
  | exit
  /-- returned -/
  | done
  deriving DecidableEq, Repr

/-- Program counter of the controller (lines 117-133). -/
inductive CtlPc where
  /-- line 117, receiving from `errorchan` -/
  | range
  /-- line 118, the loop variable `err` holds the received value -/
  | handle (sig : Option GoError)
  /-- line 124 -/
  | closeSend
  /-- line 128 -/
  | wsClose
  /-- line 131 -/
  | cancel
  /-- line 133, the loop has ended: the deferred `cancel()` of line 59 is pending -/
  | deferred
  /-- `ServeHTTP` returned -/
  | done
  deriving DecidableEq, Repr

/-- Program counter of the closer (lines 77-80). -/
inductive CloserPc where
  /-- line 78, in `wg.Wait()` -/
  | wait
  /-- line 79 -/
  | close
  /-- returned -/
  | done
  deriving DecidableEq, Repr

/-- The state of one session. -/
structure State (U : Type) where
  watch : WatchPc
  up : UpPc U
  ctl : CtlPc
  closer : CloserPc
  /-- the counter of `wg` -/
  wg : Nat
  /-- whether `cancel()` has been called, that is whether `ctx.Err()` is
  `context.Canceled` (`ctx` has no deadline and no cancellable parent) -/
  cancelled : Bool
  /-- whether `errorchan` has been closed -/
  chanClosed : Bool
  /-- whether a goroutine has sent on the closed `errorchan` (a run-time panic) -/
  panicked : Bool
  /-- what has happened so far, oldest first -/
  trace : List (Event U)
  deriving DecidableEq, Repr

/-- A scheduling choice: the goroutine that runs its next statement, with what
the outside world answers should that statement ask it. -/
inductive Choice (U : Type) where
  /-- the client-watch pump; `readErr` is the result of `ReadMessage` -/
  | watch (readErr : Option GoError)
  /-- the upstream pump; `r` is the result of `Recv`, `w` that of the websocket
  write made by `WriteJSONWithChannel` -/
  | upstream (r : RecvResult U) (w : Option GoError)
  /-- the controller; `closeErr` is the result of `CloseSend` or `Close` -/
  | controller (closeErr : Option GoError)
  /-- the closer -/
  | closer
  deriving DecidableEq, Repr

variable {U : Type}

/-! ## Operations -/

/-- Lines 72-75: the channel is open, `wg.Add(2)`, nothing has run yet. -/
def init : State U :=
  { watch := .read, up := .recv, ctl := .range, closer := .wait, wg := 2,
    cancelled := false, chanClosed := false, panicked := false, trace := [] }

/-- Record an action of goroutine `g`. -/
def emit (s : State U) (g : Gor) (a : Action U) : State U :=
  { s with trace := s.trace ++ [⟨g, a⟩] }

/-- The send `errorchan <- sig` of a pump, followed by `next`.  The channel is
unbuffered: the send completes only together with a receive of the range loop
of line 117, which then holds `sig` in its loop variable; until then the pump
stays where it is.  On a closed channel the send panics. -/
def sendOn (s : State U) (g : Gor) (site : Site) (sig : Option GoError)
    (next : State U → State U) : State U :=
  if s.chanClosed then { s with panicked := true }
  else
    match s.ctl with
    | .range => next { emit s g (.send site sig) with ctl := .handle sig }
    | _ => s

/-- One statement of the client-watch pump (lines 82-92). -/
def stepWatch (readErr : Option GoError) (s : State U) : State U :=
  match s.watch with
  | .read =>
    match readErr with
    | none => emit s .watch (.readMessage none)
    | some e => { emit s .watch (.readMessage (some e)) with watch := .send }
  | .send =>
    sendOn s .watch .clientClosed none fun s1 => { s1 with watch := .exit }
  | .exit => { emit s .watch .wgDone with watch := .done, wg := s.wg - 1 }
  | .done => s

/-- Modelled from the spec: the body of `WebsocketSafeReadWriter.WriteJSONWithChannel`
(package `api/server/shared/websocket`) is missing from the sources at hand.
By the spec a failed send is reported on the termination bus (`send` errors
"are reported, not thrown silently"; a forward error is one of the termination
signals), and the call site reads no result.  So: the update is written to the
websocket; when the write fails with `e`, the next thing the call does is
`errorChan <- e`; then the call returns to the loop of line 97. -/
def writeJSONWithChannel (s : State U) (u : U) (w : Option GoError) : State U :=
  match w with
  | none => { emit s .upstream (.writeJSON u none) with up := .recv }
  | some e => { emit s .upstream (.writeJSON u (some e)) with up := .forward e }

/-- One statement of the upstream pump (lines 94-115). -/
def stepUp (r : RecvResult U) (w : Option GoError) (s : State U) : State U :=
  match s.up with
  | .recv =>
    match r with
    | .update u => { emit s .upstream (.recv (.update u)) with up := .write u }
    | .fail e => { emit s .upstream (.recv (.fail e)) with up := .check e }
  | .check e =>
    if e = GoError.EOF ∨ s.cancelled = true then
      { emit s .upstream (.errCheck s.cancelled) with up := .sendNil }
    else
      { emit s .upstream (.errCheck s.cancelled) with up := .sendErr e }
  | .sendNil =>
    sendOn s .upstream .upstreamEnd none fun s1 => { s1 with up := .exit }
  | .sendErr e =>
    sendOn s .upstream .upstreamErr (some e) fun s1 => { s1 with up := .exit }
  | .write u => writeJSONWithChannel s u w
  | .forward e =>
    sendOn s .upstream .forward (some e) fun s1 => { s1 with up := .recv }
  | .exit => { emit s .upstream .wgDone with up := .done, wg := s.wg - 1 }
  | .done => s

/-- One statement of the controller (lines 117-133 and the deferred `cancel()`). -/
def stepCtl (closeErr : Option GoError) (s : State U) : State U :=
  match s.ctl with
  | .range => if s.chanClosed then { s with ctl := .deferred } else s
  | .handle sig =>
    match sig with
    | some e => { emit s .controller (.report e) with ctl := .closeSend }
    | none => { s with ctl := .closeSend }
  | .closeSend => { emit s .controller (.closeSend closeErr) with ctl := .wsClose }
  | .wsClose => { emit s .controller (.wsClose closeErr) with ctl := .cancel }
  | .cancel => { emit s .controller .cancel with ctl := .range, cancelled := true }
  | .deferred => { emit s .controller .cancel with ctl := .done, cancelled := true }
  | .done => s

/-- One statement of the closer (lines 77-80). -/
def stepCloser (s : State U) : State U :=
  match s.closer with
  | .wait => if s.wg = 0 then { s with closer := .close } else s
  | .close => { emit s .closer .closeChan with closer := .done, chanClosed := true }
  | .done => s

/-- One step of the session.  After a panic nothing runs any more. -/
def step (s : State U) (c : Choice U) : State U :=
  if s.panicked then s
  else
    match c with
    | .watch readErr => stepWatch readErr s
    | .upstream r w => stepUp r w s
    | .controller closeErr => stepCtl closeErr s
    | .closer => stepCloser s

/-- Run a schedule from a given state. -/
def runFrom (s : State U) (cs : List (Choice U)) : State U :=
  cs.foldl step s

/-- Run a schedule from the start of the session. -/
def run (cs : List (Choice U)) : State U :=
  runFrom init cs

/-! ## Views of a trace and the shape of each goroutine's part -/

/-- The client-watch pump has not returned yet. -/
def WatchPc.running : WatchPc → Bool
  | .done => false
  | _ => true

/-- The upstream pump has not returned yet. -/
def UpPc.running : UpPc U → Bool
  | .done => false
  | _ => true

/-- The controller is still in the range loop of line 117. -/
def CtlPc.inLoop : CtlPc → Bool
  | .deferred => false
  | .done => false
  | _ => true

/-- The bookkeeping of wait group and channel: the counter of `wg` counts the
pumps that have not returned, the closer gets past `wg.Wait()` only at zero,
the channel is closed exactly when the closer is through, the range loop ends
only on the closed channel, and nobody has sent on the closed channel. -/
structure Sound (s : State U) : Prop where
  wg_eq : s.wg = (if s.watch.running then 1 else 0) + (if s.up.running then 1 else 0)
  closer_wg : s.closer ≠ .wait → s.wg = 0
  closed_iff : s.chanClosed = true ↔ s.closer = .done
  ctl_closed : s.ctl.inLoop = false → s.chanClosed = true
  no_panic : s.panicked = false

/-- The actions goroutine `g` has performed, oldest first. -/
def viewOf (g : Gor) (t : List (Event U)) : List (Action U) :=
  (t.filter fun ev => decide (ev.actor = g)).map Event.act

/-- The results of the `stream.Recv()` calls among the given actions. -/
def recvResults (as : List (Action U)) : List (RecvResult U) :=
  as.filterMap fun a => match a with
    | .recv r => some r
    | _ => none

/-- The updates passed to `safeRW.WriteJSONWithChannel` among the given actions. -/
def writeCalls (as : List (Action U)) : List U :=
  as.filterMap fun a => match a with
    | .writeJSON u _ => some u
    | _ => none

/-- One turn of the loop of lines 97-114 in which `Recv` gave the update `p.1`
and the websocket write returned `p.2`. -/
def fwdActs (p : U × Option GoError) : List (Action U) :=
  match p.2 with
  | none => [.recv (.update p.1), .writeJSON p.1 none]
  | some e => [.recv (.update p.1), .writeJSON p.1 (some e), .send .forward (some e)]

/-- Lines 102-106: the send chosen for the `Recv` error `e` when the context
check gives `c`. -/
def endSend (e : GoError) (c : Bool) : Action U :=
  if e = GoError.EOF ∨ c = true then .send .upstreamEnd none else .send .upstreamErr (some e)

/-- Lines 99-111 for a `Recv` that fails with `e`: the last turn of the loop. -/
def lastTurn (e : GoError) (c : Bool) : List (Action U) :=
  [.recv (.fail e), .errCheck c, endSend e c, .wgDone]

/-- What the upstream pump has done of the turn it is in, by program counter. -/
inductive UpTail : UpPc U → List (Action U) → Prop where
  | recv : UpTail .recv []
  | write (u : U) : UpTail (.write u) [.recv (.update u)]
  | forward (u : U) (e : GoError) : UpTail (.forward e) [.recv (.update u), .writeJSON u (some e)]
  | check (e : GoError) : UpTail (.check e) [.recv (.fail e)]
  | sendNil (e : GoError) (c : Bool) (h : e = GoError.EOF ∨ c = true) :
      UpTail .sendNil [.recv (.fail e), .errCheck c]
  | sendErr (e : GoError) (h : e ≠ GoError.EOF) :
      UpTail (.sendErr e) [.recv (.fail e), .errCheck false]
  | exit (e : GoError) (c : Bool) : UpTail .exit [.recv (.fail e), .errCheck c, endSend e c]
  | done (e : GoError) (c : Bool) : UpTail .done (lastTurn e c)

/-- The upstream pump has done a number of complete forwarding turns and a
part of one more turn. -/
def UpShape (s : State U) : Prop :=
  ∃ (items : List (U × Option GoError)) (tail : List (Action U)),
    viewOf .upstream s.trace = items.flatMap fwdActs ++ tail ∧ UpTail s.up tail

/-- What each goroutine does in the program text: the actions it may perform,
and for a send the value that goes with the place of the send. -/
def mayPerform : Gor → Action U → Bool
  | .watch, .readMessage _ => true
  | .watch, .send .clientClosed none => true
  | .watch, .wgDone => true
  | .upstream, .recv _ => true
  | .upstream, .errCheck _ => true
  | .upstream, .writeJSON _ _ => true
  | .upstream, .send .upstreamEnd none => true
  | .upstream, .send .upstreamErr (some _) => true
  | .upstream, .send .forward (some _) => true
  | .upstream, .wgDone => true
  | .controller, .report _ => true
  | .controller, .closeSend _ => true
  | .controller, .wsClose _ => true
  | .controller, .cancel => true
  | .closer, .closeChan => true
  | _, _ => false

/-- Every event of the trace is an action its goroutine may perform. -/
def WellActed (s : State U) : Prop :=
  ∀ ev ∈ s.trace, mayPerform ev.actor ev.act = true

/-- How a step of goroutine `g` extends the trace. -/
def Extends (g : Gor) (s s' : State U) : Prop :=
  ∃ as : List (Action U), s'.trace = s.trace ++ as.map (Event.mk g) ∧
    ∀ a ∈ as, mayPerform g a = true

/-- What the client-watch pump has done since its last discarded message, by
program counter. -/
inductive WatchTail : WatchPc → List (Action U) → Prop where
  | read : WatchTail .read []
  | send (e : GoError) : WatchTail .send [.readMessage (some e)]
  | exit (e : GoError) : WatchTail .exit [.readMessage (some e), .send .clientClosed none]
  | done (e : GoError) :
      WatchTail .done [.readMessage (some e), .send .clientClosed none, .wgDone]

/-- The client-watch pump has read and discarded `n` messages and done a part
of its last turn. -/
def WatchShape (s : State U) : Prop :=
  ∃ (n : Nat) (tail : List (Action U)),
    viewOf .watch s.trace = List.replicate n (.readMessage none) ++ tail ∧ WatchTail s.watch tail

/-- What the controller sees and does: receives, reports and teardown calls. -/
inductive CtlAct where
  | received (site : Site) (sig : Option GoError)
  | report (err : GoError)
  | closeSend
  | wsClose
  | cancel
  deriving DecidableEq, Repr

/-- The controller's reading of an action (the results of the close calls are
dropped: the code drops them). -/
def ctlAct : Action U → Option CtlAct
  | .send site sig => some (.received site sig)
  | .report e => some (.report e)
  | .closeSend _ => some .closeSend
  | .wsClose _ => some .wsClose
  | .cancel => some .cancel
  | _ => none

/-- The receives, reports and teardown calls of a trace, oldest first. -/
def ctlView (t : List (Event U)) : List CtlAct :=
  t.filterMap fun ev => ctlAct ev.act

/-- The values received from `errorchan`, with the place each was sent from. -/
def received (t : List (Event U)) : List (Site × Option GoError) :=
  t.filterMap fun ev => match ev.act with
    | .send site sig => some (site, sig)
    | _ => none

/-- Lines 118-120. -/
def reportOf : Option GoError → List CtlAct
  | none => []
  | some e => [.report e]

/-- Lines 124-131. -/
def teardown : List CtlAct := [.closeSend, .wsClose, .cancel]

/-- One turn of the range loop (lines 117-132) for the received value `p.2`. -/
def iteration (p : Site × Option GoError) : List CtlAct :=
  .received p.1 p.2 :: (reportOf p.2 ++ teardown)

/-- What is left of the current turn of the range loop. -/
def CtlPc.remaining : CtlPc → List CtlAct
  | .handle sig => reportOf sig ++ teardown
  | .closeSend => teardown
  | .wsClose => [.wsClose, .cancel]
  | .cancel => [.cancel]
  | _ => []

/-- What the controller has done after the range loop. -/
def CtlPc.epilogue : CtlPc → List CtlAct
  | .done => [.cancel]
  | _ => []

/-- The controller has run one turn of the loop for every value received. -/
def CtlShape (s : State U) : Prop :=
  ctlView s.trace ++ s.ctl.remaining = (received s.trace).flatMap iteration ++ s.ctl.epilogue

/-- What a step of a pump can do to the controller: nothing, or hand it a value. -/
def Hands (g : Gor) (s s' : State U) : Prop :=
  (s'.ctl = s.ctl ∧ ctlView s'.trace = ctlView s.trace ∧ received s'.trace = received s.trace) ∨
  ∃ site sig, s.ctl = .range ∧ s.chanClosed = false ∧ s'.ctl = .handle sig ∧
    s'.trace = s.trace ++ [⟨g, .send site sig⟩]

/-- Everything that is known of a reachable state. -/
structure Inv (s : State U) : Prop where
  sound : Sound s
  upShape : UpShape s
  watchShape : WatchShape s
  ctlShape : CtlShape s
  wellActed : WellActed s

/-- The errors passed to `HandleAPIErrorNoWrite`, oldest first. -/
def reported (t : List (Event U)) : List GoError :=
  t.filterMap fun ev => match ev.act with
    | .report e => some e
    | _ => none

/-- The reports among the controller's actions. -/
def reportsIn (as : List CtlAct) : List GoError :=
  as.filterMap fun a => match a with
    | .report e => some e
    | _ => none

/-- The error the controller has received and not yet reported (line 118). -/
def CtlPc.inHand : CtlPc → List GoError
  | .handle (some e) => [e]
  | _ => []

/-- What the upstream pump does after a write that failed with `e`: nothing
yet, or the send of `e` made by `WriteJSONWithChannel`, after which nothing
yet or the next `stream.Recv()`. -/
def ForwardedThenRecv (e : GoError) (post : List (Action U)) : Prop :=
  post = [] ∨ ∃ rest, post = .send .forward (some e) :: rest ∧
    (rest = [] ∨ ∃ r rest', rest = .recv r :: rest')

/-- The actions are none, or start with a `stream.Recv()`. -/
def StartsWithRecv (l : List (Action U)) : Prop :=
  l = [] ∨ ∃ r rest, l = .recv r :: rest

/-- Every failed write among the actions is followed as `ForwardedThenRecv` says. -/
def FailedWritesForwarded (l : List (Action U)) : Prop :=
  ∀ pre u e post, l = pre ++ .writeJSON u (some e) :: post → ForwardedThenRecv e post

/-- The errors of the failed websocket writes among the given actions. -/
def failedWrites (as : List (Action U)) : List GoError :=
  as.filterMap fun a => match a with
    | .writeJSON _ (some e) => some e
    | _ => none

/-- The non-nil values sent on `errorchan` among the given actions. -/
def sentErrs (as : List (Action U)) : List GoError :=
  as.filterMap fun a => match a with
    | .send _ (some e) => some e
    | _ => none

/-- The sends on `errorchan` among the given actions: place and value. -/
def sends (as : List (Action U)) : List (Site × Option GoError) :=
  as.filterMap fun a => match a with
    | .send site sig => some (site, sig)
    | _ => none

/-- The errors sent on `errorchan` from inside `WriteJSONWithChannel`. -/
def forwarded (as : List (Action U)) : List GoError :=
  as.filterMap fun a => match a with
    | .send .forward (some e) => some e
    | _ => none

/-- The sends the upstream pump makes itself, at line 103 or 105. -/
def ownSends (as : List (Action U)) : List (Site × Option GoError) :=
  (sends as).filter fun p => decide (p.1 ≠ .forward)

/-- The order of events around `close(errorchan)`: the channel is closed when
the close is in the trace, both pumps have returned before the close, and
after it only the controller acts. -/
def ClosedOk (s : State U) : Prop :=
  (s.chanClosed = false → ∀ ev ∈ s.trace, ev.act ≠ .closeChan) ∧
  ∀ a b g, s.trace = a ++ ⟨g, .closeChan⟩ :: b →
    (∀ ev ∈ b, ev.actor = .controller) ∧ ⟨.watch, .wgDone⟩ ∈ a ∧ ⟨.upstream, .wgDone⟩ ∈ a

/-- The teardown operations: `stream.CloseSend()`, `safeRW.Close()`, `cancel()`. -/
def isTeardown : Action U → Bool
  | .closeSend _ => true
  | .wsClose _ => true
  | .cancel => true
  | _ => false

/-! ## Sample sessions -/

/-- The upstream pump runs its next statement; `Recv` would give `r`. -/
def pumpRecv (r : RecvResult Nat) : Choice Nat := .upstream r none

/-- The upstream pump runs its next statement; the websocket write would give `w`. -/
def pumpWrite (w : Option GoError) : Choice Nat := .upstream (.fail .EOF) w

/-- The upstream pump runs a statement that asks nothing of the outside. -/
def pumpStep : Choice Nat := .upstream (.fail .EOF) none

/-- The controller runs its next statement; the close calls succeed. -/
def ctlStep : Choice Nat := .controller none

/-- The client-watch pump runs a statement that asks nothing of the outside. -/
def watchStep : Choice Nat := .watch none

/-- After the upstream pump has stopped: `safeRW.Close()` has been called, so
`ReadMessage` fails; the client-watch pump publishes and returns, the
controller runs its turn, the closer closes the channel and `ServeHTTP` returns. -/
def windUp : List (Choice Nat) :=
  [.watch (some (.other 1)), watchStep, ctlStep, ctlStep, ctlStep, ctlStep, watchStep, .closer, .closer, ctlStep, ctlStep]

/-- A session in which the stream gives the updates 4 and 2 and then ends, and
both writes succeed. -/
def cleanRun : List (Choice Nat) :=
  [pumpRecv (.update 4), pumpWrite none, pumpRecv (.update 2), pumpWrite none,
   pumpRecv (.fail .EOF), pumpStep, pumpStep, ctlStep, ctlStep, ctlStep, ctlStep, pumpStep] ++ windUp

/-- A session in which the write of update 1 fails; the pump calls `Recv`
again, gets update 2 before the controller has cancelled the context, and the
write of update 2 fails as well; the next `Recv` fails on the cancelled context. -/
def failedSendRun : List (Choice Nat) :=
  [pumpRecv (.update 1), pumpWrite (some (.other 5)), pumpStep, pumpRecv (.update 2),
   pumpWrite (some (.other 5)), ctlStep, ctlStep, ctlStep, ctlStep, pumpStep, ctlStep, ctlStep, ctlStep, ctlStep,
   pumpRecv (.fail (.other 9)), pumpStep, pumpStep, ctlStep, ctlStep, ctlStep, ctlStep, pumpStep] ++ windUp

/-- A session in which the write of update 1 fails and, before the controller
has cancelled the context, `Recv` fails with a transport error. -/
def doubleReportRun : List (Choice Nat) :=
  [pumpRecv (.update 1), pumpWrite (some (.other 5)), pumpStep, ctlStep,
   pumpRecv (.fail (.other 7)), pumpStep, ctlStep, ctlStep, ctlStep, pumpStep, ctlStep, ctlStep, ctlStep, ctlStep, pumpStep] ++ windUp

/-- A session in which the stream gives the update 1, written well, and then
fails with a transport error. -/
def transportErrorRun : List (Choice Nat) :=
  [pumpRecv (.update 1), pumpWrite none, pumpRecv (.fail (.other 7)), pumpStep, pumpStep,
   ctlStep, ctlStep, ctlStep, ctlStep, pumpStep] ++ windUp

/-- The choice in which the close call of the controller succeeds. -/
def Choice.forgetClose : Choice U → Choice U
  | .controller _ => .controller none
  | c => c

/-- The action without the result of the close call. -/
def Action.forgetClose : Action U → Action U
  | .closeSend _ => .closeSend none
  | .wsClose _ => .wsClose none
  | a => a

/-- The event without the result of the close call. -/
def Event.forgetClose (ev : Event U) : Event U :=
  ⟨ev.actor, ev.act.forgetClose⟩

/-- The state whose trace does not tell what the close calls returned. -/
def State.forgetClose (s : State U) : State U :=
  { s with trace := s.trace.map Event.forgetClose }

/-- How many statements the client-watch pump still has to run, its read failing. -/
def WatchPc.rank : WatchPc → Nat
  | .read => 3
  | .send => 2
  | .exit => 1
  | .done => 0

/-- How many statements the upstream pump still has to run, at most, its next
`Recv` failing. -/
def UpPc.rank : UpPc U → Nat
  | .write _ => 5
  | .forward _ => 5
  | .recv => 4
  | .check _ => 3
  | .sendNil => 2
  | .sendErr _ => 2
  | .exit => 1
  | .done => 0

/-- How many statements the controller still has to run when nothing more is
sent to it. -/
def CtlPc.rank : CtlPc → Nat
  | .handle _ => 6
  | .closeSend => 5
  | .wsClose => 4
  | .cancel => 3
  | .range => 2
  | .deferred => 1
  | .done => 0

/-- How many statements the closer still has to run. -/
def CloserPc.rank : CloserPc → Nat
  | .wait => 2
  | .close => 1
  | .done => 0

/-- A bound on the number of steps the session still takes when both
transports fail from now on.  A send of a pump costs it one statement and gives
the controller four more. -/
def State.rank (s : State U) : Nat :=
  5 * (s.watch.rank + s.up.rank) + s.ctl.rank + s.closer.rank

/-- The step that winds the session up: the controller finishes its turn; then
the upstream pump runs, with `Recv` failing; then the client-watch pump, with
`ReadMessage` failing; then the closer; then the controller leaves. -/
def nextChoice (s : State U) : Choice U :=
  match s.ctl with
  | .range =>
    if s.up.running then .upstream (.fail .EOF) none
    else if s.watch.running then .watch (some (.other 0))
    else
      match s.closer with
      | .done => .controller none
      | _ => .closer
  | _ => .controller none

/-- The schedule of `n` winding-up steps from `s`. -/
def finish : Nat → State U → List (Choice U)
  | 0, _ => []
  | n + 1, s => nextChoice s :: finish n (step s (nextChoice s))

/-- The upstream pump is past a failed `Recv`: it is in its last turn. -/
def UpPc.ending : UpPc U → Bool
  | .check _ => true
  | .sendNil => true
  | .sendErr _ => true
  | .exit => true
  | .done => true
  | _ => false

/-- A session in which the first `Recv` gives end-of-stream. -/
def eofRun : List (Choice Nat) :=
  [pumpRecv (.fail .EOF), pumpStep, pumpStep, ctlStep, ctlStep, ctlStep, ctlStep, pumpStep] ++ windUp

/-- The goroutines that have closed `errorchan`, in order. -/
def closes (t : List (Event U)) : List Gor :=
  t.filterMap fun ev => match ev.act with
    | .closeChan => some ev.actor
    | _ => none

/-- The channel has been closed by the closer, once, or not at all. -/
def ClosesOk (s : State U) : Prop :=
  closes s.trace = if s.chanClosed then [.closer] else []

/-- Every receipt among the controller's actions is followed by the report, if
the value is non-nil, and the three teardown calls. -/
def TeardownFollows (l : List CtlAct) : Prop :=
  ∀ pre site sig post, l = pre ++ .received site sig :: post →
    (reportOf sig ++ teardown) <+: post

/-- A session in which the client's read fails first, and the stream still
gives the update 3, written well, before the controller has cancelled. -/
def lateUpdateRun : List (Choice Nat) :=
  [.watch (some (.other 1)), pumpRecv (.update 3), pumpWrite none, watchStep,
   ctlStep, ctlStep, ctlStep, ctlStep, pumpRecv (.fail (.other 9)), pumpStep, pumpStep,
   ctlStep, ctlStep, ctlStep, ctlStep, pumpStep, watchStep, .closer, .closer, ctlStep, ctlStep]

end Porter.StreamState

namespace Porter.Credentials

/-! # The credentials exchange handler

`provisioner/server/handlers/credentials/get_credentials.go`.  A Go `error` is
modelled by what the handler can tell of it; `[]byte` values are modelled by
strings. -/

/-- The two errors of `strconv.ParseUint`. -/
inductive NumError where
  /-- `strconv.ErrSyntax`: empty input, or a byte that is no decimal digit -/
  | badInput
  /-- `strconv.ErrRange`: the value does not fit in 64 bits -/
  | tooLarge
  deriving DecidableEq, Repr

/-- A non-nil Go `error` as the handler sees it. -/
inductive GoErr where
  /-- the `*strconv.NumError` of `ParseUint` -/
  | num (e : NumError)
  /-- any other error, with its `Error()` text -/
  | msg (text : String)
  deriving DecidableEq, Repr

/-- The value of a decimal digit byte, `none` for any other character. -/
def digitOf (c : Char) : Option Nat :=
  if '0' ≤ c ∧ c ≤ '9' then some (c.toNat - '0'.toNat) else none

/-- `maxUint64`. -/
def maxVal : Nat := 2 ^ 64 - 1

/-- The cutoff of `ParseUint` for base 10: the smallest `n` with `n * 10 > maxUint64`. -/
def cutoff : Nat := maxVal / 10 + 1

/-- The digit loop of `strconv.ParseUint(s, 10, 64)`, `n` being the value so far. -/
def parseUintLoop : List Char → Nat → Except NumError Nat
  | [], n => .ok n
  | c :: cs, n =>
    match digitOf c with
    | none => .error .badInput
    | some d =>
      if n ≥ cutoff then .error .tooLarge
      else if n * 10 + d > maxVal then .error .tooLarge
      else parseUintLoop cs (n * 10 + d)

/-- A stand-in for `strconv.ParseUint(s, 10, 64)` of the Go standard library,
used in the examples: no sign, no underscore (the base is not 0), decimal
digits only, at most `maxUint64`. -/
def parseUint (s : String) : Except NumError Nat :=
  if s = "" then .error .badInput else parseUintLoop s.toList 0

/-- The fields of `models.CredentialsExchangeToken` the handler reads. -/
structure CredentialsExchangeToken where
  /-- the bcrypt hash of the token -/
  Token : String
  ProjectID : Nat
  DOCredentialID : Nat
  GCPCredentialID : Nat
  AWSCredentialID : Nat
  deriving DecidableEq, Repr

/-- The fields of `integrations.OAuthIntegration` the handler reads. -/
structure OAuthIntegration where
  ClientID : String
  AccessToken : String
  RefreshToken : String
  deriving DecidableEq, Repr

/-- The fields of `integrations.GCPIntegration` the handler reads. -/
structure GCPIntegration where
  GCPKeyData : String
  deriving DecidableEq, Repr

/-- The fields of `integrations.AWSIntegration` the handler reads. -/
structure AWSIntegration where
  AWSAccessKeyID : String
  AWSClusterID : String
  AWSSecretAccessKey : String
  AWSSessionToken : String
  AWSRegion : String
  deriving DecidableEq, Repr

/-- `credentials.OAuthCredential`. -/
structure OAuthCredential where
  ClientID : String
  AccessToken : String
  RefreshToken : String
  deriving DecidableEq, Repr

/-- `credentials.GCPCredential`. -/
structure GCPCredential where
  GCPKeyData : String
  deriving DecidableEq, Repr

/-- `credentials.AWSCredential`. -/
structure AWSCredential where
  AWSAccessKeyID : String
  AWSClusterID : String
  AWSSecretAccessKey : String
  AWSSessionToken : String
  AWSRegion : String
  deriving DecidableEq, Repr

/-- `types.CredentialsExchangeResponse`; `none` is the nil pointer. -/
structure CredentialsExchangeResponse where
  DO : Option OAuthCredential
  GCP : Option GCPCredential
  AWS : Option AWSCredential
  deriving DecidableEq, Repr

/-- The three integration reads of a repository, by project id and credential id. -/
structure Repo where
  ReadOAuthIntegration : Nat → Nat → Except GoErr OAuthIntegration
  ReadGCPIntegration : Nat → Nat → Except GoErr GCPIntegration
  ReadAWSIntegration : Nat → Nat → Except GoErr AWSIntegration

/-- What the handler is given: its configuration, the clock and the library. -/
structure Config where
  /-- `strconv.ParseUint(s, 10, 64)` -/
  ParseUint : String → Except GoErr Nat
  /-- `c.config.Repo.CredentialsExchangeToken().ReadCredentialsExchangeToken` -/
  ReadCredentialsExchangeToken : Nat → Except GoErr CredentialsExchangeToken
  /-- `c.config.Repo` -/
  repo : Repo
  /-- `gorm.NewRepository(c.config.DB, &key, vault.NewClient(url, token, prefix))`,
  by vault token -/
  vaultRepo : String → Repo
  /-- `conf.EncryptionKey` -/
  EncryptionKey : String
  /-- `ceToken.IsExpired()`, which reads the clock -/
  IsExpired : CredentialsExchangeToken → Bool
  /-- `bcrypt.CompareHashAndPassword(hash, password)`: `none` is `nil`, else the
  text of the error -/
  CompareHashAndPassword : String → String → Option String

/-- What one call of the handler does to the response. -/
inductive Outcome where
  /-- `apierrors.HandleAPIError(..., apierrors.NewErrForbidden(err), true)`;
  `err` is a Go `error`, `none` being `nil` -/
  | forbidden (err : Option GoErr)
  /-- `c.resultWriter.WriteResult(w, r, resp)` -/
  | wrote (resp : CredentialsExchangeResponse)
  /-- a run-time panic: line 77 indexes `key` out of range -/
  | fault
  deriving DecidableEq, Repr

/-- Lines 129-141. -/
def verifyToken (cfg : Config) (reqToken : String) (ceToken : CredentialsExchangeToken) :
    Bool × Option GoErr :=
  if cfg.IsExpired ceToken then (false, some (.msg "token is expired"))
  else
    match cfg.CompareHashAndPassword ceToken.Token reqToken with
    | some err => (false, some (.msg ("verify token failed: " ++ err)))
    | none => (true, none)

/-- Lines 84-126: the credentials of the token are read from `repo` and written. -/
def writeCredentials (repo : Repo) (ceToken : CredentialsExchangeToken) : Outcome :=
  if ceToken.DOCredentialID ≠ 0 then
    match repo.ReadOAuthIntegration ceToken.ProjectID ceToken.DOCredentialID with
    | .error err => .forbidden (some err)
    | .ok doInt =>
      .wrote { DO := some ⟨doInt.ClientID, doInt.AccessToken, doInt.RefreshToken⟩,
               GCP := none, AWS := none }
  else if ceToken.GCPCredentialID ≠ 0 then
    match repo.ReadGCPIntegration ceToken.ProjectID ceToken.GCPCredentialID with
    | .error err => .forbidden (some err)
    | .ok gcpInt => .wrote { DO := none, GCP := some ⟨gcpInt.GCPKeyData⟩, AWS := none }
  else if ceToken.AWSCredentialID ≠ 0 then
    match repo.ReadAWSIntegration ceToken.ProjectID ceToken.AWSCredentialID with
    | .error err => .forbidden (some err)
    | .ok awsInt =>
      .wrote { DO := none, GCP := none,
               AWS := some ⟨awsInt.AWSAccessKeyID, awsInt.AWSClusterID, awsInt.AWSSecretAccessKey,
                 awsInt.AWSSessionToken, awsInt.AWSRegion⟩ }
  else .wrote { DO := none, GCP := none, AWS := none }

/-- `CredentialsGetHandler.ServeHTTP` (lines 34-127), given the three request
headers `X-Porter-Token`, `X-Porter-Token-ID` and `X-Vault-Token` (an absent
header reads as the empty string).  `uint(tokID)` keeps the value: `uint` has
64 bits. -/
def serveHTTP (cfg : Config) (xPorterToken xPorterTokenID xVaultToken : String) : Outcome :=
  match cfg.ParseUint xPorterTokenID with
  | .error err => .forbidden (some err)
  | .ok tokID =>
    match cfg.ReadCredentialsExchangeToken tokID with
    | .error err => .forbidden (some err)
    | .ok ceToken =>
      match verifyToken cfg xPorterToken ceToken with
      | (false, err) => .forbidden err
      | (true, _) =>
        if xVaultToken ≠ "" then
          if cfg.EncryptionKey.utf8ByteSize > 32 then .fault
          else writeCredentials (cfg.vaultRepo xVaultToken) ceToken
        else writeCredentials cfg.repo ceToken

/-- A configuration for examples: token 7 exists, its hash matches the
password `"secret"`, it is not expired, and it names an AWS credential. -/
def sampleConfig : Config where
  ParseUint := fun s =>
    match parseUint s with
    | .ok tokID => .ok tokID
    | .error err => .error (.num err)
  ReadCredentialsExchangeToken := fun id =>
    if id = 7 then .ok ⟨"hash", 1, 0, 0, 3⟩ else .error (.msg "record not found")
  repo := {
    ReadOAuthIntegration := fun _ _ => .error (.msg "record not found")
    ReadGCPIntegration := fun _ _ => .error (.msg "record not found")
    ReadAWSIntegration := fun _ _ => .ok ⟨"id", "cluster", "key", "session", "region"⟩ }
  vaultRepo := fun _ => {
    ReadOAuthIntegration := fun _ _ => .error (.msg "record not found")
    ReadGCPIntegration := fun _ _ => .error (.msg "record not found")
    ReadAWSIntegration := fun _ _ => .error (.msg "record not found") }
  EncryptionKey := "key"
  IsExpired := fun _ => false
  CompareHashAndPassword := fun hash password =>
    if hash = "hash" ∧ password = "secret" then none
    else some "crypto/bcrypt: hashedPassword is not the hash of the given password"

end Porter.Credentials

namespace Porter.OAuthCallback

/-! # The GitLab OAuth callback: the redirect

`api/server/handlers/oauth_callback/gitlab.go`, lines 99-110: what the handler
does once the OAuth integration has been created. -/

/-- The fields of `url.URL` the handler reads. -/
structure URL where
  Path : String
  RawQuery : String
  deriving DecidableEq, Repr

/-- What the handler does to the response, in order. -/
inductive Effect where
  /-- `http.Redirect(w, r, target, code)` -/
  | redirect (target : String) (code : Nat)
  deriving DecidableEq, Repr

/-- The effects of a run and how it ended: `faulted` is a run-time panic. -/
structure Result where
  effects : List Effect
  faulted : Bool
  deriving DecidableEq, Repr

/-- `http.StatusFound`. -/
def StatusFound : Nat := 302

/-- Lines 99-110.  `redirectUri` is `session.Values["redirect_uri"]` when it
is a string, `none` otherwise (the type assertion fails).  `parse` is
`url.Parse`: the pointer it returns (`none` is `nil`) and its error.
Line 104 does not return: line 107 runs after it and reads `redirectURI.Path`,
which faults on the nil pointer. -/
def redirectAfterCreate (parse : String → Option URL × Option String)
    (redirectUri : Option String) : Result :=
  match redirectUri with
  | some redirectStr =>
    if redirectStr ≠ "" then
      let onError : List Effect :=
        if (parse redirectStr).2.isSome then [.redirect "/dashboard" StatusFound] else []
      match (parse redirectStr).1 with
      | none => ⟨onError, true⟩
      | some redirectURI =>
        ⟨onError ++ [.redirect (redirectURI.Path ++ "?" ++ redirectURI.RawQuery) StatusFound],
          false⟩
    else ⟨[.redirect "/dashboard" StatusFound], false⟩
  | none => ⟨[.redirect "/dashboard" StatusFound], false⟩

/-- A stand-in for `url.Parse` on two inputs: `":"` does not parse ("missing
protocol scheme", with the nil pointer), anything else is taken as a path. -/
def sampleParse (raw : String) : Option URL × Option String :=
  if raw = ":" then (none, some "parse \":\": missing protocol scheme")
  else (some ⟨raw, ""⟩, none)

end Porter.OAuthCallback

namespace Porter.Stack

/-! # Creating a stack: the resource models

`api/server/handlers/stack/create.go`, lines 170-204. -/

/-- The fields of `types.CreateStackAppResourceRequest` that are read. -/
structure CreateStackAppResourceRequest where
  Name : String
  SourceConfigName : String
  TemplateRepoURL : String
  TemplateName : String
  TemplateVersion : String
  deriving DecidableEq, Repr

/-- The fields of `models.StackSourceConfig` that are written and read. -/
structure StackSourceConfig where
  UID : String
  Name : String
  ImageRepoURI : String
  ImageTag : String
  deriving DecidableEq, Repr

/-- The fields of `models.StackResource` that are written. -/
structure StackResource where
  Name : String
  UID : String
  StackSourceConfigUID : String
  TemplateRepoURL : String
  TemplateName : String
  TemplateVersion : String
  HelmRevisionID : Nat
  deriving DecidableEq, Repr

/-- Lines 180-186: the UID of the last source config of that name, the empty
string when there is none. -/
def linkedSourceConfigUID (sourceConfigs : List StackSourceConfig) (name : String) : String :=
  sourceConfigs.foldl (fun linked sourceConfig =>
    if sourceConfig.Name = name then sourceConfig.UID else linked) ""

/-- The text of the error of line 189. -/
def missingSourceConfig (name : String) : String :=
  "source config " ++ name ++ " does not exist in source config list"

/-- The loop of lines 173-201.  `gen k` is what the `k`-th call of
`encryption.GenerateRandomBytes(16)` returns; `calls` calls have been made and
`res` has been built so far. -/
def getResourceModelsLoop (gen : Nat → Except String String)
    (sourceConfigs : List StackSourceConfig) :
    List CreateStackAppResourceRequest → Nat → List StackResource →
      Except String (List StackResource)
  | [], _, res => .ok res
  | appResource :: rest, calls, res =>
    match gen calls with
    | .error err => .error err
    | .ok uid =>
      if linkedSourceConfigUID sourceConfigs appResource.SourceConfigName = "" then
        .error (missingSourceConfig appResource.SourceConfigName)
      else
        getResourceModelsLoop gen sourceConfigs rest (calls + 1)
          (res ++ [{ Name := appResource.Name, UID := uid,
                     StackSourceConfigUID :=
                       linkedSourceConfigUID sourceConfigs appResource.SourceConfigName,
                     TemplateRepoURL := appResource.TemplateRepoURL,
                     TemplateName := appResource.TemplateName,
                     TemplateVersion := appResource.TemplateVersion,
                     HelmRevisionID := 1 }])

/-- `getResourceModels` (lines 170-204); an error return carries no list. -/
def getResourceModels (gen : Nat → Except String String)
    (appResources : List CreateStackAppResourceRequest)
    (sourceConfigs : List StackSourceConfig) : Except String (List StackResource) :=
  getResourceModelsLoop gen sourceConfigs appResources 0 []

/-- A generator for examples: the `k`-th UID is `"uid"` followed by `k`. -/
def sampleGen (k : Nat) : Except String String := .ok ("uid" ++ toString k)

/-- Two source configs for examples. -/
def sampleConfigs : List StackSourceConfig :=
  [⟨"sc-1", "web", "repo/web", "v1"⟩, ⟨"sc-2", "db", "repo/db", "v2"⟩]

/-- Three app resources for examples: the second and the third name source
configs that are not in `sampleConfigs`. -/
def sampleResources : List CreateStackAppResourceRequest :=
  [⟨"app", "web", "charts", "web", "1.0"⟩, ⟨"cache", "redis", "charts", "redis", "1.0"⟩,
   ⟨"queue", "kafka", "charts", "kafka", "1.0"⟩]

end Porter.Stack

namespace Porter.Stack

/-! # Creating a stack: the source config models and the handler

`api/server/handlers/stack/create.go`, lines 33-168. -/

/-- The fields of `types.CreateStackSourceConfigRequest` that are read.
`Build` is the type `StackSourceConfigBuild` points to; `none` is `nil`. -/
structure CreateStackSourceConfigRequest (Build : Type) where
  Name : String
  ImageRepoURI : String
  ImageTag : String
  StackSourceConfigBuild : Option Build

/-- The loop of lines 150-165.  `gen k` is what the `k`-th call of
`encryption.GenerateRandomBytes(16)` returns; `calls` calls have been made and
`res` has been built so far. -/
def getSourceConfigModelsLoop {Build : Type} (gen : Nat → Except String String) :
    List (CreateStackSourceConfigRequest Build) → Nat → List StackSourceConfig →
      Except String (List StackSourceConfig)
  | [], _, res => .ok res
  | sourceConfig :: rest, calls, res =>
    match sourceConfig.StackSourceConfigBuild with
    | none =>
      match gen calls with
      | .error err => .error err
      | .ok uid =>
        getSourceConfigModelsLoop gen rest (calls + 1)
          (res ++ [{ UID := uid, Name := sourceConfig.Name,
                     ImageRepoURI := sourceConfig.ImageRepoURI,
                     ImageTag := sourceConfig.ImageTag }])
    | some _ => getSourceConfigModelsLoop gen rest calls res

/-- `getSourceConfigModels` (lines 145-168); an error return carries no list. -/
def getSourceConfigModels {Build : Type} (gen : Nat → Except String String)
    (sourceConfigs : List (CreateStackSourceConfigRequest Build)) :
    Except String (List StackSourceConfig) :=
  getSourceConfigModelsLoop gen sourceConfigs 0 []

/-- The fields of `types.CreateStackRequest` that are read. -/
structure CreateStackRequest (Build : Type) where
  Name : String
  AppResources : List CreateStackAppResourceRequest
  SourceConfigs : List (CreateStackSourceConfigRequest Build)

/-- The fields of `models.StackRevision` that are written. -/
structure StackRevision where
  RevisionNumber : Nat
  Status : String
  SourceConfigs : List StackSourceConfig
  Resources : List StackResource
  deriving DecidableEq, Repr

set_option linter.dupNamespace false

/-- The fields of `models.Stack` that are written and read. -/
structure Stack where
  ProjectID : Nat
  ClusterID : Nat
  Namespace : String
  Name : String
  UID : String
  Revisions : List StackRevision
  deriving DecidableEq, Repr

/-- The fields of `models.Cluster` that are read. -/
structure Cluster where
  ID : Nat
  ProjectID : Nat
  deriving DecidableEq, Repr

/-- What the handler is given: the random source, two constants of package
`types`, the repository, the Helm agent getter and `applyAppResource`.  A Go
`error` is its text; for a call that only reports an error `none` is `nil`. -/
structure World where
  /-- the `k`-th call of `encryption.GenerateRandomBytes(16)` in the request -/
  GenerateRandomBytes : Nat → Except String String
  /-- `string(types.StackRevisionStatusDeploying)` -/
  StackRevisionStatusDeploying : String
  /-- `string(types.StackRevisionStatusDeployed)` -/
  StackRevisionStatusDeployed : String
  /-- `p.Repo().Stack().CreateStack` -/
  CreateStack : Stack → Except String Stack
  /-- the error of `p.Repo().Registry().ListRegistriesByProjectID` -/
  ListRegistriesByProjectID : Nat → Option String
  /-- the error of `p.GetHelmAgent(r, cluster, "")` -/
  GetHelmAgent : Cluster → Option String
  /-- the error of the `k`-th call of `applyAppResource` -/
  applyAppResource : Nat → CreateStackAppResourceRequest → Option String
  /-- `p.Repo().Stack().UpdateStackRevision` -/
  UpdateStackRevision : StackRevision → Except String StackRevision
  /-- `p.Repo().Stack().ReadStackByStringID` -/
  ReadStackByStringID : Nat → String → Except String Stack

/-- What the handler does to the database, the cluster and the response. -/
inductive Effect where
  /-- `p.HandleAPIError(w, r, apierrors.NewErrInternal(err))` -/
  | handleAPIError (err : String)
  /-- `p.Repo().Stack().CreateStack(stack)` is called -/
  | createStack (stack : Stack)
  /-- `applyAppResource` is called for the request -/
  | applyAppResource (request : CreateStackAppResourceRequest)
  /-- `p.Repo().Stack().UpdateStackRevision(revision)` is called -/
  | updateStackRevision (revision : StackRevision)
  /-- `w.WriteHeader(code)` -/
  | writeHeader (code : Nat)
  /-- `p.WriteResult(w, r, stack.ToStackType())` -/
  | writeResult (stack : Stack)
  deriving DecidableEq, Repr

/-- The effects of a run and how it ended: `faulted` is a run-time panic. -/
structure Result where
  effects : List Effect
  faulted : Bool
  deriving DecidableEq, Repr

/-- `http.StatusCreated`. -/
def StatusCreated : Nat := 201

/-- The loop of lines 104-120: the calls made, and the error that ended it. -/
def applyAppResources (world : World) :
    List CreateStackAppResourceRequest → Nat → List Effect × Option String
  | [], _ => ([], none)
  | appResource :: rest, calls =>
    match world.applyAppResource calls appResource with
    | some err => ([.applyAppResource appResource], some err)
    | none =>
      ((Effect.applyAppResource appResource) :: (applyAppResources world rest (calls + 1)).1,
        (applyAppResources world rest (calls + 1)).2)

/-- Lines 82-142: the stack is written, the app resources are applied, the
revision is marked as deployed and the stack is read again and returned. -/
def createAndApply {Build : Type} (world : World) (projID : Nat) (cluster : Cluster)
    (req : CreateStackRequest Build) (stack : Stack) : Result :=
  match world.CreateStack stack with
  | .error err => ⟨[.createStack stack, .handleAPIError err], false⟩
  | .ok created =>
    match world.ListRegistriesByProjectID cluster.ProjectID with
    | some err => ⟨[.createStack stack, .handleAPIError err], false⟩
    | none =>
      match world.GetHelmAgent cluster with
      | some err => ⟨[.createStack stack, .handleAPIError err], false⟩
      | none =>
        match applyAppResources world req.AppResources 0 with
        | (applied, some err) =>
          ⟨.createStack stack :: applied ++ [.handleAPIError err], false⟩
        | (applied, none) =>
          match created.Revisions with
          | [] => ⟨.createStack stack :: applied, true⟩
          | first :: _ =>
            match world.UpdateStackRevision
                { first with Status := world.StackRevisionStatusDeployed } with
            | .error err =>
              ⟨.createStack stack :: applied ++
                [.updateStackRevision { first with Status := world.StackRevisionStatusDeployed },
                 .handleAPIError err], false⟩
            | .ok _ =>
              match world.ReadStackByStringID projID created.UID with
              | .error err =>
                ⟨.createStack stack :: applied ++
                  [.updateStackRevision
                      { first with Status := world.StackRevisionStatusDeployed },
                   .handleAPIError err], false⟩
              | .ok latest =>
                ⟨.createStack stack :: applied ++
                  [.updateStackRevision
                      { first with Status := world.StackRevisionStatusDeployed },
                   .writeHeader StatusCreated, .writeResult latest], false⟩

/-- `StackCreateHandler.ServeHTTP` (lines 33-143).  `proj` and `cluster` are
the values of the request context, `none` being the nil pointer the failed
type assertion leaves; `decoded` is the request `DecodeAndValidate` has filled,
`none` when it returned false (it has then written the error itself).  The
calls of `GenerateRandomBytes` are counted through the request: line 44 makes
call 0, `getSourceConfigModels` the next ones, one for every model it returns,
and `getResourceModels` the ones after those. -/
def serveHTTP {Build : Type} (world : World) (proj : Option Nat) (cluster : Option Cluster)
    (namespace_ : String) (decoded : Option (CreateStackRequest Build)) : Result :=
  match decoded with
  | none => ⟨[], false⟩
  | some req =>
    match world.GenerateRandomBytes 0 with
    | .error err => ⟨[.handleAPIError err], false⟩
    | .ok uid =>
      match getSourceConfigModels (fun k => world.GenerateRandomBytes (1 + k))
          req.SourceConfigs with
      | .error err => ⟨[.handleAPIError err], false⟩
      | .ok sourceConfigs =>
        match getResourceModels
            (fun k => world.GenerateRandomBytes (1 + sourceConfigs.length + k))
            req.AppResources sourceConfigs with
        | .error err => ⟨[.handleAPIError err], false⟩
        | .ok resources =>
          match proj, cluster with
          | some projID, some cluster =>
            createAndApply world projID cluster req
              { ProjectID := projID, ClusterID := cluster.ID, Namespace := namespace_,
                Name := req.Name, UID := uid,
                Revisions := [{ RevisionNumber := 1,
                                Status := world.StackRevisionStatusDeploying,
                                SourceConfigs := sourceConfigs,
                                Resources := resources }] }
          | _, _ => ⟨[], true⟩

/-- Three source-config requests for examples: `web` and `db` are images,
`api` is built from source. -/
def sampleRequests : List (CreateStackSourceConfigRequest String) :=
  [⟨"web", "repo/web", "v1", none⟩, ⟨"api", "", "", some "dockerfile"⟩,
   ⟨"db", "repo/db", "v2", none⟩]

/-- A world for examples: everything succeeds. -/
def sampleWorld : World where
  GenerateRandomBytes := sampleGen
  StackRevisionStatusDeploying := "deploying"
  StackRevisionStatusDeployed := "deployed"
  CreateStack := fun stack => .ok stack
  ListRegistriesByProjectID := fun _ => none
  GetHelmAgent := fun _ => none
  applyAppResource := fun _ _ => none
  UpdateStackRevision := fun revision => .ok revision
  ReadStackByStringID := fun _ _ => .error "record not found"

/-- A request for examples: its only app resource is deployed from the source
config `api`, which is built from source. -/
def sampleStackRequest : CreateStackRequest String where
  Name := "stack"
  AppResources := [⟨"backend", "api", "charts", "web", "1.0"⟩]
  SourceConfigs := sampleRequests

end Porter.Stack

namespace Porter.RouterV1

/-! # The registry routes of the v1 API

`api/server/router/v1/registry.go`. -/

/-- The values of `types.PermissionScope` that the registry routes use. -/
inductive PermissionScope where
  | UserScope
  | ProjectScope
  | RegistryScope
  deriving DecidableEq, Repr

/-- The values of `types.APIVerb` that the registry routes use. -/
inductive APIVerb where
  | APIVerbGet
  | APIVerbCreate
  | APIVerbList
  | APIVerbDelete
  deriving DecidableEq, Repr

/-- The values of `types.HTTPVerb` that the registry routes use. -/
inductive HTTPVerb where
  | HTTPVerbGet
  | HTTPVerbPost
  | HTTPVerbDelete
  deriving DecidableEq, Repr

/-- `types.Path`, over the type `P` of the base path it hangs from. -/
structure Path (P : Type) where
  Parent : P
  RelativePath : String

/-- `types.APIRequestMetadata`. -/
structure APIRequestMetadata (P : Type) where
  Verb : APIVerb
  Method : HTTPVerb
  Path : Path P
  Scopes : List PermissionScope

/-- A `router.Route`: the metadata its endpoint is made from, the constructor
of its handler, and the operation id of the `swagger:operation` comment that
stands above it. -/
structure Route (P : Type) where
  operation : String
  Endpoint : APIRequestMetadata P
  Handler : String

/-- The operations named by the `swagger:parameters` comment of
`registryPathParams` (line 14). -/
def registryPathParamsOperations : List String :=
  ["getRegistry", "deleteRegistry", "createRegistryRepository", "listRegistryRepositories",
   "listRegistryImages"]

/-- `getV1RegistryRoutes` (lines 58-425): the routes and the new path.
`wildcard` is `types.URLParamWildcard`. -/
def getV1RegistryRoutes {P : Type} (basePath : P) (wildcard : String) :
    List (Route P) × Path P :=
  let relPath := "/registries"
  let newPath : Path P := { Parent := basePath, RelativePath := relPath }
  let routes : List (Route P) := []
  let routes := routes ++ [{
    operation := "createRegistry"
    Endpoint := {
      Verb := .APIVerbCreate, Method := .HTTPVerbPost,
      Path := { Parent := basePath, RelativePath := relPath },
      Scopes := [.UserScope, .ProjectScope] }
    Handler := "registry.NewRegistryCreateHandler" }]
  let routes := routes ++ [{
    operation := "getRegistry"
    Endpoint := {
      Verb := .APIVerbGet, Method := .HTTPVerbGet,
      Path := { Parent := basePath, RelativePath := relPath ++ "/{registry_id}" },
      Scopes := [.UserScope, .ProjectScope, .RegistryScope] }
    Handler := "registry.NewRegistryGetHandler" }]
  let routes := routes ++ [{
    operation := "listRegistries"
    Endpoint := {
      Verb := .APIVerbList, Method := .HTTPVerbGet,
      Path := { Parent := basePath, RelativePath := relPath },
      Scopes := [.UserScope, .ProjectScope] }
    Handler := "registry.NewRegistryListHandler" }]
  let routes := routes ++ [{
    operation := "deleteRegistry"
    Endpoint := {
      Verb := .APIVerbDelete, Method := .HTTPVerbDelete,
      Path := { Parent := basePath, RelativePath := relPath ++ "/{registry_id}" },
      Scopes := [.UserScope, .ProjectScope, .RegistryScope] }
    Handler := "registry.NewRegistryDeleteHandler" }]
  let routes := routes ++ [{
    operation := "createRegistryRepository"
    Endpoint := {
      Verb := .APIVerbCreate, Method := .HTTPVerbPost,
      Path := { Parent := basePath, RelativePath := relPath ++ "/{registry_id}/repositories" },
      Scopes := [.UserScope, .ProjectScope, .RegistryScope] }
    Handler := "registry.NewRegistryCreateRepositoryHandler" }]
  let routes := routes ++ [{
    operation := "listRegistryRepositories"
    Endpoint := {
      Verb := .APIVerbList, Method := .HTTPVerbGet,
      Path := { Parent := basePath, RelativePath := relPath ++ "/{registry_id}/repositories" },
      Scopes := [.UserScope, .ProjectScope, .RegistryScope] }
    Handler := "registry.NewRegistryListRepositoriesHandler" }]
  let routes := routes ++ [{
    operation := "listRegistryImages"
    Endpoint := {
      Verb := .APIVerbList, Method := .HTTPVerbGet,
      Path := { Parent := basePath,
                RelativePath := relPath ++ "/{registry_id}/repositories/" ++ wildcard },
      Scopes := [.UserScope, .ProjectScope, .RegistryScope] }
    Handler := "registry.NewRegistryListImagesHandler" }]
  (routes, newPath)

/-- The text of a path contains the `{registry_id}` parameter. -/
def hasRegistryID (path : String) : Prop :=
  "{registry_id}".toList <:+: path.toList

instance (path : String) : Decidable (hasRegistryID path) :=
  inferInstanceAs (Decidable ("{registry_id}".toList <:+: path.toList))

end Porter.RouterV1

namespace Porter.EnvironmentRepo

/-! # The environment repository: reading a deployment by cluster

`internal/repository/gorm/environment.go`, lines 84-104. -/

/-- A value bound to a `?` of a condition. -/
inductive Value where
  | uint (n : Nat)
  | str (s : String)
  deriving DecidableEq, Repr

/-- The query a chain of `Order`, `Joins` and `Where` calls builds; a clause
that is not used is the empty string. -/
structure Query where
  order : String
  joins : String
  condition : String
  args : List Value
  deriving DecidableEq, Repr

/-- The fields of `models.Deployment` that matter here. -/
structure Deployment where
  ID : Nat
  EnvironmentID : Nat
  Namespace : String
  deriving DecidableEq, Repr

/-- The value of `&models.Deployment{}`. -/
def Deployment.zero : Deployment := ⟨0, 0, ""⟩

set_option linter.unusedVariables false

/-- The query of lines 95-98, built when `depl` is still the zero value of
line 93: the third bound value is `depl.Namespace`. -/
def readDeploymentByClusterQuery (projectID clusterID : Nat) (namespace_ : String) : Query :=
  let depl := Deployment.zero
  { order := "deployments.id asc"
    joins := "INNER JOIN environments ON environments.id = deployments.environment_id"
    condition := "environments.project_id = ? AND environments.cluster_id = ? AND environments.deleted_at IS NULL AND namespace = ?"
    args := [.uint projectID, .uint clusterID, .str depl.Namespace] }

/-- `EnvironmentRepository.ReadDeploymentByCluster` (lines 92-104).  `find` is
`Find` of gorm: given the query and the destination it returns what the
destination holds afterwards and its error (`none` is `nil`). -/
def readDeploymentByCluster (find : Query → Deployment → Deployment × Option String)
    (projectID clusterID : Nat) (namespace_ : String) : Except String Deployment :=
  match find (readDeploymentByClusterQuery projectID clusterID namespace_) Deployment.zero with
  | (_, some err) => .error err
  | (depl, none) => .ok depl

/-- The query of line 86. -/
def readDeploymentQuery (environmentID : Nat) (namespace_ : String) : Query :=
  { order := "id desc"
    joins := ""
    condition := "environment_id = ? AND namespace = ?"
    args := [.uint environmentID, .str namespace_] }

/-- A row of `deployments` joined with its environment. -/
structure Row where
  deployment : Deployment
  projectID : Nat
  clusterID : Nat
  deleted : Bool
  deriving DecidableEq, Repr

/-- A stand-in for `Find` over a table, for the condition of line 98: the
first row, in the order of the table, that meets the condition with the bound
values is copied into the destination; when no row does, the destination is
left as it is.  No error in either case. -/
def sampleFind (table : List Row) (query : Query) (dest : Deployment) :
    Deployment × Option String :=
  match query.args with
  | [.uint projectID, .uint clusterID, .str ns] =>
    match table.find? (fun row => row.projectID = projectID ∧ row.clusterID = clusterID ∧
        row.deleted = false ∧ row.deployment.Namespace = ns) with
    | some row => (row.deployment, none)
    | none => (dest, none)
  | _ => (dest, some "unsupported query")

/-- A table for examples: one deployment, in the namespace `pr-12` of
project 1, cluster 1. -/
def sampleTable : List Row := [⟨⟨5, 2, "pr-12"⟩, 1, 1, false⟩]

end Porter.EnvironmentRepo

namespace Porter.StreamState

variable {U : Type}

/-! ## Invariants of the session -/

theorem sound_init : Sound (init : State U) := by
  constructor <;> simp [init, WatchPc.running, UpPc.running, CtlPc.inLoop]

/-- While a pump is running the channel is open. -/
theorem Sound.open_of_running {s : State U} (h : Sound s)
    (hr : s.watch.running = true ∨ s.up.running = true) : s.chanClosed = false := by
  obtain ⟨h1, h2, h3, _, _⟩ := h
  cases hc : s.chanClosed with
  | false => rfl
  | true =>
    have hk := h3.mp hc
    have h0 := h2 (by rw [hk]; decide)
    rw [h0] at h1
    rcases hr with hr | hr
    · rw [hr] at h1
      simp only [if_true] at h1
      omega
    · rw [hr] at h1
      simp only [if_true] at h1
      omega

theorem sound_stepWatch (r : Option GoError) (s : State U) (h : Sound s) : Sound (stepWatch r s) := by
  have ho := h.open_of_running
  obtain ⟨h1, h2, h3, h4, h5⟩ := h
  rcases s with ⟨w, u, ct, k, wg, can, cl, p, t⟩
  simp only at h1 h2 h3 h4 h5 ho
  subst h5
  cases w
  · cases r
    · exact ⟨h1, h2, h3, h4, rfl⟩
    · exact ⟨h1, h2, h3, h4, rfl⟩
  · obtain rfl := ho (Or.inl rfl)
    cases ct <;> exact ⟨h1, h2, h3, h4, rfl⟩
  · refine ⟨?_, ?_, h3, h4, rfl⟩
    · simp only [stepWatch, emit]
      rw [h1]
      simp [WatchPc.running]
    · intro hk
      have := h2 hk
      simp only [stepWatch, emit]
      omega
  · exact ⟨h1, h2, h3, h4, rfl⟩

theorem sound_stepUp (r : RecvResult U) (w : Option GoError) (s : State U) (h : Sound s) :
    Sound (stepUp r w s) := by
  have ho := h.open_of_running
  obtain ⟨h1, h2, h3, h4, h5⟩ := h
  rcases s with ⟨wa, u, ct, k, wg, can, cl, p, t⟩
  simp only at h1 h2 h3 h4 h5 ho
  subst h5
  cases u
  · cases r <;> exact ⟨h1, h2, h3, h4, rfl⟩
  · simp only [stepUp]
    split <;> exact ⟨h1, h2, h3, h4, rfl⟩
  · obtain rfl := ho (Or.inr rfl)
    cases ct <;> exact ⟨h1, h2, h3, h4, rfl⟩
  · obtain rfl := ho (Or.inr rfl)
    cases ct <;> exact ⟨h1, h2, h3, h4, rfl⟩
  · cases w <;> exact ⟨h1, h2, h3, h4, rfl⟩
  · obtain rfl := ho (Or.inr rfl)
    cases ct <;> exact ⟨h1, h2, h3, h4, rfl⟩
  · refine ⟨?_, ?_, h3, h4, rfl⟩
    · simp only [stepUp, emit]
      rw [h1]
      simp [UpPc.running]
    · intro hk
      have := h2 hk
      simp only [stepUp, emit]
      omega
  · exact ⟨h1, h2, h3, h4, rfl⟩

theorem sound_stepCtl (e : Option GoError) (s : State U) (h : Sound s) : Sound (stepCtl e s) := by
  obtain ⟨h1, h2, h3, h4, h5⟩ := h
  rcases s with ⟨wa, u, ct, k, wg, can, cl, p, t⟩
  simp only at h1 h2 h3 h4 h5
  subst h5
  cases ct
  · cases cl
    · exact ⟨h1, h2, h3, h4, rfl⟩
    · exact ⟨h1, h2, h3, fun _ => rfl, rfl⟩
  · rename_i sig
    cases sig <;> exact ⟨h1, h2, h3, h4, rfl⟩
  all_goals exact ⟨h1, h2, h3, h4, rfl⟩

theorem sound_stepCloser (s : State U) (h : Sound s) : Sound (stepCloser s) := by
  obtain ⟨h1, h2, h3, h4, h5⟩ := h
  rcases s with ⟨wa, u, ct, k, wg, can, cl, p, t⟩
  simp only at h1 h2 h3 h4 h5
  subst h5
  cases k
  · simp only [stepCloser]
    split
    · rename_i h0
      refine ⟨h1, fun _ => h0, ?_, h4, rfl⟩
      simp at h3 ⊢
      exact h3
    · exact ⟨h1, h2, h3, h4, rfl⟩
  · exact ⟨h1, fun _ => h2 (by decide), by simp [stepCloser, emit], fun _ => rfl, rfl⟩
  · exact ⟨h1, h2, h3, h4, rfl⟩

theorem sound_step (s : State U) (c : Choice U) (h : Sound s) : Sound (step s c) := by
  unfold step
  rw [h.no_panic]
  cases c with
  | watch r => exact sound_stepWatch r s h
  | upstream r w => exact sound_stepUp r w s h
  | controller e => exact sound_stepCtl e s h
  | closer => exact sound_stepCloser s h

theorem sound_runFrom (cs : List (Choice U)) (s : State U) (h : Sound s) : Sound (runFrom s cs) := by
  induction cs generalizing s with
  | nil => exact h
  | cons c cs ih => exact ih (step s c) (sound_step s c h)

theorem sound_run (cs : List (Choice U)) : Sound (run cs) :=
  sound_runFrom cs init sound_init

theorem viewOf_nil (g : Gor) : viewOf g ([] : List (Event U)) = [] := rfl

theorem viewOf_snoc_self (g : Gor) (t : List (Event U)) (a : Action U) :
    viewOf g (t ++ [⟨g, a⟩]) = viewOf g t ++ [a] := by
  simp [viewOf, List.filter_append]

theorem viewOf_snoc_other {g g' : Gor} (h : g' ≠ g) (t : List (Event U)) (a : Action U) :
    viewOf g (t ++ [⟨g', a⟩]) = viewOf g t := by
  simp [viewOf, List.filter_append, h]

theorem upShape_init : UpShape (init : State U) :=
  ⟨[], [], rfl, .recv⟩

theorem upShape_stepUp (r : RecvResult U) (w : Option GoError) (s : State U) (h : UpShape s) :
    UpShape (stepUp r w s) := by
  obtain ⟨items, tail, hv, ht⟩ := h
  rcases s with ⟨wa, u, ct, k, wg, can, cl, p, t⟩
  simp only at hv ht
  cases ht with
  | recv =>
    cases r with
    | update u => exact ⟨items, _, by simp [stepUp, emit, viewOf_snoc_self, hv], .write u⟩
    | fail e => exact ⟨items, _, by simp [stepUp, emit, viewOf_snoc_self, hv], .check e⟩
  | write u =>
    cases w with
    | none =>
      exact ⟨items ++ [(u, none)], [], by simp [stepUp, writeJSONWithChannel, emit, viewOf_snoc_self, hv, fwdActs], .recv⟩
    | some e =>
      exact ⟨items, _, by simp [stepUp, writeJSONWithChannel, emit, viewOf_snoc_self, hv], .forward u e⟩
  | forward u e =>
    cases cl with
    | true => exact ⟨items, _, hv, .forward u e⟩
    | false =>
      cases ct with
      | range =>
        exact ⟨items ++ [(u, some e)], [], by simp [stepUp, sendOn, emit, viewOf_snoc_self, hv, fwdActs], .recv⟩
      | _ => exact ⟨items, _, hv, .forward u e⟩
  | check e =>
    by_cases hc : e = GoError.EOF ∨ can = true
    · refine ⟨items, [.recv (.fail e), .errCheck can], ?_, ?_⟩
      · simp [stepUp, hc, emit, viewOf_snoc_self, hv]
      · simp only [stepUp, hc, if_true]
        exact .sendNil e can hc
    · have hcan : can = false := by
        cases can
        · rfl
        · exact absurd (Or.inr rfl) hc
      subst hcan
      have he : e ≠ GoError.EOF := fun h => hc (Or.inl h)
      refine ⟨items, [.recv (.fail e), .errCheck false], ?_, ?_⟩
      · simp [stepUp, he, emit, viewOf_snoc_self, hv]
      · simp only [stepUp, hc, if_false]
        exact .sendErr e he
  | sendNil e c hc =>
    cases cl with
    | true => exact ⟨items, _, hv, .sendNil e c hc⟩
    | false =>
      cases ct with
      | range =>
        refine ⟨items, _, ?_, .exit e c⟩
        simp [stepUp, sendOn, emit, viewOf_snoc_self, hv, endSend, hc]
      | _ => exact ⟨items, _, hv, .sendNil e c hc⟩
  | sendErr e he =>
    cases cl with
    | true => exact ⟨items, _, hv, .sendErr e he⟩
    | false =>
      cases ct with
      | range =>
        refine ⟨items, _, ?_, .exit e false⟩
        simp [stepUp, sendOn, emit, viewOf_snoc_self, hv, endSend, he]
      | _ => exact ⟨items, _, hv, .sendErr e he⟩
  | exit e c =>
    exact ⟨items, _, by simp [stepUp, emit, viewOf_snoc_self, hv, lastTurn], .done e c⟩
  | done e c => exact ⟨items, _, hv, .done e c⟩

theorem viewOf_append (g : Gor) (t t' : List (Event U)) :
    viewOf g (t ++ t') = viewOf g t ++ viewOf g t' := by
  simp [viewOf, List.filter_append]

theorem viewOf_map_self (g : Gor) (as : List (Action U)) :
    viewOf g (as.map (Event.mk g)) = as := by
  induction as with
  | nil => rfl
  | cons a as ih =>
    simp only [viewOf, List.map_cons, List.filter_cons, decide_True, if_true] at ih ⊢
    rw [ih]

theorem viewOf_map_other {g g' : Gor} (h : g' ≠ g) (as : List (Action U)) :
    viewOf g (as.map (Event.mk g')) = [] := by
  induction as with
  | nil => rfl
  | cons a as ih =>
    simp only [viewOf, List.map_cons, List.filter_cons, h, decide_False] at ih ⊢
    simpa using ih

theorem extends_refl (g : Gor) (s : State U) : Extends g s s :=
  ⟨[], by simp, by simp⟩

theorem extends_emit (g : Gor) (s s' : State U) (a : Action U)
    (h : s'.trace = s.trace ++ [⟨g, a⟩]) (hp : mayPerform g a = true) : Extends g s s' :=
  ⟨[a], by simpa using h, by simpa using hp⟩

theorem stepWatch_extends (r : Option GoError) (s : State U) : Extends .watch s (stepWatch r s) := by
  rcases s with ⟨wa, u, ct, k, wg, can, cl, p, t⟩
  cases wa
  · cases r
    · exact extends_emit _ _ _ _ rfl rfl
    · exact extends_emit _ _ _ _ rfl rfl
  · cases cl
    · cases ct
      · exact extends_emit _ _ _ _ rfl rfl
      all_goals exact extends_refl _ _
    · exact extends_refl _ _
  · exact extends_emit _ _ _ _ rfl rfl
  · exact extends_refl _ _

theorem stepUp_extends (r : RecvResult U) (w : Option GoError) (s : State U) :
    Extends .upstream s (stepUp r w s) := by
  rcases s with ⟨wa, u, ct, k, wg, can, cl, p, t⟩
  cases u
  · cases r
    · exact extends_emit _ _ _ _ rfl rfl
    · exact extends_emit _ _ _ _ rfl rfl
  · simp only [stepUp]
    split
    · exact extends_emit _ _ _ _ rfl rfl
    · exact extends_emit _ _ _ _ rfl rfl
  · cases cl
    · cases ct
      · exact extends_emit _ _ _ _ rfl rfl
      all_goals exact extends_refl _ _
    · exact extends_refl _ _
  · cases cl
    · cases ct
      · exact extends_emit _ _ _ _ rfl rfl
      all_goals exact extends_refl _ _
    · exact extends_refl _ _
  · cases w
    · exact extends_emit _ _ _ _ rfl rfl
    · exact extends_emit _ _ _ _ rfl rfl
  · cases cl
    · cases ct
      · exact extends_emit _ _ _ _ rfl rfl
      all_goals exact extends_refl _ _
    · exact extends_refl _ _
  · exact extends_emit _ _ _ _ rfl rfl
  · exact extends_refl _ _

theorem stepCtl_extends (e : Option GoError) (s : State U) :
    Extends .controller s (stepCtl e s) := by
  rcases s with ⟨wa, u, ct, k, wg, can, cl, p, t⟩
  cases ct
  · cases cl
    · exact extends_refl _ _
    · exact extends_refl _ _
  · rename_i sig
    cases sig
    · exact extends_refl _ _
    · exact extends_emit _ _ _ _ rfl rfl
  · exact extends_emit _ _ _ _ rfl rfl
  · exact extends_emit _ _ _ _ rfl rfl
  · exact extends_emit _ _ _ _ rfl rfl
  · exact extends_emit _ _ _ _ rfl rfl
  · exact extends_refl _ _

theorem stepCloser_extends (s : State U) : Extends .closer s (stepCloser s) := by
  rcases s with ⟨wa, u, ct, k, wg, can, cl, p, t⟩
  cases k
  · simp only [stepCloser]
    split
    · exact extends_refl _ _
    · exact extends_refl _ _
  · exact extends_emit _ _ _ _ rfl rfl
  · exact extends_refl _ _

theorem Extends.viewOf_other {g g' : Gor} {s s' : State U} (h : Extends g' s s') (hg : g' ≠ g) :
    viewOf g s'.trace = viewOf g s.trace := by
  obtain ⟨as, ht, _⟩ := h
  rw [ht, viewOf_append, viewOf_map_other hg, List.append_nil]

theorem Extends.wellActed {g : Gor} {s s' : State U} (h : Extends g s s') (hs : WellActed s) :
    WellActed s' := by
  obtain ⟨as, ht, hp⟩ := h
  intro ev hev
  rw [ht, List.mem_append] at hev
  rcases hev with hev | hev
  · exact hs ev hev
  · obtain ⟨a, ha, rfl⟩ := List.mem_map.mp hev
    exact hp a ha

theorem stepWatch_up (r : Option GoError) (s : State U) : (stepWatch r s).up = s.up := by
  rcases s with ⟨wa, u, ct, k, wg, can, cl, p, t⟩
  cases wa
  · cases r <;> rfl
  · cases cl
    · cases ct <;> rfl
    · rfl
  · rfl
  · rfl

theorem stepCtl_up (e : Option GoError) (s : State U) : (stepCtl e s).up = s.up := by
  rcases s with ⟨wa, u, ct, k, wg, can, cl, p, t⟩
  cases ct
  · cases cl <;> rfl
  · rename_i sig
    cases sig <;> rfl
  all_goals rfl

theorem stepCloser_up (s : State U) : (stepCloser s).up = s.up := by
  rcases s with ⟨wa, u, ct, k, wg, can, cl, p, t⟩
  cases k
  · simp only [stepCloser]
    split <;> rfl
  · rfl
  · rfl

theorem upShape_step (s : State U) (c : Choice U) (h : UpShape s) : UpShape (step s c) := by
  unfold step
  split
  · exact h
  · cases c with
    | watch r =>
      obtain ⟨items, tail, hv, ht⟩ := h
      exact ⟨items, tail, by rw [(stepWatch_extends r s).viewOf_other (by decide), hv],
        by rw [stepWatch_up]; exact ht⟩
    | upstream r w => exact upShape_stepUp r w s h
    | controller e =>
      obtain ⟨items, tail, hv, ht⟩ := h
      exact ⟨items, tail, by rw [(stepCtl_extends e s).viewOf_other (by decide), hv],
        by rw [stepCtl_up]; exact ht⟩
    | closer =>
      obtain ⟨items, tail, hv, ht⟩ := h
      exact ⟨items, tail, by rw [(stepCloser_extends s).viewOf_other (by decide), hv],
        by rw [stepCloser_up]; exact ht⟩

theorem wellActed_step (s : State U) (c : Choice U) (h : WellActed s) : WellActed (step s c) := by
  unfold step
  split
  · exact h
  · cases c with
    | watch r => exact (stepWatch_extends r s).wellActed h
    | upstream r w => exact (stepUp_extends r w s).wellActed h
    | controller e => exact (stepCtl_extends e s).wellActed h
    | closer => exact (stepCloser_extends s).wellActed h

theorem watchShape_init : WatchShape (init : State U) :=
  ⟨0, [], rfl, .read⟩

theorem watchShape_stepWatch (r : Option GoError) (s : State U) (h : WatchShape s) :
    WatchShape (stepWatch r s) := by
  obtain ⟨n, tail, hv, ht⟩ := h
  rcases s with ⟨wa, u, ct, k, wg, can, cl, p, t⟩
  simp only at hv ht
  cases ht with
  | read =>
    cases r with
    | none =>
      refine ⟨n + 1, [], ?_, .read⟩
      simp [stepWatch, emit, viewOf_snoc_self, hv, List.replicate_succ']
    | some e => exact ⟨n, _, by simp [stepWatch, emit, viewOf_snoc_self, hv], .send e⟩
  | send e =>
    cases cl with
    | true => exact ⟨n, _, hv, .send e⟩
    | false =>
      cases ct with
      | range =>
        exact ⟨n, _, by simp [stepWatch, sendOn, emit, viewOf_snoc_self, hv], .exit e⟩
      | _ => exact ⟨n, _, hv, .send e⟩
  | exit e => exact ⟨n, _, by simp [stepWatch, emit, viewOf_snoc_self, hv], .done e⟩
  | done e => exact ⟨n, _, hv, .done e⟩

theorem stepUp_watch (r : RecvResult U) (w : Option GoError) (s : State U) :
    (stepUp r w s).watch = s.watch := by
  rcases s with ⟨wa, u, ct, k, wg, can, cl, p, t⟩
  cases u
  · cases r <;> rfl
  · simp only [stepUp]
    split <;> rfl
  · cases cl
    · cases ct <;> rfl
    · rfl
  · cases cl
    · cases ct <;> rfl
    · rfl
  · cases w <;> rfl
  · cases cl
    · cases ct <;> rfl
    · rfl
  · rfl
  · rfl

theorem stepCtl_watch (e : Option GoError) (s : State U) : (stepCtl e s).watch = s.watch := by
  rcases s with ⟨wa, u, ct, k, wg, can, cl, p, t⟩
  cases ct
  · cases cl <;> rfl
  · rename_i sig
    cases sig <;> rfl
  all_goals rfl

theorem stepCloser_watch (s : State U) : (stepCloser s).watch = s.watch := by
  rcases s with ⟨wa, u, ct, k, wg, can, cl, p, t⟩
  cases k
  · simp only [stepCloser]
    split <;> rfl
  · rfl
  · rfl

theorem watchShape_step (s : State U) (c : Choice U) (h : WatchShape s) :
    WatchShape (step s c) := by
  unfold step
  split
  · exact h
  · cases c with
    | watch r => exact watchShape_stepWatch r s h
    | upstream r w =>
      obtain ⟨n, tail, hv, ht⟩ := h
      exact ⟨n, tail, by rw [(stepUp_extends r w s).viewOf_other (by decide), hv],
        by rw [stepUp_watch]; exact ht⟩
    | controller e =>
      obtain ⟨n, tail, hv, ht⟩ := h
      exact ⟨n, tail, by rw [(stepCtl_extends e s).viewOf_other (by decide), hv],
        by rw [stepCtl_watch]; exact ht⟩
    | closer =>
      obtain ⟨n, tail, hv, ht⟩ := h
      exact ⟨n, tail, by rw [(stepCloser_extends s).viewOf_other (by decide), hv],
        by rw [stepCloser_watch]; exact ht⟩

theorem ctlView_snoc (t : List (Event U)) (ev : Event U) :
    ctlView (t ++ [ev]) = ctlView t ++ (ctlAct ev.act).toList := by
  simp only [ctlView, List.filterMap_append]
  congr 1

theorem received_snoc_send (t : List (Event U)) (g : Gor) (site : Site) (sig : Option GoError) :
    received (t ++ [⟨g, .send site sig⟩]) = received t ++ [(site, sig)] := by
  simp [received, List.filterMap_append]

theorem received_snoc_other (t : List (Event U)) (ev : Event U)
    (h : ∀ site sig, ev.act ≠ .send site sig) : received (t ++ [ev]) = received t := by
  simp only [received, List.filterMap_append]
  rcases ev with ⟨g, a⟩
  cases a <;> simp_all

theorem hands_refl (g : Gor) (s : State U) : Hands g s s := Or.inl ⟨rfl, rfl, rfl⟩

theorem hands_emit (g : Gor) (s s' : State U) (a : Action U) (hc : s'.ctl = s.ctl)
    (h : s'.trace = s.trace ++ [⟨g, a⟩]) (ha : ctlAct a = none) : Hands g s s' := by
  refine Or.inl ⟨hc, ?_, ?_⟩
  · rw [h, ctlView_snoc]
    simp [ha]
  · rw [h]
    apply received_snoc_other
    intro site sig hs
    simp only at hs
    rw [hs] at ha
    simp [ctlAct] at ha

theorem stepWatch_hands (r : Option GoError) (s : State U) : Hands .watch s (stepWatch r s) := by
  rcases s with ⟨wa, u, ct, k, wg, can, cl, p, t⟩
  cases wa
  · cases r
    · exact hands_emit _ _ _ _ rfl rfl rfl
    · exact hands_emit _ _ _ _ rfl rfl rfl
  · cases cl
    · cases ct
      · exact Or.inr ⟨_, _, rfl, rfl, rfl, rfl⟩
      all_goals exact hands_refl _ _
    · exact hands_refl _ _
  · exact hands_emit _ _ _ _ rfl rfl rfl
  · exact hands_refl _ _

theorem stepUp_hands (r : RecvResult U) (w : Option GoError) (s : State U) :
    Hands .upstream s (stepUp r w s) := by
  rcases s with ⟨wa, u, ct, k, wg, can, cl, p, t⟩
  cases u
  · cases r
    · exact hands_emit _ _ _ _ rfl rfl rfl
    · exact hands_emit _ _ _ _ rfl rfl rfl
  · simp only [stepUp]
    split
    · exact hands_emit _ _ _ _ rfl rfl rfl
    · exact hands_emit _ _ _ _ rfl rfl rfl
  · cases cl
    · cases ct
      · exact Or.inr ⟨_, _, rfl, rfl, rfl, rfl⟩
      all_goals exact hands_refl _ _
    · exact hands_refl _ _
  · cases cl
    · cases ct
      · exact Or.inr ⟨_, _, rfl, rfl, rfl, rfl⟩
      all_goals exact hands_refl _ _
    · exact hands_refl _ _
  · cases w
    · exact hands_emit _ _ _ _ rfl rfl rfl
    · exact hands_emit _ _ _ _ rfl rfl rfl
  · cases cl
    · cases ct
      · exact Or.inr ⟨_, _, rfl, rfl, rfl, rfl⟩
      all_goals exact hands_refl _ _
    · exact hands_refl _ _
  · exact hands_emit _ _ _ _ rfl rfl rfl
  · exact hands_refl _ _

theorem stepCloser_hands (s : State U) : Hands .closer s (stepCloser s) := by
  rcases s with ⟨wa, u, ct, k, wg, can, cl, p, t⟩
  cases k
  · simp only [stepCloser]
    split
    · exact hands_refl _ _
    · exact hands_refl _ _
  · exact hands_emit _ _ _ _ rfl rfl rfl
  · exact hands_refl _ _

theorem Hands.ctlShape {g : Gor} {s s' : State U} (h : Hands g s s') (hs : CtlShape s) :
    CtlShape s' := by
  unfold CtlShape at hs ⊢
  rcases h with ⟨h1, h2, h3⟩ | ⟨site, sig, h1, _, h2, h3⟩
  · rw [h1, h2, h3]
    exact hs
  · rw [h1] at hs
    simp only [CtlPc.remaining, CtlPc.epilogue, List.append_nil] at hs
    rw [h2, h3, ctlView_snoc, received_snoc_send, hs]
    simp [ctlAct, CtlPc.remaining, CtlPc.epilogue, iteration]

theorem ctlShape_init : CtlShape (init : State U) := rfl

theorem ctlShape_stepCtl (e : Option GoError) (s : State U) (h : CtlShape s) :
    CtlShape (stepCtl e s) := by
  unfold CtlShape at h ⊢
  rcases s with ⟨wa, u, ct, k, wg, can, cl, p, t⟩
  cases ct with
  | range => cases cl <;> exact h
  | handle sig =>
    cases sig with
    | none => exact h
    | some e' =>
      simp only [stepCtl, emit, ctlView_snoc, ctlAct, CtlPc.remaining, CtlPc.epilogue, reportOf,
        Option.toList, List.append_assoc] at h ⊢
      rw [received_snoc_other _ _ (by simp)]
      simpa using h
  | closeSend =>
    simp only [stepCtl, emit, ctlView_snoc, ctlAct, CtlPc.remaining, CtlPc.epilogue, teardown,
        Option.toList, List.append_assoc] at h ⊢
    rw [received_snoc_other _ _ (by simp)]
    simpa using h
  | wsClose =>
    simp only [stepCtl, emit, ctlView_snoc, ctlAct, CtlPc.remaining, CtlPc.epilogue,
        Option.toList, List.append_assoc] at h ⊢
    rw [received_snoc_other _ _ (by simp)]
    simpa using h
  | cancel =>
    simp only [stepCtl, emit, ctlView_snoc, ctlAct, CtlPc.remaining, CtlPc.epilogue,
        Option.toList, List.append_assoc] at h ⊢
    rw [received_snoc_other _ _ (by simp)]
    simpa using h
  | deferred =>
    simp only [stepCtl, emit, ctlView_snoc, ctlAct, CtlPc.remaining, CtlPc.epilogue,
        Option.toList, List.append_assoc] at h ⊢
    rw [received_snoc_other _ _ (by simp)]
    simpa using h
  | done => exact h

theorem ctlShape_step (s : State U) (c : Choice U) (h : CtlShape s) : CtlShape (step s c) := by
  unfold step
  split
  · exact h
  · cases c with
    | watch r => exact (stepWatch_hands r s).ctlShape h
    | upstream r w => exact (stepUp_hands r w s).ctlShape h
    | controller e => exact ctlShape_stepCtl e s h
    | closer => exact (stepCloser_hands s).ctlShape h

theorem inv_init : Inv (init : State U) :=
  ⟨sound_init, upShape_init, watchShape_init, ctlShape_init, by intro ev hev; cases hev⟩

theorem inv_step (s : State U) (c : Choice U) (h : Inv s) : Inv (step s c) :=
  ⟨sound_step s c h.sound, upShape_step s c h.upShape, watchShape_step s c h.watchShape,
    ctlShape_step s c h.ctlShape, wellActed_step s c h.wellActed⟩

theorem inv_runFrom (cs : List (Choice U)) (s : State U) (h : Inv s) : Inv (runFrom s cs) := by
  induction cs generalizing s with
  | nil => exact h
  | cons c cs ih => exact ih (step s c) (inv_step s c h)

theorem inv_run (cs : List (Choice U)) : Inv (run cs) :=
  inv_runFrom cs init inv_init

/-! ## The upstream pump forwards every update, in order -/

theorem recvResults_append (as bs : List (Action U)) :
    recvResults (as ++ bs) = recvResults as ++ recvResults bs := by
  simp [recvResults, List.filterMap_append]

theorem writeCalls_append (as bs : List (Action U)) :
    writeCalls (as ++ bs) = writeCalls as ++ writeCalls bs := by
  simp [writeCalls, List.filterMap_append]

theorem recvResults_turns (items : List (U × Option GoError)) :
    recvResults (items.flatMap fwdActs) = items.map fun p => RecvResult.update p.1 := by
  induction items with
  | nil => rfl
  | cons p items ih =>
    rw [List.flatMap_cons, recvResults_append, ih]
    rcases p with ⟨u, w⟩
    cases w <;> rfl

theorem writeCalls_turns (items : List (U × Option GoError)) :
    writeCalls (items.flatMap fwdActs) = items.map Prod.fst := by
  induction items with
  | nil => rfl
  | cons p items ih =>
    rw [List.flatMap_cons, writeCalls_append, ih]
    rcases p with ⟨u, w⟩
    cases w <;> rfl

theorem map_update_snoc_ne (l1 l2 : List U) (e : GoError) :
    l1.map RecvResult.update ≠ l2.map RecvResult.update ++ [RecvResult.fail e] := by
  intro h
  have h1 : RecvResult.fail e ∈ l1.map RecvResult.update := by
    rw [h]
    simp
  simp at h1

theorem map_update_snoc_inj {l1 l2 : List U} {r1 r2 : RecvResult U}
    (h : l1.map RecvResult.update ++ [r1] = l2.map RecvResult.update ++ [r2]) :
    l1 = l2 ∧ r1 = r2 := by
  have h1 := List.append_inj' h rfl
  refine ⟨?_, by simpa using h1.2⟩
  have hinj : Function.Injective (RecvResult.update : U → RecvResult U) := by
    intro a b hab
    cases hab
    rfl
  exact List.map_injective_iff.mpr hinj h1.1

/-- C1: whenever `stream.Recv()` has returned the updates `us` and then
end-of-stream, the upstream pump has passed exactly `us`, unmodified and in
receipt order, to `safeRW.WriteJSONWithChannel`; this holds in every
interleaving, whatever the client does and whatever the writes return. -/
theorem upstream_forwards_updates_in_order (cs : List (Choice U)) (us : List U)
    (h : recvResults (viewOf .upstream (run cs).trace) =
      us.map RecvResult.update ++ [.fail .EOF]) :
    writeCalls (viewOf .upstream (run cs).trace) = us := by
  obtain ⟨items, tail, hv, ht⟩ := (inv_run cs).upShape
  rw [hv, recvResults_append, recvResults_turns] at h
  rw [hv, writeCalls_append, writeCalls_turns]
  have hm : (items.map fun p => RecvResult.update p.1) =
      (items.map Prod.fst).map RecvResult.update := by simp
  rw [hm] at h
  generalize (run cs).up = pc at ht
  cases ht with
  | recv =>
    simp only [recvResults, List.filterMap_nil, List.append_nil] at h
    exact absurd h (map_update_snoc_ne _ _ _)
  | write u => exact absurd (map_update_snoc_inj h).2 (by simp)
  | forward u e => exact absurd (map_update_snoc_inj h).2 (by simp)
  | check e => simpa [writeCalls] using (map_update_snoc_inj h).1
  | sendNil e c hc => simpa [writeCalls] using (map_update_snoc_inj h).1
  | sendErr e he => simpa [writeCalls] using (map_update_snoc_inj h).1
  | exit e c =>
    have h2 : recvResults [Action.recv (.fail e), .errCheck c, (endSend e c : Action U)] =
        [RecvResult.fail e] := by
      unfold endSend
      split <;> rfl
    rw [h2] at h
    have h3 : writeCalls [Action.recv (.fail e), .errCheck c, (endSend e c : Action U)] = [] := by
      unfold endSend
      split <;> rfl
    rw [h3]
    simpa using (map_update_snoc_inj h).1
  | done e c =>
    have h2 : recvResults (lastTurn e c : List (Action U)) = [RecvResult.fail e] := by
      unfold lastTurn endSend
      split <;> rfl
    rw [h2] at h
    have h3 : writeCalls (lastTurn e c : List (Action U)) = [] := by
      unfold lastTurn endSend
      split <;> rfl
    rw [h3]
    simpa using (map_update_snoc_inj h).1

/-! ## What the upstream pump does with an error of `Recv` -/

theorem append_split_of_not_mem {α : Type} {l t pre post : List α} {x : α}
    (h : l ++ t = pre ++ x :: post) (hx : x ∉ l) :
    ∃ t', t = t' ++ x :: post ∧ pre = l ++ t' := by
  rcases List.append_eq_append_iff.mp h with ⟨a', h1, h2⟩ | ⟨c', h1, h2⟩
  · exact ⟨a', h2, h1⟩
  · cases c' with
    | nil => exact ⟨[], by simpa using h2.symm, by simpa using h1.symm⟩
    | cons y c'' =>
      simp only [List.cons_append, List.cons.injEq] at h2
      exact absurd (by rw [h1, h2.1]; simp) hx

theorem head_split_of_not_mem {α : Type} {rest t' post : List α} {x y : α}
    (h : y :: rest = t' ++ x :: post) (hx : x ∉ rest) :
    t' = [] ∧ x = y ∧ post = rest := by
  cases t' with
  | nil =>
    simp only [List.nil_append, List.cons.injEq] at h
    exact ⟨rfl, h.1.symm, h.2.symm⟩
  | cons z t'' =>
    simp only [List.cons_append, List.cons.injEq] at h
    exact absurd (by rw [h.2]; simp) hx

theorem recv_fail_not_mem_turns (items : List (U × Option GoError)) (e : GoError) :
    Action.recv (.fail e) ∉ items.flatMap fwdActs := by
  intro h
  obtain ⟨p, _, hp⟩ := List.mem_flatMap.mp h
  rcases p with ⟨u, w⟩
  cases w <;> simp [fwdActs] at hp

theorem endSend_ne_recv (e : GoError) (c : Bool) (r : RecvResult U) :
    (endSend e c : Action U) ≠ .recv r := by
  unfold endSend
  split <;> simp

/-- The part of the current turn that is there is either free of `Recv`
errors, or starts with the one `Recv` error and goes on with the last turn. -/
theorem UpTail.last_turn {pc : UpPc U} {tail : List (Action U)} (h : UpTail pc tail) :
    (∀ e, Action.recv (.fail e) ∉ tail) ∨
    ∃ e0 c rest, tail = .recv (.fail e0) :: rest ∧ rest <+: [.errCheck c, endSend e0 c, .wgDone] ∧
      ∀ e, Action.recv (.fail e) ∉ rest := by
  cases h with
  | recv => exact Or.inl (by simp)
  | write u => exact Or.inl (by simp)
  | forward u e => exact Or.inl (by simp)
  | check e => exact Or.inr ⟨e, false, [], rfl, List.nil_prefix, by simp⟩
  | sendNil e c hc => exact Or.inr ⟨e, c, _, rfl, ⟨[endSend e c, .wgDone], rfl⟩, by simp⟩
  | sendErr e he => exact Or.inr ⟨e, false, _, rfl, ⟨[endSend e false, .wgDone], rfl⟩, by simp⟩
  | exit e c =>
    exact Or.inr ⟨e, c, _, rfl, ⟨[.wgDone], rfl⟩,
      by simpa using fun e1 h => endSend_ne_recv e c _ h.symm⟩
  | done e c =>
    exact Or.inr ⟨e, c, _, rfl, ⟨[], rfl⟩,
      by simpa using fun e1 h => endSend_ne_recv e c _ h.symm⟩

theorem viewOf_cons (g : Gor) (ev : Event U) (t : List (Event U)) :
    viewOf g (ev :: t) = if ev.actor = g then ev.act :: viewOf g t else viewOf g t := by
  by_cases h : ev.actor = g <;> simp [viewOf, List.filter_cons, h]

theorem runFrom_append (s : State U) (cs ds : List (Choice U)) :
    runFrom s (cs ++ ds) = runFrom (runFrom s cs) ds := by
  simp [runFrom, List.foldl_append]

/-- While the channel is open the controller, run four times, is back at the
receive of line 117: it is never blocked inside a turn of the loop. -/
theorem ctl_settles (s : State U) (x : Option GoError) (hs : Sound s)
    (ho : s.chanClosed = false) :
    ∃ (as : List (Action U)) (can : Bool),
      runFrom s (List.replicate 4 (.controller x)) =
        { s with ctl := .range, cancelled := can,
                 trace := s.trace ++ as.map (Event.mk .controller) } ∧
      ctlView (as.map (Event.mk (U := U) .controller)) = s.ctl.remaining := by
  have h4 := hs.ctl_closed
  have h5 := hs.no_panic
  rcases s with ⟨wa, u, ct, k, wg, can, cl, p, t⟩
  simp only at ho h4 h5
  subst ho h5
  cases ct with
  | range => exact ⟨[], can, by simp [runFrom, step, stepCtl], rfl⟩
  | handle sig =>
    cases sig with
    | none =>
      exact ⟨[.closeSend x, .wsClose x, .cancel], true, by simp [runFrom, step, stepCtl, emit], rfl⟩
    | some e =>
      exact ⟨[.report e, .closeSend x, .wsClose x, .cancel], true,
        by simp [runFrom, step, stepCtl, emit], rfl⟩
  | closeSend =>
    exact ⟨[.closeSend x, .wsClose x, .cancel], true, by simp [runFrom, step, stepCtl, emit], rfl⟩
  | wsClose => exact ⟨[.wsClose x, .cancel], true, by simp [runFrom, step, stepCtl, emit], rfl⟩
  | cancel => exact ⟨[.cancel], true, by simp [runFrom, step, stepCtl, emit], rfl⟩
  | deferred => exact absurd (h4 rfl) (by simp)
  | done => exact absurd (h4 rfl) (by simp)

/-- C2: in every interleaving, (1) after an error `e` of `stream.Recv()` the
upstream pump does nothing but evaluate line 102, publish one value on
`errorchan` and return: the value is `nil` (line 103) when `e` is `io.EOF` or
the context is cancelled, and `e` itself (line 105) otherwise, and `Recv` is not
called again; (2) the pump is not stuck before the publication: from any
reachable state in which `Recv` has just returned `e`, letting the pump run,
the controller finish its turn of the loop and the pump run twice more
completes exactly these actions and the pump has returned. -/
theorem recv_error_published_then_stop (cs : List (Choice U)) :
    (∀ pre post e, viewOf .upstream (run cs).trace = pre ++ Action.recv (.fail e) :: post →
      ∃ c, (post <+: [.errCheck c, .send .upstreamEnd none, .wgDone] ∧
              (e = GoError.EOF ∨ c = true)) ∨
           (post <+: [.errCheck c, .send .upstreamErr (some e), .wgDone] ∧
              e ≠ GoError.EOF ∧ c = false)) ∧
    (∀ e r w x, (run cs).up = .check e →
      (runFrom (run cs) ([.upstream r w] ++ List.replicate 4 (.controller x) ++
          [.upstream r w, .upstream r w])).up = .done ∧
      viewOf .upstream (runFrom (run cs) ([.upstream r w] ++ List.replicate 4 (.controller x) ++
          [.upstream r w, .upstream r w])).trace =
        viewOf .upstream (run cs).trace ++
          [.errCheck (run cs).cancelled,
           if e = GoError.EOF ∨ (run cs).cancelled = true then .send .upstreamEnd none
           else .send .upstreamErr (some e),
           .wgDone]) := by
  have hinv := inv_run cs
  constructor
  · intro pre post e h
    obtain ⟨items, tail, hv, ht⟩ := hinv.upShape
    rw [hv] at h
    obtain ⟨t', h1, _⟩ := append_split_of_not_mem h (recv_fail_not_mem_turns items e)
    rcases ht.last_turn with hno | ⟨e0, c, rest, h2, h3, h4⟩
    · exact absurd (by rw [h1]; simp) (hno e)
    · rw [h2] at h1
      obtain ⟨_, h5, h6⟩ := head_split_of_not_mem h1 (h4 e)
      simp only [Action.recv.injEq, RecvResult.fail.injEq] at h5
      subst h5 h6
      refine ⟨c, ?_⟩
      unfold endSend at h3
      by_cases hc : e = GoError.EOF ∨ c = true
      · rw [if_pos hc] at h3
        exact Or.inl ⟨h3, hc⟩
      · rw [if_neg hc] at h3
        refine Or.inr ⟨h3, fun he => hc (Or.inl he), ?_⟩
        cases c
        · rfl
        · exact absurd (Or.inr rfl) hc
  · intro e r w x hup
    have hs := hinv.sound
    generalize run cs = s at hup hs
    rcases s with ⟨wa, u, ct, k, wg, can0, cl, p, t⟩
    simp only at hup
    subst hup
    have hp : p = false := hs.no_panic
    subst hp
    have ho : cl = false := hs.open_of_running (Or.inr rfl)
    subst ho
    have hs1 := sound_step _ (.upstream r w) hs
    simp only [runFrom_append]
    by_cases hc : e = GoError.EOF ∨ can0 = true
    · have hstep : runFrom ⟨wa, .check e, ct, k, wg, can0, false, false, t⟩ [.upstream r w] =
          ⟨wa, .sendNil, ct, k, wg, can0, false, false, t ++ [⟨.upstream, .errCheck can0⟩]⟩ := by
        simp [runFrom, step, stepUp, hc, emit]
      have hstep' : step ⟨wa, .check e, ct, k, wg, can0, false, false, t⟩ (.upstream r w) =
          runFrom ⟨wa, .check e, ct, k, wg, can0, false, false, t⟩ [.upstream r w] := rfl
      rw [hstep', hstep] at hs1
      obtain ⟨as, can, hset, _⟩ := ctl_settles _ x hs1 rfl
      rw [hstep, hset]
      simp [runFrom, step, stepUp, sendOn, emit, hc, viewOf_append, viewOf_map_other,
        viewOf_snoc_self, viewOf_cons, viewOf_nil]
    · have hstep : runFrom ⟨wa, .check e, ct, k, wg, can0, false, false, t⟩ [.upstream r w] =
          ⟨wa, .sendErr e, ct, k, wg, can0, false, false, t ++ [⟨.upstream, .errCheck can0⟩]⟩ := by
        simp [runFrom, step, stepUp, hc, emit]
      have hstep' : step ⟨wa, .check e, ct, k, wg, can0, false, false, t⟩ (.upstream r w) =
          runFrom ⟨wa, .check e, ct, k, wg, can0, false, false, t⟩ [.upstream r w] := rfl
      rw [hstep', hstep] at hs1
      obtain ⟨as, can, hset, _⟩ := ctl_settles _ x hs1 rfl
      rw [hstep, hset]
      simp [runFrom, step, stepUp, sendOn, emit, hc, viewOf_append, viewOf_map_other,
        viewOf_snoc_self, viewOf_cons, viewOf_nil]

/-- Witness for C1: in the sample session `cleanRun` the stream gives 4, 2 and
end-of-stream, and 4, 2 are what the pump passes on. -/
theorem upstream_forwards_updates_in_order_witness :
    recvResults (viewOf .upstream (run cleanRun).trace) =
        [4, 2].map RecvResult.update ++ [.fail .EOF] ∧
      writeCalls (viewOf .upstream (run cleanRun).trace) = [4, 2] :=
  ⟨rfl, upstream_forwards_updates_in_order cleanRun [4, 2] rfl⟩

/-- Witness for C2: in the sample session `failedSendRun` what follows the
failed `Recv` is a check, one send and the return; and right after a failed
first `Recv` the pump can complete its last turn. -/
theorem recv_error_published_then_stop_witness :
    (∃ c, ([Action.errCheck true, .send .upstreamEnd none, .wgDone] <+:
              [Action.errCheck c, .send .upstreamEnd none, (.wgDone : Action Nat)] ∧
            (GoError.other 9 = GoError.EOF ∨ c = true)) ∨
          ([Action.errCheck true, .send .upstreamEnd none, .wgDone] <+:
              [Action.errCheck c, .send .upstreamErr (some (.other 9)), (.wgDone : Action Nat)] ∧
            GoError.other 9 ≠ GoError.EOF ∧ c = false)) ∧
    (runFrom (run [pumpRecv (.fail (.other 7))])
        ([.upstream (.fail .EOF) none] ++ List.replicate 4 (.controller none) ++
          [.upstream (.fail .EOF) none, .upstream (.fail .EOF) none])).up = .done :=
  ⟨(recv_error_published_then_stop failedSendRun).1
      [.recv (.update 1), .writeJSON 1 (some (.other 5)), .send .forward (some (.other 5)),
       .recv (.update 2), .writeJSON 2 (some (.other 5)), .send .forward (some (.other 5))]
      [.errCheck true, .send .upstreamEnd none, .wgDone] (.other 9) rfl,
   ((recv_error_published_then_stop [pumpRecv (.fail (.other 7))]).2
      (.other 7) (.fail .EOF) none none rfl).1⟩

/-! ## What the controller reports -/

theorem reportsIn_append (as bs : List CtlAct) :
    reportsIn (as ++ bs) = reportsIn as ++ reportsIn bs := by
  simp [reportsIn, List.filterMap_append]

theorem reportsIn_ctlView (t : List (Event U)) : reportsIn (ctlView t) = reported t := by
  induction t with
  | nil => rfl
  | cons ev t ih =>
    rcases ev with ⟨g, a⟩
    cases a <;> simp_all [reportsIn, ctlView, reported, ctlAct, List.filterMap_cons]

theorem reportsIn_remaining (pc : CtlPc) : reportsIn pc.remaining = pc.inHand := by
  cases pc with
  | handle sig => cases sig <;> rfl
  | _ => rfl

theorem reportsIn_epilogue (pc : CtlPc) : reportsIn pc.epilogue = [] := by
  cases pc <;> rfl

theorem reportsIn_turns (rs : List (Site × Option GoError)) :
    reportsIn (rs.flatMap iteration) = rs.filterMap Prod.snd := by
  induction rs with
  | nil => rfl
  | cons p rs ih =>
    rw [List.flatMap_cons, reportsIn_append, ih]
    rcases p with ⟨site, sig⟩
    cases sig <;> rfl

/-- The reports made and the error in hand are the non-nil values received. -/
theorem reported_eq (s : State U) (h : CtlShape s) :
    reported s.trace ++ s.ctl.inHand = (received s.trace).filterMap Prod.snd := by
  have h1 := congrArg reportsIn h
  rw [reportsIn_append, reportsIn_append, reportsIn_ctlView, reportsIn_remaining,
    reportsIn_epilogue, reportsIn_turns, List.append_nil] at h1
  exact h1

theorem mem_received {t : List (Event U)} {site : Site} {sig : Option GoError}
    (h : (site, sig) ∈ received t) : ∃ g, (⟨g, .send site sig⟩ : Event U) ∈ t := by
  obtain ⟨ev, hev, hs⟩ := List.mem_filterMap.mp h
  rcases ev with ⟨g, a⟩
  cases a <;> simp at hs
  obtain ⟨rfl, rfl⟩ := hs
  exact ⟨g, hev⟩

/-- The value sent is non-nil exactly at the two failure sites. -/
theorem received_site (s : State U) (h : WellActed s) (site : Site) (sig : Option GoError)
    (hm : (site, sig) ∈ received s.trace) :
    sig ≠ none ↔ site = .upstreamErr ∨ site = .forward := by
  obtain ⟨g, hg⟩ := mem_received hm
  have hp := h _ hg
  cases g <;> cases site <;> cases sig <;> simp_all [mayPerform]

theorem filterMap_snd_of_site (rs : List (Site × Option GoError))
    (h : ∀ site sig, (site, sig) ∈ rs → (sig ≠ none ↔ site = .upstreamErr ∨ site = .forward)) :
    (rs.filterMap Prod.snd).map some =
      (rs.filter fun p => decide (p.1 = .upstreamErr ∨ p.1 = .forward)).map Prod.snd := by
  induction rs with
  | nil => rfl
  | cons p rs ih =>
    have ih' := ih fun site sig hm => h site sig (List.mem_cons_of_mem _ hm)
    rcases p with ⟨site, sig⟩
    have hp := h site sig (List.mem_cons_self _ _)
    cases sig with
    | none =>
      have hs : ¬(site = .upstreamErr ∨ site = .forward) := fun hh => (hp.mpr hh) rfl
      simp only [List.filterMap_cons, List.filter_cons, hs, decide_False]
      simpa using ih'
    | some e =>
      have hs : site = .upstreamErr ∨ site = .forward := hp.mp (by simp)
      simp only [List.filterMap_cons, List.filter_cons, hs, decide_True, if_true, List.map_cons]
      rw [ih']

/-- C3: in every interleaving, (1) a value received from `errorchan` is non-nil
exactly when it was sent from line 105 (a transport error) or from
`WriteJSONWithChannel` (a send error); the values sent from line 87 (client
closed) and line 103 (end-of-stream or cancellation) are nil; and (2) the
errors passed to `HandleAPIErrorNoWrite`, followed by the error the controller
holds at line 118 and is about to report, are exactly the values received
from these two failure sites, one report for each and in the order received. -/
theorem controller_reports_failures_only (cs : List (Choice U)) :
    (∀ site sig, (site, sig) ∈ received (run cs).trace →
      (sig ≠ none ↔ site = .upstreamErr ∨ site = .forward)) ∧
    (reported (run cs).trace ++ (run cs).ctl.inHand).map some =
      ((received (run cs).trace).filter fun p =>
        decide (p.1 = .upstreamErr ∨ p.1 = .forward)).map Prod.snd := by
  have hinv := inv_run cs
  refine ⟨received_site _ hinv.wellActed, ?_⟩
  rw [reported_eq _ hinv.ctlShape]
  exact filterMap_snd_of_site _ (received_site _ hinv.wellActed)

/-- Witness for C3: the session `doubleReportRun` receives a send error, a
transport error and the nil of the client-watch pump; the two errors are
reported, in that order. -/
theorem controller_reports_failures_only_witness :
    received (run doubleReportRun).trace =
        [(.forward, some (.other 5)), (.upstreamErr, some (.other 7)), (.clientClosed, none)] ∧
      reported (run doubleReportRun).trace = [.other 5, .other 7] ∧
      (reported (run doubleReportRun).trace ++ (run doubleReportRun).ctl.inHand).map some =
        ((received (run doubleReportRun).trace).filter fun p =>
          decide (p.1 = .upstreamErr ∨ p.1 = .forward)).map Prod.snd :=
  ⟨rfl, rfl, (controller_reports_failures_only doubleReportRun).2⟩

/-! ## After a failed write the pump publishes and goes on -/

theorem failedWrites_turn (p : U × Option GoError) (l : List (Action U))
    (h : FailedWritesForwarded l) (hl : StartsWithRecv l) :
    FailedWritesForwarded (fwdActs p ++ l) ∧ StartsWithRecv (fwdActs p ++ l) := by
  rcases p with ⟨u0, w⟩
  cases w with
  | none =>
    refine ⟨?_, Or.inr ⟨_, _, rfl⟩⟩
    intro pre u e post hs
    rcases pre with _ | ⟨a, _ | ⟨b, pre'⟩⟩
    · simp [fwdActs] at hs
    · simp [fwdActs] at hs
    · simp only [fwdActs, List.cons_append, List.nil_append, List.cons.injEq] at hs
      exact h pre' u e post hs.2.2
  | some e0 =>
    refine ⟨?_, Or.inr ⟨_, _, rfl⟩⟩
    intro pre u e post hs
    rcases pre with _ | ⟨a, _ | ⟨b, _ | ⟨c, pre'⟩⟩⟩
    · simp [fwdActs] at hs
    · simp only [fwdActs, List.cons_append, List.nil_append, List.cons.injEq,
        Action.writeJSON.injEq, Option.some.injEq] at hs
      obtain ⟨_, ⟨_, rfl⟩, rfl⟩ := hs
      exact Or.inr ⟨l, rfl, hl⟩
    · simp [fwdActs] at hs
    · simp only [fwdActs, List.cons_append, List.nil_append, List.cons.injEq] at hs
      exact h pre' u e post hs.2.2.2

theorem failedWrites_turns (items : List (U × Option GoError)) (l : List (Action U))
    (h : FailedWritesForwarded l) (hl : StartsWithRecv l) :
    FailedWritesForwarded (items.flatMap fwdActs ++ l) ∧
      StartsWithRecv (items.flatMap fwdActs ++ l) := by
  induction items with
  | nil => exact ⟨h, hl⟩
  | cons p items ih =>
    rw [List.flatMap_cons, List.append_assoc]
    exact failedWrites_turn p _ ih.1 ih.2

theorem failedWrites_of_no_write (l : List (Action U))
    (h : ∀ u e, Action.writeJSON u (some e) ∉ l) : FailedWritesForwarded l := by
  intro pre u e post hs
  exact absurd (by rw [hs]; simp) (h u e)

theorem UpTail.writes_forwarded {pc : UpPc U} {tail : List (Action U)} (h : UpTail pc tail) :
    FailedWritesForwarded tail ∧ StartsWithRecv tail := by
  cases h with
  | recv => exact ⟨failedWrites_of_no_write _ (by simp), Or.inl rfl⟩
  | write u => exact ⟨failedWrites_of_no_write _ (by simp), Or.inr ⟨_, _, rfl⟩⟩
  | forward u e =>
    refine ⟨?_, Or.inr ⟨_, _, rfl⟩⟩
    intro pre u' e' post hs
    rcases pre with _ | ⟨a, _ | ⟨b, pre'⟩⟩
    · simp at hs
    · simp only [List.cons_append, List.nil_append, List.cons.injEq] at hs
      exact Or.inl hs.2.2.symm
    · simp at hs
  | check e => exact ⟨failedWrites_of_no_write _ (by simp), Or.inr ⟨_, _, rfl⟩⟩
  | sendNil e c hc => exact ⟨failedWrites_of_no_write _ (by simp), Or.inr ⟨_, _, rfl⟩⟩
  | sendErr e he => exact ⟨failedWrites_of_no_write _ (by simp), Or.inr ⟨_, _, rfl⟩⟩
  | exit e c =>
    refine ⟨failedWrites_of_no_write _ ?_, Or.inr ⟨_, _, rfl⟩⟩
    unfold endSend
    split <;> simp
  | done e c =>
    refine ⟨failedWrites_of_no_write _ ?_, Or.inr ⟨_, _, rfl⟩⟩
    unfold lastTurn endSend
    split <;> simp

theorem UpTail.stopped_after_fail {pc : UpPc U} {tail : List (Action U)} (h : UpTail pc tail)
    (items : List (U × Option GoError)) (hpc : pc = .exit ∨ pc = .done) :
    ∃ e, (recvResults (items.flatMap fwdActs ++ tail)).getLast? = some (.fail e) := by
  rw [recvResults_append]
  cases h with
  | exit e c =>
    refine ⟨e, ?_⟩
    have h2 : recvResults [Action.recv (.fail e), .errCheck c, (endSend e c : Action U)] =
        [RecvResult.fail e] := by
      unfold endSend
      split <;> rfl
    rw [h2]
    simp
  | done e c =>
    refine ⟨e, ?_⟩
    have h2 : recvResults (lastTurn e c : List (Action U)) = [RecvResult.fail e] := by
      unfold lastTurn endSend
      split <;> rfl
    rw [h2]
    simp
  | _ => simp at hpc

/-- C4, as amended: in every interleaving, (1) a write that failed with `e` is
followed in the upstream pump by the send of `e` on `errorchan` (made by
`WriteJSONWithChannel`), and that send is followed by the next call of
`stream.Recv()`: the pump does not stop; (2) the pump is not stuck in that
send: from any reachable state in which it is in it, once the controller has
finished its turn of the loop the send completes and the pump is back at
`Recv`; (3) when the pump is returning or has returned, the last result of
`Recv` is an error: only an error of `Recv` stops it. -/
theorem failed_send_published_pump_goes_on (cs : List (Choice U)) :
    (∀ pre u e post,
      viewOf .upstream (run cs).trace = pre ++ Action.writeJSON u (some e) :: post →
      post = [] ∨ ∃ rest, post = .send .forward (some e) :: rest ∧
        (rest = [] ∨ ∃ r rest', rest = .recv r :: rest')) ∧
    (∀ e r w x, (run cs).up = .forward e →
      (runFrom (run cs) (List.replicate 4 (.controller x) ++ [.upstream r w])).up = .recv ∧
      viewOf .upstream
          (runFrom (run cs) (List.replicate 4 (.controller x) ++ [.upstream r w])).trace =
        viewOf .upstream (run cs).trace ++ [.send .forward (some e)]) ∧
    ((run cs).up = .exit ∨ (run cs).up = .done →
      ∃ e, (recvResults (viewOf .upstream (run cs).trace)).getLast? = some (.fail e)) := by
  have hinv := inv_run cs
  obtain ⟨items, tail, hv, ht⟩ := hinv.upShape
  refine ⟨?_, ?_, ?_⟩
  · rw [hv]
    exact (failedWrites_turns items tail ht.writes_forwarded.1 ht.writes_forwarded.2).1
  · intro e r w x hup
    have hs := hinv.sound
    generalize run cs = s at hup hs
    have ho : s.chanClosed = false := hs.open_of_running (Or.inr (by rw [hup]; rfl))
    obtain ⟨as, can, hset, _⟩ := ctl_settles s x hs ho
    rw [runFrom_append, hset]
    rcases s with ⟨wa, u, ct, k, wg, can0, cl, p, t⟩
    simp only at hup ho
    subst hup ho
    have hp : p = false := hs.no_panic
    subst hp
    simp [runFrom, step, stepUp, sendOn, emit, viewOf_append, viewOf_map_other,
      viewOf_snoc_self, viewOf_cons, viewOf_nil]
  · intro hpc
    rw [hv]
    exact ht.stopped_after_fail items hpc

/-- Counterexample to C4: in the sample session `failedSendRun` the write of
update 1 fails, and afterwards the pump calls `Recv` again and passes update 2
to `WriteJSONWithChannel`. -/
theorem pump_not_stopped_by_failed_send :
    ¬ ∀ pre u e post,
      viewOf .upstream (run failedSendRun).trace = pre ++ Action.writeJSON u (some e) :: post →
      ∀ a ∈ post, (∀ r, a ≠ .recv r) ∧ ∀ u' w, a ≠ .writeJSON u' w := by
  intro h
  have h1 := h [.recv (.update 1)] 1 (.other 5)
    [.send .forward (some (.other 5)),
     .recv (.update 2), .writeJSON 2 (some (.other 5)), .send .forward (some (.other 5)),
     .recv (.fail (.other 9)), .errCheck true, .send .upstreamEnd none, .wgDone] rfl
    (.recv (.update 2)) (by simp)
  exact h1.1 _ rfl

/-- Witness for C4 as amended, in the sample session `failedSendRun`. -/
theorem failed_send_published_pump_goes_on_witness :
    (([Action.send .forward (some (.other 5)),
       .recv (.update 2), .writeJSON 2 (some (.other 5)), .send .forward (some (.other 5)),
       .recv (.fail (.other 9)), .errCheck true, .send .upstreamEnd none, .wgDone] :
        List (Action Nat)) = [] ∨
      ∃ rest, ([Action.send .forward (some (.other 5)),
       .recv (.update 2), .writeJSON 2 (some (.other 5)), .send .forward (some (.other 5)),
       .recv (.fail (.other 9)), .errCheck true, .send .upstreamEnd none, .wgDone] :
        List (Action Nat)) = .send .forward (some (.other 5)) :: rest ∧
        (rest = [] ∨ ∃ r rest', rest = .recv r :: rest')) ∧
    (runFrom (run [pumpRecv (.update 1), pumpWrite (some (.other 5))])
        (List.replicate 4 (.controller none) ++ [.upstream (.fail .EOF) none])).up = .recv ∧
    ∃ e, (recvResults (viewOf .upstream (run failedSendRun).trace)).getLast? = some (.fail e) :=
  ⟨(failed_send_published_pump_goes_on failedSendRun).1 [.recv (.update 1)] 1 (.other 5) _ rfl,
   ((failed_send_published_pump_goes_on [pumpRecv (.update 1), pumpWrite (some (.other 5))]).2.1
      (.other 5) (.fail .EOF) none none rfl).1,
   (failed_send_published_pump_goes_on failedSendRun).2.2 (Or.inr rfl)⟩

/-! ## A session that ends on a transport error -/

theorem Sound.stopped_of_closed {s : State U} (h : Sound s) (hc : s.chanClosed = true) :
    s.watch.running = false ∧ s.up.running = false := by
  have h0 := h.closer_wg (by rw [h.closed_iff.mp hc]; decide)
  have h1 := h.wg_eq
  rw [h0] at h1
  constructor
  · cases hw : s.watch.running
    · rfl
    · rw [hw] at h1
      simp only [if_true] at h1
      omega
  · cases hu : s.up.running
    · rfl
    · rw [hu] at h1
      simp only [if_true] at h1
      omega

theorem Sound.stopped_of_returned {s : State U} (h : Sound s) (hc : s.ctl = .done) :
    s.watch.running = false ∧ s.up.running = false :=
  h.stopped_of_closed (h.ctl_closed (by rw [hc]; rfl))

theorem sentErrs_append (as bs : List (Action U)) :
    sentErrs (as ++ bs) = sentErrs as ++ sentErrs bs := by
  simp [sentErrs, List.filterMap_append]

theorem failedWrites_append (as bs : List (Action U)) :
    failedWrites (as ++ bs) = failedWrites as ++ failedWrites bs := by
  simp [failedWrites, List.filterMap_append]

theorem sentErrs_turns (items : List (U × Option GoError)) :
    sentErrs (items.flatMap fwdActs) = items.filterMap Prod.snd := by
  induction items with
  | nil => rfl
  | cons p items ih =>
    rw [List.flatMap_cons, sentErrs_append, ih]
    rcases p with ⟨u, w⟩
    cases w <;> rfl

theorem failedWrites_turns_eq (items : List (U × Option GoError)) :
    failedWrites (items.flatMap fwdActs) = items.filterMap Prod.snd := by
  induction items with
  | nil => rfl
  | cons p items ih =>
    rw [List.flatMap_cons, failedWrites_append, ih]
    rcases p with ⟨u, w⟩
    cases w <;> rfl

/-- The non-nil values received are those the upstream pump has sent. -/
theorem received_errs_eq (t : List (Event U))
    (h : ∀ ev ∈ t, mayPerform ev.actor ev.act = true) :
    (received t).filterMap Prod.snd = sentErrs (viewOf .upstream t) := by
  induction t with
  | nil => rfl
  | cons ev t ih =>
    have ih' := ih fun ev' hev' => h ev' (List.mem_cons_of_mem _ hev')
    have hp := h ev (List.mem_cons_self _ _)
    rcases ev with ⟨g, a⟩
    cases a with
    | send site sig =>
      cases sig with
      | none => cases g <;> exact ih'
      | some e =>
        cases g with
        | upstream => exact congrArg (e :: ·) ih'
        | watch => cases site <;> exact Bool.noConfusion hp
        | controller => exact Bool.noConfusion hp
        | closer => exact Bool.noConfusion hp
    | _ => cases g <;> exact ih'

theorem errCheck_not_mem_turns (items : List (U × Option GoError)) (c : Bool) :
    Action.errCheck c ∉ items.flatMap fwdActs := by
  intro h
  obtain ⟨p, _, hp⟩ := List.mem_flatMap.mp h
  rcases p with ⟨u, w⟩
  cases w <;> simp [fwdActs] at hp

theorem mem_ctlView {t : List (Event U)} {a : CtlAct} (h : a ∈ ctlView t) :
    ∃ ev ∈ t, ctlAct ev.act = some a := by
  obtain ⟨ev, hev, hs⟩ := List.mem_filterMap.mp h
  exact ⟨ev, hev, hs⟩

/-- The shape of a session that is over, seen from the upstream pump. -/
theorem upstream_of_returned (s : State U) (h : Inv s) (hc : s.ctl = .done) :
    ∃ (items : List (U × Option GoError)) (e : GoError) (c : Bool),
      viewOf .upstream s.trace = items.flatMap fwdActs ++ lastTurn e c := by
  obtain ⟨items, tail, hv, ht⟩ := h.upShape
  have hr := (h.sound.stopped_of_returned hc).2
  generalize s.up = pc at ht hr
  cases ht with
  | done e c => exact ⟨items, e, c, hv⟩
  | _ => simp [UpPc.running] at hr

theorem recvResults_lastTurn (e : GoError) (c : Bool) :
    recvResults (lastTurn e c : List (Action U)) = [RecvResult.fail e] := by
  unfold lastTurn endSend
  split <;> rfl

theorem writeCalls_lastTurn (e : GoError) (c : Bool) :
    writeCalls (lastTurn e c : List (Action U)) = [] := by
  unfold lastTurn endSend
  split <;> rfl

theorem failedWrites_lastTurn (e : GoError) (c : Bool) :
    failedWrites (lastTurn e c : List (Action U)) = [] := by
  unfold lastTurn endSend
  split <;> rfl

theorem failedWrites_eq_nil (as : List (Action U))
    (h : ∀ u w, Action.writeJSON u w ∈ as → w = none) : failedWrites as = [] := by
  unfold failedWrites
  rw [List.filterMap_eq_nil_iff]
  intro a ha
  cases a with
  | writeJSON u w =>
    cases w with
    | none => rfl
    | some e => exact absurd (h u _ ha) (by simp)
  | _ => rfl

/-- In a turn of the range loop both close calls are made. -/
theorem closes_mem_of_received (s : State U) (h : CtlShape s) (hc : s.ctl = .done)
    (hr : received s.trace ≠ []) :
    CtlAct.closeSend ∈ ctlView s.trace ∧ CtlAct.wsClose ∈ ctlView s.trace := by
  unfold CtlShape at h
  rw [hc] at h
  simp only [CtlPc.remaining, CtlPc.epilogue, List.append_nil] at h
  rw [h]
  cases hrs : received s.trace with
  | nil => exact absurd hrs hr
  | cons p rs => simp [iteration, teardown]

/-- C5, as amended: take a session that is over (`ServeHTTP` has returned) in
which `stream.Recv()` gave the updates `us` and then the error `e`, a
transport error: `e` is not `io.EOF` and line 102 found the context not
cancelled.  Then exactly `us` was passed to the client writer; the errors
passed to `HandleAPIErrorNoWrite` are those of the failed client writes, one
report for each, followed by one report of `e`, so `e` alone, reported once,
when every write succeeded; and `stream.CloseSend()` and `safeRW.Close()` were
called. -/
theorem transport_error_session (cs : List (Choice U)) (us : List U) (e : GoError)
    (hrecv : recvResults (viewOf .upstream (run cs).trace) =
      us.map RecvResult.update ++ [.fail e])
    (hne : e ≠ GoError.EOF)
    (hcheck : Action.errCheck false ∈ viewOf .upstream (run cs).trace)
    (hdone : (run cs).ctl = .done) :
    writeCalls (viewOf .upstream (run cs).trace) = us ∧
    reported (run cs).trace = failedWrites (viewOf .upstream (run cs).trace) ++ [e] ∧
    ((∀ u w, Action.writeJSON u w ∈ viewOf .upstream (run cs).trace → w = none) →
      reported (run cs).trace = [e]) ∧
    CtlAct.closeSend ∈ ctlView (run cs).trace ∧ CtlAct.wsClose ∈ ctlView (run cs).trace := by
  have hinv := inv_run cs
  obtain ⟨items, e', c, hv⟩ := upstream_of_returned _ hinv hdone
  have hm : (items.map fun p => RecvResult.update p.1) =
      (items.map Prod.fst).map RecvResult.update := by simp
  rw [hv, recvResults_append, recvResults_turns, recvResults_lastTurn, hm] at hrecv
  obtain ⟨hus, he⟩ := map_update_snoc_inj hrecv
  simp only [RecvResult.fail.injEq] at he
  subst he
  have hc : c = false := by
    rw [hv, List.mem_append] at hcheck
    rcases hcheck with h1 | h1
    · exact absurd h1 (errCheck_not_mem_turns items false)
    · unfold lastTurn endSend at h1
      split at h1 <;> simp at h1 <;> exact h1
  subst hc
  have hrep : reported (run cs).trace = items.filterMap Prod.snd ++ [e'] := by
    have h1 := reported_eq _ hinv.ctlShape
    rw [hdone, received_errs_eq _ hinv.wellActed, hv, sentErrs_append, sentErrs_turns] at h1
    have h2 : sentErrs (lastTurn e' false : List (Action U)) = [e'] := by
      simp [lastTurn, endSend, hne, sentErrs]
    rw [h2] at h1
    simpa [CtlPc.inHand] using h1
  have hfw : failedWrites (viewOf .upstream (run cs).trace) = items.filterMap Prod.snd := by
    rw [hv, failedWrites_append, failedWrites_turns_eq, failedWrites_lastTurn, List.append_nil]
  refine ⟨?_, ?_, ?_, ?_⟩
  · rw [hv, writeCalls_append, writeCalls_turns, writeCalls_lastTurn, List.append_nil]
    exact hus
  · rw [hrep, hfw]
  · intro hw
    have h0 := failedWrites_eq_nil _ hw
    rw [hfw] at h0
    rw [hrep, h0]
    rfl
  · apply closes_mem_of_received _ hinv.ctlShape hdone
    intro hr
    have h1 := reported_eq _ hinv.ctlShape
    rw [hr, hrep] at h1
    simp at h1

/-- Counterexample to C5: in the sample session `doubleReportRun` the stream
gives one update and then a transport error (not `io.EOF`, context not
cancelled at line 102), the session is over, and `HandleAPIErrorNoWrite` has
been invoked twice: the write of the update had failed too. -/
theorem transport_error_reported_twice :
    recvResults (viewOf .upstream (run doubleReportRun).trace) =
        [1].map RecvResult.update ++ [.fail (.other 7)] ∧
      Action.errCheck false ∈ viewOf .upstream (run doubleReportRun).trace ∧
      (run doubleReportRun).ctl = .done ∧
      writeCalls (viewOf .upstream (run doubleReportRun).trace) = [1] ∧
      (reported (run doubleReportRun).trace).length = 2 :=
  ⟨rfl, by decide, rfl, rfl, rfl⟩

/-- Witness for C5 as amended, in the sample session `transportErrorRun`. -/
theorem transport_error_session_witness :
    writeCalls (viewOf .upstream (run transportErrorRun).trace) = [1] ∧
    reported (run transportErrorRun).trace =
      failedWrites (viewOf .upstream (run transportErrorRun).trace) ++ [.other 7] ∧
    ((∀ u w, Action.writeJSON u w ∈ viewOf .upstream (run transportErrorRun).trace → w = none) →
      reported (run transportErrorRun).trace = [.other 7]) ∧
    CtlAct.closeSend ∈ ctlView (run transportErrorRun).trace ∧
    CtlAct.wsClose ∈ ctlView (run transportErrorRun).trace :=
  transport_error_session transportErrorRun [1] (.other 7) rfl (by decide) (by decide) rfl

/-! ## Teardown runs once for every value received -/

theorem count_turns (a : CtlAct) (rs : List (Site × Option GoError))
    (h : ∀ p, (iteration p).count a = 1) : (rs.flatMap iteration).count a = rs.length := by
  induction rs with
  | nil => rfl
  | cons p rs ih => rw [List.flatMap_cons, List.count_append, ih, h p, List.length_cons, Nat.add_comm]

theorem count_closeSend_turn (p : Site × Option GoError) :
    (iteration p).count .closeSend = 1 := by
  rcases p with ⟨site, sig⟩
  cases sig <;> simp [iteration, reportOf, teardown]

theorem count_wsClose_turn (p : Site × Option GoError) :
    (iteration p).count .wsClose = 1 := by
  rcases p with ⟨site, sig⟩
  cases sig <;> simp [iteration, reportOf, teardown]

theorem count_cancel_turn (p : Site × Option GoError) :
    (iteration p).count .cancel = 1 := by
  rcases p with ⟨site, sig⟩
  cases sig <;> simp [iteration, reportOf, teardown]

theorem sends_append (as bs : List (Action U)) : sends (as ++ bs) = sends as ++ sends bs := by
  simp [sends, List.filterMap_append]

/-- What the two pumps have sent has been received. -/
theorem received_length_ge (t : List (Event U)) :
    (sends (viewOf .watch t)).length + (sends (viewOf .upstream t)).length ≤
      (received t).length := by
  induction t with
  | nil => exact Nat.le_refl _
  | cons ev t ih =>
    rcases ev with ⟨g, a⟩
    cases a with
    | send site sig =>
      have h1 : received (⟨g, .send site sig⟩ :: t) = (site, sig) :: received t := rfl
      rw [h1, List.length_cons]
      cases g
      · have h2 : sends (viewOf .watch (⟨.watch, .send site sig⟩ :: t)) =
            (site, sig) :: sends (viewOf .watch t) := rfl
        have h3 : viewOf .upstream (⟨.watch, .send site sig⟩ :: t) = viewOf .upstream t := rfl
        rw [h2, h3, List.length_cons]
        omega
      · have h2 : sends (viewOf .upstream (⟨.upstream, .send site sig⟩ :: t)) =
            (site, sig) :: sends (viewOf .upstream t) := rfl
        have h3 : viewOf .watch (⟨.upstream, .send site sig⟩ :: t) = viewOf .watch t := rfl
        rw [h2, h3, List.length_cons]
        omega
      · exact Nat.le_succ_of_le ih
      · exact Nat.le_succ_of_le ih
    | _ => cases g <;> exact ih

theorem sends_replicate_read (n : Nat) :
    sends (List.replicate n (Action.readMessage none : Action U)) = [] := by
  induction n with
  | zero => rfl
  | succ n ih =>
    rw [List.replicate_succ]
    exact ih

theorem sends_lastTurn_length (e : GoError) (c : Bool) :
    (sends (lastTurn e c : List (Action U))).length = 1 := by
  unfold lastTurn endSend
  split <;> rfl

/-- When `ServeHTTP` has returned, at least two values have been received: one
from each pump. -/
theorem two_received_of_returned (s : State U) (h : Inv s) (hc : s.ctl = .done) :
    2 ≤ (received s.trace).length := by
  have hge := received_length_ge s.trace
  obtain ⟨items, e, c, hv⟩ := upstream_of_returned s h hc
  have hup : 1 ≤ (sends (viewOf .upstream s.trace)).length := by
    rw [hv, sends_append, List.length_append, sends_lastTurn_length]
    omega
  obtain ⟨n, tail, hw, ht⟩ := h.watchShape
  have hr := (h.sound.stopped_of_returned hc).1
  have hwa : 1 ≤ (sends (viewOf .watch s.trace)).length := by
    rw [hw, sends_append, List.length_append, sends_replicate_read]
    generalize s.watch = pc at ht hr
    cases ht with
    | done e => exact Nat.le_refl _
    | _ => simp [WatchPc.running] at hr
  omega

/-- C6, as amended: in every interleaving, whenever the controller is not
inside a turn of the range loop (it is receiving at line 117, or the loop has
ended, or `ServeHTTP` has returned), `stream.CloseSend()` and `safeRW.Close()`
have each been issued once for every value received from `errorchan`, and
`cancel()` once for every value received and once more, deferred, when
`ServeHTTP` has returned; and when `ServeHTTP` has returned at least two
values have been received, so each of the three has been issued at least
twice. -/
theorem teardown_once_per_signal (cs : List (Choice U))
    (h : (run cs).ctl = .range ∨ (run cs).ctl = .deferred ∨ (run cs).ctl = .done) :
    (ctlView (run cs).trace).count .closeSend = (received (run cs).trace).length ∧
    (ctlView (run cs).trace).count .wsClose = (received (run cs).trace).length ∧
    (ctlView (run cs).trace).count .cancel =
      (received (run cs).trace).length + (if (run cs).ctl = .done then 1 else 0) ∧
    ((run cs).ctl = .done → 2 ≤ (received (run cs).trace).length) := by
  have hinv := inv_run cs
  have hshape := hinv.ctlShape
  unfold CtlShape at hshape
  refine ⟨?_, ?_, ?_, two_received_of_returned _ hinv⟩
  · have h1 := congrArg (List.count CtlAct.closeSend) hshape
    rw [List.count_append, List.count_append, count_turns _ _ count_closeSend_turn] at h1
    rcases h with h | h | h <;> rw [h] at h1 <;> simpa [CtlPc.remaining, CtlPc.epilogue] using h1
  · have h1 := congrArg (List.count CtlAct.wsClose) hshape
    rw [List.count_append, List.count_append, count_turns _ _ count_wsClose_turn] at h1
    rcases h with h | h | h <;> rw [h] at h1 <;> simpa [CtlPc.remaining, CtlPc.epilogue] using h1
  · have h1 := congrArg (List.count CtlAct.cancel) hshape
    rw [List.count_append, List.count_append, count_turns _ _ count_cancel_turn] at h1
    rcases h with h | h | h <;> rw [h] at h1 ⊢ <;>
      simpa [CtlPc.remaining, CtlPc.epilogue] using h1

/-- Counterexample to C6: in the sample session `cleanRun`, a session that is
over, `stream.CloseSend()` and `safeRW.Close()` have each been issued twice
and `cancel()` three times. -/
theorem teardown_issued_more_than_once :
    (run cleanRun).ctl = .done ∧
      (ctlView (run cleanRun).trace).count .closeSend = 2 ∧
      (ctlView (run cleanRun).trace).count .wsClose = 2 ∧
      (ctlView (run cleanRun).trace).count .cancel = 3 :=
  ⟨rfl, by decide, by decide, by decide⟩

/-- Witness for C6 as amended, in the sample session `cleanRun`. -/
theorem teardown_once_per_signal_witness :
    (ctlView (run cleanRun).trace).count .closeSend = (received (run cleanRun).trace).length ∧
    (ctlView (run cleanRun).trace).count .wsClose = (received (run cleanRun).trace).length ∧
    (ctlView (run cleanRun).trace).count .cancel =
      (received (run cleanRun).trace).length + (if (run cleanRun).ctl = .done then 1 else 0) ∧
    ((run cleanRun).ctl = .done → 2 ≤ (received (run cleanRun).trace).length) :=
  teardown_once_per_signal cleanRun (Or.inr (Or.inr rfl))

/-! ## How many values each pump publishes -/

theorem forwarded_append (as bs : List (Action U)) :
    forwarded (as ++ bs) = forwarded as ++ forwarded bs := by
  simp [forwarded, List.filterMap_append]

theorem ownSends_append (as bs : List (Action U)) :
    ownSends (as ++ bs) = ownSends as ++ ownSends bs := by
  simp [ownSends, sends_append]

theorem forwarded_turns (items : List (U × Option GoError)) :
    forwarded (items.flatMap fwdActs) = items.filterMap Prod.snd := by
  induction items with
  | nil => rfl
  | cons p items ih =>
    rw [List.flatMap_cons, forwarded_append, ih]
    rcases p with ⟨u, w⟩
    cases w <;> rfl

theorem ownSends_turns (items : List (U × Option GoError)) :
    ownSends (items.flatMap fwdActs) = [] := by
  induction items with
  | nil => rfl
  | cons p items ih =>
    rw [List.flatMap_cons, ownSends_append, ih]
    rcases p with ⟨u, w⟩
    cases w <;> rfl

theorem own_send_not_mem_turns (items : List (U × Option GoError)) (site : Site)
    (sig : Option GoError) (h : site ≠ .forward) :
    Action.send site sig ∉ items.flatMap fwdActs := by
  intro hm
  obtain ⟨p, _, hp⟩ := List.mem_flatMap.mp hm
  rcases p with ⟨u, w⟩
  cases w <;> simp [fwdActs] at hp
  exact h hp.1

theorem endSend_cases (e : GoError) (c : Bool) :
    (endSend e c : Action U) = .send .upstreamEnd none ∨
      (endSend e c : Action U) = .send .upstreamErr (some e) := by
  unfold endSend
  split
  · exact Or.inl rfl
  · exact Or.inr rfl

/-- The pump's own sends, their count, and what follows them, by program counter. -/
theorem UpTail.own_send {pc : UpPc U} {tail : List (Action U)} (h : UpTail pc tail) :
    forwarded tail = [] ∧ (ownSends tail).length ≤ 1 ∧
    (failedWrites tail).length ≤ 1 ∧
    ∀ t' site sig post, tail = t' ++ .send site sig :: post → post <+: [.wgDone] := by
  cases h with
  | recv => exact ⟨rfl, Nat.zero_le _, Nat.zero_le _, by simp⟩
  | write u =>
    refine ⟨rfl, Nat.zero_le _, Nat.zero_le _, ?_⟩
    intro t' site sig post hs
    rcases t' with _ | ⟨a, _ | ⟨b, t''⟩⟩ <;> simp at hs
  | forward u e =>
    refine ⟨rfl, Nat.zero_le _, Nat.le_refl _, ?_⟩
    intro t' site sig post hs
    rcases t' with _ | ⟨a, _ | ⟨b, _ | ⟨c, t''⟩⟩⟩ <;> simp at hs
  | check e =>
    refine ⟨rfl, Nat.zero_le _, Nat.zero_le _, ?_⟩
    intro t' site sig post hs
    rcases t' with _ | ⟨a, _ | ⟨b, t''⟩⟩ <;> simp at hs
  | sendNil e c hc =>
    refine ⟨rfl, Nat.zero_le _, Nat.zero_le _, ?_⟩
    intro t' site sig post hs
    rcases t' with _ | ⟨a, _ | ⟨b, _ | ⟨c, t''⟩⟩⟩ <;> simp at hs
  | sendErr e he =>
    refine ⟨rfl, Nat.zero_le _, Nat.zero_le _, ?_⟩
    intro t' site sig post hs
    rcases t' with _ | ⟨a, _ | ⟨b, _ | ⟨c, t''⟩⟩⟩ <;> simp at hs
  | exit e c =>
    refine ⟨?_, ?_, ?_, ?_⟩
    · rcases endSend_cases (U := U) e c with h1 | h1 <;> rw [h1] <;> rfl
    · rcases endSend_cases (U := U) e c with h1 | h1 <;> rw [h1] <;> exact Nat.le_refl _
    · rcases endSend_cases (U := U) e c with h1 | h1 <;> rw [h1] <;> exact Nat.zero_le _
    · intro t' site sig post hs
      rcases t' with _ | ⟨a, _ | ⟨b, _ | ⟨c, _ | ⟨d, t''⟩⟩⟩⟩ <;> simp at hs
      rw [hs.2.2.2]
      exact List.nil_prefix
  | done e c =>
    refine ⟨?_, ?_, ?_, ?_⟩
    · unfold lastTurn
      rcases endSend_cases (U := U) e c with h1 | h1 <;> rw [h1] <;> rfl
    · unfold lastTurn
      rcases endSend_cases (U := U) e c with h1 | h1 <;> rw [h1] <;> exact Nat.le_refl _
    · unfold lastTurn
      rcases endSend_cases (U := U) e c with h1 | h1 <;> rw [h1] <;> exact Nat.zero_le _
    · intro t' site sig post hs
      unfold lastTurn at hs
      rcases t' with _ | ⟨a, _ | ⟨b, _ | ⟨c, _ | ⟨d, _ | ⟨f, t''⟩⟩⟩⟩⟩ <;> simp at hs
      rw [hs.2.2.2]

theorem WatchTail.watch_send {pc : WatchPc} {tail : List (Action U)} (h : WatchTail pc tail) :
    (sends tail).length ≤ 1 ∧
    ∀ t' site sig post, tail = t' ++ .send site sig :: post → post <+: [.wgDone] := by
  cases h with
  | read => exact ⟨Nat.zero_le _, by simp⟩
  | send e =>
    refine ⟨Nat.zero_le _, ?_⟩
    intro t' site sig post hs
    rcases t' with _ | ⟨a, _ | ⟨b, t''⟩⟩ <;> simp at hs
  | exit e =>
    refine ⟨Nat.le_refl _, ?_⟩
    intro t' site sig post hs
    rcases t' with _ | ⟨a, _ | ⟨b, _ | ⟨c, t''⟩⟩⟩ <;> simp at hs
    rw [hs.2.2]
    exact List.nil_prefix
  | done e =>
    refine ⟨Nat.le_refl _, ?_⟩
    intro t' site sig post hs
    rcases t' with _ | ⟨a, _ | ⟨b, _ | ⟨c, _ | ⟨d, t''⟩⟩⟩⟩ <;> simp at hs
    rw [hs.2.2]

theorem send_not_mem_replicate_read (n : Nat) (site : Site) (sig : Option GoError) :
    Action.send site sig ∉ List.replicate n (Action.readMessage none : Action U) := by
  intro h
  have := List.eq_of_mem_replicate h
  cases this

/-- C7, as amended: in every interleaving, (1) the client-watch pump has
published at most one value, and after its send it does nothing but return;
(2) the upstream pump has made at most one send of its own (line 103 or 105),
and after that send it does nothing but return; (3) the sends made on its
behalf by `WriteJSONWithChannel` are one for each failed write, in order: the
errors sent are the errors of the failed writes, the last of them possibly
still to be sent.  So the upstream pump publishes one value for every failed
write and one more when `Recv` fails. -/
theorem signals_published_by_each_pump (cs : List (Choice U)) :
    (sends (viewOf .watch (run cs).trace)).length ≤ 1 ∧
    (∀ pre site sig post, viewOf .watch (run cs).trace = pre ++ Action.send site sig :: post →
      post <+: [.wgDone]) ∧
    (ownSends (viewOf .upstream (run cs).trace)).length ≤ 1 ∧
    (∀ pre site sig post, viewOf .upstream (run cs).trace = pre ++ Action.send site sig :: post →
      site ≠ .forward → post <+: [.wgDone]) ∧
    forwarded (viewOf .upstream (run cs).trace) <+:
      failedWrites (viewOf .upstream (run cs).trace) ∧
    (failedWrites (viewOf .upstream (run cs).trace)).length ≤
      (forwarded (viewOf .upstream (run cs).trace)).length + 1 := by
  have hinv := inv_run cs
  obtain ⟨n, wtail, hw, hwt⟩ := hinv.watchShape
  obtain ⟨items, tail, hv, ht⟩ := hinv.upShape
  have hown := ht.own_send
  refine ⟨?_, ?_, ?_, ?_, ?_, ?_⟩
  · rw [hw, sends_append, sends_replicate_read]
    exact hwt.watch_send.1
  · intro pre site sig post hs
    rw [hw] at hs
    obtain ⟨t', h1, _⟩ := append_split_of_not_mem hs (send_not_mem_replicate_read n site sig)
    exact hwt.watch_send.2 t' site sig post h1
  · rw [hv, ownSends_append, ownSends_turns]
    exact hown.2.1
  · intro pre site sig post hs hne
    rw [hv] at hs
    obtain ⟨t', h1, _⟩ := append_split_of_not_mem hs (own_send_not_mem_turns items site sig hne)
    exact hown.2.2.2 t' site sig post h1
  · rw [hv, forwarded_append, failedWrites_append, forwarded_turns, failedWrites_turns_eq,
      hown.1, List.append_nil]
    exact ⟨_, rfl⟩
  · rw [hv, forwarded_append, failedWrites_append, forwarded_turns, failedWrites_turns_eq,
      hown.1, List.append_nil, List.length_append]
    have := hown.2.2.1
    omega

/-- Counterexample to C7: in the sample session `failedSendRun` the upstream
pump publishes three values on `errorchan`: two through
`WriteJSONWithChannel`, for the two failed writes, and one of its own. -/
theorem upstream_pump_publishes_thrice :
    sends (viewOf .upstream (run failedSendRun).trace) =
      [(.forward, some (.other 5)), (.forward, some (.other 5)), (.upstreamEnd, none)] :=
  rfl

/-- Witness for C7 as amended, in the sample session `failedSendRun`. -/
theorem signals_published_by_each_pump_witness :
    (sends (viewOf .watch (run failedSendRun).trace)).length ≤ 1 ∧
    ([Action.wgDone] : List (Action Nat)) <+: [.wgDone] ∧
    (ownSends (viewOf .upstream (run failedSendRun).trace)).length ≤ 1 ∧
    forwarded (viewOf .upstream (run failedSendRun).trace) <+:
      failedWrites (viewOf .upstream (run failedSendRun).trace) :=
  ⟨(signals_published_by_each_pump failedSendRun).1,
   (signals_published_by_each_pump failedSendRun).2.1
     [.readMessage (some (.other 1))] .clientClosed none [.wgDone] rfl,
   (signals_published_by_each_pump failedSendRun).2.2.1,
   (signals_published_by_each_pump failedSendRun).2.2.2.2.1⟩

/-! ## Nothing is sent on the closed channel -/

theorem mem_of_mem_viewOf {g : Gor} {t : List (Event U)} {a : Action U}
    (h : a ∈ viewOf g t) : (⟨g, a⟩ : Event U) ∈ t := by
  obtain ⟨ev, hev, rfl⟩ := List.mem_map.mp h
  have h1 := List.mem_filter.mp hev
  have h2 : ev.actor = g := of_decide_eq_true h1.2
  rcases ev with ⟨g', a'⟩
  simp only at h2
  subst h2
  exact h1.1

theorem viewOf_eq_nil {g : Gor} {t : List (Event U)} (h : viewOf g t = []) :
    ∀ ev ∈ t, ev.actor ≠ g := by
  intro ev hev hg
  have h1 : ev.act ∈ viewOf g t :=
    List.mem_map.mpr ⟨ev, List.mem_filter.mpr ⟨hev, decide_eq_true hg⟩, rfl⟩
  rw [h] at h1
  cases h1

theorem wgDone_mem_of_stopped (s : State U) (h : Inv s) :
    (s.watch.running = false → (⟨.watch, .wgDone⟩ : Event U) ∈ s.trace) ∧
    (s.up.running = false → (⟨.upstream, .wgDone⟩ : Event U) ∈ s.trace) := by
  constructor
  · intro hr
    obtain ⟨n, tail, hw, ht⟩ := h.watchShape
    apply mem_of_mem_viewOf
    rw [hw]
    generalize s.watch = pc at ht hr
    cases ht with
    | done e => simp
    | _ => simp [WatchPc.running] at hr
  · intro hr
    obtain ⟨items, tail, hv, ht⟩ := h.upShape
    apply mem_of_mem_viewOf
    rw [hv]
    generalize s.up = pc at ht hr
    cases ht with
    | done e c => simp [lastTurn]
    | _ => simp [UpPc.running] at hr

theorem snoc_split {α : Type} {t X a b : List α} {y : α} (h : t ++ X = a ++ y :: b) :
    (∃ a', a = t ++ a' ∧ X = a' ++ y :: b) ∨ ∃ b', t = a ++ y :: b' ∧ b = b' ++ X := by
  rcases List.append_eq_append_iff.mp h with ⟨a', h1, h2⟩ | ⟨c', h1, h2⟩
  · exact Or.inl ⟨a', h1, h2⟩
  · cases c' with
    | nil =>
      refine Or.inl ⟨[], by simpa using h1.symm, by simpa using h2.symm⟩
    | cons z c'' =>
      simp only [List.cons_append, List.cons.injEq] at h2
      refine Or.inr ⟨c'', ?_, h2.2⟩
      rw [h1, h2.1]

/-- A step that leaves the channel as it is and emits no close keeps the order,
provided that on the closed channel only the controller emits anything. -/
theorem closedOk_extend (s s' : State U) (g : Gor) (as : List (Action U))
    (ht : s'.trace = s.trace ++ as.map (Event.mk g))
    (hc : s'.chanClosed = s.chanClosed)
    (hno : ∀ a ∈ as, a ≠ Action.closeChan)
    (hcl : s.chanClosed = true → as = [] ∨ g = .controller)
    (h : ClosedOk s) : ClosedOk s' := by
  obtain ⟨h1, h2⟩ := h
  constructor
  · intro ho ev hev
    rw [hc] at ho
    rw [ht, List.mem_append] at hev
    rcases hev with hev | hev
    · exact h1 ho ev hev
    · obtain ⟨a, ha, rfl⟩ := List.mem_map.mp hev
      exact hno a ha
  · intro a b g' hs
    rw [ht] at hs
    rcases snoc_split hs with ⟨a', _, hX⟩ | ⟨b', hb, rfl⟩
    · have hm : (⟨g', .closeChan⟩ : Event U) ∈ as.map (Event.mk g) := by
        rw [hX]
        simp
      obtain ⟨x, hx, hxe⟩ := List.mem_map.mp hm
      have hx2 : x = Action.closeChan := by
        cases hxe
        rfl
      exact absurd hx2 (hno x hx)
    · obtain ⟨h3, h4, h5⟩ := h2 a b' g' hb
      refine ⟨?_, h4, h5⟩
      have hclosed : s.chanClosed = true := by
        cases hcc : s.chanClosed with
        | true => rfl
        | false =>
          have := h1 hcc ⟨g', .closeChan⟩ (by rw [hb]; simp)
          exact absurd rfl this
      intro ev hev
      rcases List.mem_append.mp hev with hev | hev
      · exact h3 ev hev
      · rcases hcl hclosed with hnil | hg
        · rw [hnil] at hev
          cases hev
        · obtain ⟨x, _, rfl⟩ := List.mem_map.mp hev
          exact hg

theorem stepWatch_chanClosed (r : Option GoError) (s : State U) :
    (stepWatch r s).chanClosed = s.chanClosed := by
  rcases s with ⟨wa, u, ct, k, wg, can, cl, p, t⟩
  cases wa
  · cases r <;> rfl
  · cases cl
    · cases ct <;> rfl
    · rfl
  · rfl
  · rfl

theorem stepUp_chanClosed (r : RecvResult U) (w : Option GoError) (s : State U) :
    (stepUp r w s).chanClosed = s.chanClosed := by
  rcases s with ⟨wa, u, ct, k, wg, can, cl, p, t⟩
  cases u
  · cases r <;> rfl
  · simp only [stepUp]
    split <;> rfl
  · cases cl
    · cases ct <;> rfl
    · rfl
  · cases cl
    · cases ct <;> rfl
    · rfl
  · cases w <;> rfl
  · cases cl
    · cases ct <;> rfl
    · rfl
  · rfl
  · rfl

theorem stepCtl_chanClosed (e : Option GoError) (s : State U) :
    (stepCtl e s).chanClosed = s.chanClosed := by
  rcases s with ⟨wa, u, ct, k, wg, can, cl, p, t⟩
  cases ct
  · cases cl <;> rfl
  · rename_i sig
    cases sig <;> rfl
  all_goals rfl

theorem stepWatch_of_stopped (r : Option GoError) (s : State U)
    (h : s.watch.running = false) : stepWatch r s = s := by
  rcases s with ⟨wa, u, ct, k, wg, can, cl, p, t⟩
  cases wa
  · exact Bool.noConfusion h
  · exact Bool.noConfusion h
  · exact Bool.noConfusion h
  · rfl

theorem stepUp_of_stopped (r : RecvResult U) (w : Option GoError) (s : State U)
    (h : s.up.running = false) : stepUp r w s = s := by
  rcases s with ⟨wa, u, ct, k, wg, can, cl, p, t⟩
  cases u
  case done => rfl
  all_goals exact Bool.noConfusion h

theorem nil_of_trace_eq {g : Gor} {t : List (Event U)} {as : List (Action U)}
    (h : t = t ++ as.map (Event.mk g)) : as = [] := by
  have h1 := List.self_eq_append_right.mp h
  exact List.map_eq_nil_iff.mp h1

theorem closedOk_init : ClosedOk (init : State U) := by
  constructor
  · intro _ ev hev
    cases hev
  · intro a b g hs
    have : (⟨g, .closeChan⟩ : Event U) ∈ ([] : List (Event U)) := by
      have h1 : (init : State U).trace = [] := rfl
      rw [← h1, hs]
      simp
    cases this

theorem closedOk_stepCloser (s : State U) (hinv : Inv s) (h : ClosedOk s) :
    ClosedOk (stepCloser s) := by
  have hs := hinv.sound
  have hwg := wgDone_mem_of_stopped s hinv
  rcases s with ⟨wa, u, ct, k, wg, can, cl, p, t⟩
  cases k with
  | wait =>
    simp only [stepCloser]
    split
    · exact h
    · exact h
  | done => exact h
  | close =>
    have hcl : cl = false := by
      cases hc : cl with
      | false => rfl
      | true =>
        have := hs.closed_iff.mp hc
        cases this
    subst hcl
    have h0 : wg = 0 := hs.closer_wg (fun hk => CloserPc.noConfusion hk)
    have hst : wa.running = false ∧ u.running = false := by
      have h1 := hs.wg_eq
      simp only at h1
      rw [h0] at h1
      constructor
      · cases hw : wa.running
        · rfl
        · rw [hw] at h1
          simp only [if_true] at h1
          omega
      · cases hu : u.running
        · rfl
        · rw [hu] at h1
          simp only [if_true] at h1
          omega
    constructor
    · intro hc
      cases hc
    · intro a b g hsplit
      have hsplit' : t ++ [(⟨.closer, .closeChan⟩ : Event U)] = a ++ ⟨g, .closeChan⟩ :: b := hsplit
      rcases snoc_split hsplit' with ⟨a', ha, hX⟩ | ⟨b', hb, _⟩
      · cases a' with
        | nil =>
          simp only [List.nil_append, List.cons.injEq] at hX
          simp only [List.append_nil] at ha
          rw [← hX.2, ha]
          exact ⟨by simp, hwg.1 hst.1, hwg.2 hst.2⟩
        | cons z a'' =>
          simp only [List.cons_append, List.cons.injEq] at hX
          have := hX.2
          simp at this
      · have := h.1 rfl ⟨g, .closeChan⟩ (by rw [hb]; simp)
        exact absurd rfl this

theorem mayPerform_ne_close {g : Gor} {as : List (Action U)} (hg : g ≠ .closer)
    (h : ∀ a ∈ as, mayPerform g a = true) : ∀ a ∈ as, a ≠ Action.closeChan := by
  intro a ha hc
  have := h a ha
  rw [hc] at this
  cases g
  · exact Bool.noConfusion this
  · exact Bool.noConfusion this
  · exact Bool.noConfusion this
  · exact hg rfl

theorem closedOk_step (s : State U) (c : Choice U) (hinv : Inv s) (h : ClosedOk s) :
    ClosedOk (step s c) := by
  unfold step
  split
  · exact h
  · cases c with
    | watch r =>
      obtain ⟨as, ht, hp⟩ := stepWatch_extends r s
      refine closedOk_extend s _ .watch as ht (stepWatch_chanClosed r s)
        (mayPerform_ne_close (by decide) hp) ?_ h
      intro hc
      left
      have hst := stepWatch_of_stopped r s (hinv.sound.stopped_of_closed hc).1
      rw [hst] at ht
      exact nil_of_trace_eq ht
    | upstream r w =>
      obtain ⟨as, ht, hp⟩ := stepUp_extends r w s
      refine closedOk_extend s _ .upstream as ht (stepUp_chanClosed r w s)
        (mayPerform_ne_close (by decide) hp) ?_ h
      intro hc
      left
      have hst := stepUp_of_stopped r w s (hinv.sound.stopped_of_closed hc).2
      rw [hst] at ht
      exact nil_of_trace_eq ht
    | controller e =>
      obtain ⟨as, ht, hp⟩ := stepCtl_extends e s
      exact closedOk_extend s _ .controller as ht (stepCtl_chanClosed e s)
        (mayPerform_ne_close (by decide) hp) (fun _ => Or.inr rfl) h
    | closer => exact closedOk_stepCloser s hinv h

theorem closedOk_runFrom (cs : List (Choice U)) (s : State U) (hinv : Inv s)
    (h : ClosedOk s) : ClosedOk (runFrom s cs) := by
  induction cs generalizing s with
  | nil => exact h
  | cons c cs ih => exact ih (step s c) (inv_step s c hinv) (closedOk_step s c hinv h)

theorem closedOk_run (cs : List (Choice U)) : ClosedOk (run cs) :=
  closedOk_runFrom cs init inv_init closedOk_init

theorem wgDone_not_mem_turns (items : List (U × Option GoError)) :
    Action.wgDone ∉ items.flatMap fwdActs := by
  intro h
  obtain ⟨p, _, hp⟩ := List.mem_flatMap.mp h
  rcases p with ⟨u, w⟩
  cases w <;> simp [fwdActs] at hp

theorem UpTail.wgDone_last {pc : UpPc U} {tail t' post : List (Action U)} (h : UpTail pc tail)
    (hs : tail = t' ++ .wgDone :: post) : post = [] := by
  cases h with
  | recv => simp at hs
  | write u => rcases t' with _ | ⟨a, _ | ⟨b, t''⟩⟩ <;> simp at hs
  | forward u e => rcases t' with _ | ⟨a, _ | ⟨b, _ | ⟨c, t''⟩⟩⟩ <;> simp at hs
  | check e => rcases t' with _ | ⟨a, _ | ⟨b, t''⟩⟩ <;> simp at hs
  | sendNil e c hc => rcases t' with _ | ⟨a, _ | ⟨b, _ | ⟨c, t''⟩⟩⟩ <;> simp at hs
  | sendErr e he => rcases t' with _ | ⟨a, _ | ⟨b, _ | ⟨c, t''⟩⟩⟩ <;> simp at hs
  | exit e c =>
    rcases endSend_cases (U := U) e c with h1 | h1 <;> rw [h1] at hs <;>
      rcases t' with _ | ⟨a, _ | ⟨b, _ | ⟨c, _ | ⟨d, t''⟩⟩⟩⟩ <;> simp at hs
  | done e c =>
    unfold lastTurn at hs
    rcases endSend_cases (U := U) e c with h1 | h1 <;> rw [h1] at hs <;>
      rcases t' with _ | ⟨a, _ | ⟨b, _ | ⟨c, _ | ⟨d, _ | ⟨f, t''⟩⟩⟩⟩⟩ <;> simp at hs <;>
      exact hs.2.2.2

theorem WatchTail.wgDone_final {pc : WatchPc} {tail t' post : List (Action U)}
    (h : WatchTail pc tail) (hs : tail = t' ++ .wgDone :: post) : post = [] := by
  cases h with
  | read => simp at hs
  | send e => rcases t' with _ | ⟨a, _ | ⟨b, t''⟩⟩ <;> simp at hs
  | exit e => rcases t' with _ | ⟨a, _ | ⟨b, _ | ⟨c, t''⟩⟩⟩ <;> simp at hs
  | done e =>
    rcases t' with _ | ⟨a, _ | ⟨b, _ | ⟨c, _ | ⟨d, t''⟩⟩⟩⟩ <;> simp at hs
    exact hs.2.2

theorem wgDone_not_mem_replicate_read (n : Nat) :
    Action.wgDone ∉ List.replicate n (Action.readMessage none : Action U) := by
  intro h
  have := List.eq_of_mem_replicate h
  cases this

/-- C8: in every interleaving, (1) no goroutine ever sends on the closed
`errorchan` (the panic of such a send does not occur); (2) wherever
`close(errorchan)` stands in the trace, both pumps have returned before it
(their deferred `wg.Done()` has run) and no send on `errorchan` comes after
it; (3) wherever the return of a pump stands in the trace, that pump does
nothing after it, so all its sends, those made through `WriteJSONWithChannel`
included, come before its return. -/
theorem no_send_after_close (cs : List (Choice U)) :
    (run cs).panicked = false ∧
    (∀ a b g, (run cs).trace = a ++ ⟨g, .closeChan⟩ :: b →
      (∀ ev ∈ b, ∀ site sig, ev.act ≠ .send site sig) ∧
      ⟨.watch, .wgDone⟩ ∈ a ∧ ⟨.upstream, .wgDone⟩ ∈ a) ∧
    (∀ a b g, (run cs).trace = a ++ ⟨g, .wgDone⟩ :: b → ∀ ev ∈ b, ev.actor ≠ g) := by
  have hinv := inv_run cs
  have hclosed := closedOk_run cs
  refine ⟨hinv.sound.no_panic, ?_, ?_⟩
  · intro a b g hs
    obtain ⟨h1, h2, h3⟩ := hclosed.2 a b g hs
    refine ⟨?_, h2, h3⟩
    intro ev hev site sig hsend
    have hact := h1 ev hev
    have hp := hinv.wellActed ev (by rw [hs]; simp [hev])
    rw [hact, hsend] at hp
    exact Bool.noConfusion hp
  · intro a b g hs
    have hp := hinv.wellActed ⟨g, .wgDone⟩ (by rw [hs]; simp)
    have hview : viewOf g (run cs).trace = viewOf g a ++ .wgDone :: viewOf g b := by
      rw [hs, viewOf_append, viewOf_cons]
      simp
    apply viewOf_eq_nil
    cases g with
    | watch =>
      obtain ⟨n, tail, hw, ht⟩ := hinv.watchShape
      rw [hw] at hview
      obtain ⟨t', h1, _⟩ := append_split_of_not_mem hview (wgDone_not_mem_replicate_read n)
      exact ht.wgDone_final h1
    | upstream =>
      obtain ⟨items, tail, hv, ht⟩ := hinv.upShape
      rw [hv] at hview
      obtain ⟨t', h1, _⟩ := append_split_of_not_mem hview (wgDone_not_mem_turns items)
      exact ht.wgDone_last h1
    | controller => exact Bool.noConfusion hp
    | closer => exact Bool.noConfusion hp

/-- Witness for C8, in the sample session `cleanRun`: the close of the channel
is the last event but one, after both returns, and what follows it is the
deferred `cancel()`. -/
theorem no_send_after_close_witness :
    (run cleanRun).panicked = false ∧
    ((∀ ev ∈ [(⟨.controller, .cancel⟩ : Event Nat)], ∀ site sig, ev.act ≠ .send site sig) ∧
      (⟨.watch, .wgDone⟩ : Event Nat) ∈ (run cleanRun).trace.take 17 ∧
      (⟨.upstream, .wgDone⟩ : Event Nat) ∈ (run cleanRun).trace.take 17) :=
  ⟨(no_send_after_close cleanRun).1,
   (no_send_after_close cleanRun).2.1 ((run cleanRun).trace.take 17) [⟨.controller, .cancel⟩]
     .closer rfl⟩

/-! ## The first value received sets off the whole teardown -/

theorem iteration_length_ge (p : Site × Option GoError) : 4 ≤ (iteration p).length := by
  rcases p with ⟨site, sig⟩
  cases sig <;> simp [iteration, reportOf, teardown]

theorem remaining_length_le (pc : CtlPc) : pc.remaining.length ≤ 4 := by
  cases pc with
  | handle sig => cases sig <;> simp [CtlPc.remaining, reportOf, teardown]
  | _ => simp [CtlPc.remaining, teardown]

theorem turns_length_ge (rs : List (Site × Option GoError)) (h : rs ≠ []) :
    4 ≤ (rs.flatMap iteration).length := by
  cases rs with
  | nil => exact absurd rfl h
  | cons p rs =>
    rw [List.flatMap_cons, List.length_append]
    have := iteration_length_ge p
    omega

/-- One turn of the range loop, run from line 118: the controller is never
blocked in it. -/
theorem ctl_turn (s : State U) (sig x : Option GoError) (hc : s.ctl = .handle sig)
    (hp : s.panicked = false) :
    (runFrom s (List.replicate 4 (.controller x))).ctl = .range ∧
    ctlView (runFrom s (List.replicate 4 (.controller x))).trace =
      ctlView s.trace ++ (reportOf sig ++ [.closeSend, .wsClose, .cancel]) ∧
    viewOf .controller (runFrom s (List.replicate 4 (.controller x))).trace =
      viewOf .controller s.trace ++
        ((match sig with
          | some e => [Action.report e]
          | none => []) ++ [.closeSend x, .wsClose x, .cancel]) := by
  rcases s with ⟨wa, u, ct, k, wg, can, cl, p, t⟩
  simp only at hc hp
  subst hc hp
  cases sig with
  | none =>
    simp [runFrom, step, stepCtl, emit, ctlView, ctlAct, reportOf, viewOf_append, viewOf_cons,
      viewOf_nil, List.filterMap_append]
  | some e =>
    simp [runFrom, step, stepCtl, emit, ctlView, ctlAct, reportOf, viewOf_append, viewOf_cons,
      viewOf_nil, List.filterMap_append]

/-- C9: in every interleaving, (1) once the controller waits again at line
117, or has left the loop, or has received a further value, what it has done
starts with: the receipt of the first value, whichever pump sent it and
whatever it is, the report of line 119 when the value is non-nil, then
`stream.CloseSend()`, `safeRW.Close()` and `cancel()`; no other receipt comes
in between; (2) the controller is not blocked in between: from any reachable
state in which it has just received a value, four steps of the controller
perform exactly the report (when non-nil) and the three teardown calls and
bring it back to line 117. -/
theorem first_signal_runs_full_teardown (cs : List (Choice U)) :
    (∀ site sig rest, received (run cs).trace = (site, sig) :: rest →
      (rest ≠ [] ∨ (run cs).ctl = .range ∨ (run cs).ctl = .deferred ∨ (run cs).ctl = .done) →
      (CtlAct.received site sig :: (reportOf sig ++ [.closeSend, .wsClose, .cancel])) <+:
        ctlView (run cs).trace) ∧
    (∀ sig x, (run cs).ctl = .handle sig →
      (runFrom (run cs) (List.replicate 4 (.controller x))).ctl = .range ∧
      ctlView (runFrom (run cs) (List.replicate 4 (.controller x))).trace =
        ctlView (run cs).trace ++ (reportOf sig ++ [.closeSend, .wsClose, .cancel]) ∧
      viewOf .controller (runFrom (run cs) (List.replicate 4 (.controller x))).trace =
        viewOf .controller (run cs).trace ++
          ((match sig with
            | some e => [Action.report e]
            | none => []) ++ [.closeSend x, .wsClose x, .cancel])) := by
  have hinv := inv_run cs
  constructor
  · intro site sig rest hr hcase
    have hshape := hinv.ctlShape
    unfold CtlShape at hshape
    rw [hr, List.flatMap_cons, List.append_assoc] at hshape
    have hit : iteration (site, sig) =
        CtlAct.received site sig :: (reportOf sig ++ [.closeSend, .wsClose, .cancel]) := rfl
    rw [← hit]
    rcases List.append_eq_append_iff.mp hshape with ⟨a', h1, h2⟩ | ⟨c', h1, _⟩
    · have ha' : a' = [] := by
        rcases hcase with hne | hpc | hpc | hpc
        · have hlen := congrArg List.length h2
          rw [List.length_append, List.length_append] at hlen
          have h3 := turns_length_ge rest hne
          have h4 := remaining_length_le (run cs).ctl
          have h5 : a'.length = 0 := by omega
          exact List.length_eq_zero.mp h5
        · rw [hpc] at h2
          simp only [CtlPc.remaining] at h2
          exact (List.append_eq_nil.mp h2.symm).1
        · rw [hpc] at h2
          simp only [CtlPc.remaining] at h2
          exact (List.append_eq_nil.mp h2.symm).1
        · rw [hpc] at h2
          simp only [CtlPc.remaining] at h2
          exact (List.append_eq_nil.mp h2.symm).1
      rw [ha', List.append_nil] at h1
      rw [h1]
    · exact ⟨c', h1.symm⟩
  · intro sig x hc
    exact ctl_turn _ sig x hc hinv.sound.no_panic

/-- Witness for C9: in the sample session `doubleReportRun` the first value
received is the send error; and in `cleanRun`, cut right after the pump's
send, the controller runs its turn. -/
theorem first_signal_runs_full_teardown_witness :
    ((CtlAct.received .forward (some (.other 5)) ::
        (reportOf (some (.other 5)) ++ [.closeSend, .wsClose, .cancel])) <+:
      ctlView (run doubleReportRun).trace) ∧
    (runFrom (run (cleanRun.take 7)) (List.replicate 4 (.controller none))).ctl = .range :=
  ⟨(first_signal_runs_full_teardown doubleReportRun).1 .forward (some (.other 5))
      [(.upstreamErr, some (.other 7)), (.clientClosed, none)] rfl (Or.inl (by simp)),
   ((first_signal_runs_full_teardown (cleanRun.take 7)).2 none none rfl).1⟩

/-! ## Only the controller tears down -/

theorem teardown_filter_eq (t : List (Event U))
    (h : ∀ ev ∈ t, mayPerform ev.actor ev.act = true) :
    (t.map Event.act).filter isTeardown = (viewOf .controller t).filter isTeardown := by
  induction t with
  | nil => rfl
  | cons ev t ih =>
    have ih' := ih fun ev' hev' => h ev' (List.mem_cons_of_mem _ hev')
    have hp := h ev (List.mem_cons_self _ _)
    rcases ev with ⟨g, a⟩
    cases g with
    | controller =>
      have h1 : viewOf .controller (⟨.controller, a⟩ :: t) = a :: viewOf .controller t := rfl
      rw [h1, List.map_cons, List.filter_cons, List.filter_cons, ih']
    | watch =>
      have h1 : viewOf .controller (⟨.watch, a⟩ :: t) = viewOf .controller t := rfl
      rw [h1, List.map_cons, List.filter_cons, ih']
      cases a <;> first | rfl | exact Bool.noConfusion hp
    | upstream =>
      have h1 : viewOf .controller (⟨.upstream, a⟩ :: t) = viewOf .controller t := rfl
      rw [h1, List.map_cons, List.filter_cons, ih']
      cases a <;> first | rfl | exact Bool.noConfusion hp
    | closer =>
      have h1 : viewOf .controller (⟨.closer, a⟩ :: t) = viewOf .controller t := rfl
      rw [h1, List.map_cons, List.filter_cons, ih']
      cases a <;> first | rfl | exact Bool.noConfusion hp

theorem teardown_filter_nil (g : Gor) (hg : g ≠ .controller) (t : List (Event U))
    (h : ∀ ev ∈ t, mayPerform ev.actor ev.act = true) :
    (viewOf g t).filter isTeardown = [] := by
  rw [List.filter_eq_nil_iff]
  intro a ha
  have hp := h _ (mem_of_mem_viewOf ha)
  simp only at hp
  cases g with
  | controller => exact absurd rfl hg
  | _ => cases a <;> first | exact Bool.noConfusion hp | simp [isTeardown]

/-- C10: in every interleaving, among the actions of the client-watch pump and
among those of the upstream pump (and of the closer) there is no
`stream.CloseSend()`, no `safeRW.Close()` and no `cancel()`; the teardown
operations of the session are, one for one and in order, those of the
controller. -/
theorem teardown_only_by_controller (cs : List (Choice U)) :
    (viewOf .watch (run cs).trace).filter isTeardown = [] ∧
    (viewOf .upstream (run cs).trace).filter isTeardown = [] ∧
    (viewOf .closer (run cs).trace).filter isTeardown = [] ∧
    ((run cs).trace.map Event.act).filter isTeardown =
      (viewOf .controller (run cs).trace).filter isTeardown := by
  have h := (inv_run cs).wellActed
  exact ⟨teardown_filter_nil .watch (by decide) _ h, teardown_filter_nil .upstream (by decide) _ h,
    teardown_filter_nil .closer (by decide) _ h, teardown_filter_eq _ h⟩

/-! ## The client-watch pump only watches -/

/-- C13: in every interleaving, (1) what the client-watch pump has done is a
number of successful reads and then, at most, the first failed read, one send
of `nil` on `errorchan` (line 87) and its return: nothing is done with a
message that was read, and nothing follows the return; (2) a successful read
changes nothing in the session: the pump is back at `ReadMessage` and only
the read is recorded; (3) the pump is not stuck before its send: from any
reachable state in which it is in the send of line 87, once the controller
has finished its turn of the loop the send completes, and the next step of the
pump is its return. -/
theorem watch_pump_only_watches (cs : List (Choice U)) :
    (∃ n e, viewOf .watch (run cs).trace <+:
      List.replicate n (Action.readMessage none) ++
        [.readMessage (some e), .send .clientClosed none, .wgDone]) ∧
    ((run cs).watch = .read →
      step (run cs) (.watch none) = emit (run cs) .watch (.readMessage none)) ∧
    (∀ r x, (run cs).watch = .send →
      (runFrom (run cs) (List.replicate 4 (.controller x) ++ [.watch r, .watch r])).watch = .done ∧
      viewOf .watch
          (runFrom (run cs) (List.replicate 4 (.controller x) ++ [.watch r, .watch r])).trace =
        viewOf .watch (run cs).trace ++ [.send .clientClosed none, .wgDone]) := by
  have hinv := inv_run cs
  refine ⟨?_, ?_, ?_⟩
  · obtain ⟨n, tail, hw, ht⟩ := hinv.watchShape
    generalize (run cs).watch = pc at ht
    rw [hw]
    cases ht with
    | read =>
      exact ⟨n, .EOF, ⟨[.readMessage (some .EOF), .send .clientClosed none, .wgDone], by simp⟩⟩
    | send e => exact ⟨n, e, ⟨[.send .clientClosed none, .wgDone], by simp⟩⟩
    | exit e => exact ⟨n, e, ⟨[.wgDone], by simp⟩⟩
    | done e => exact ⟨n, e, ⟨[], by simp⟩⟩
  · intro hpc
    have hp := hinv.sound.no_panic
    generalize run cs = s at hpc hp
    rcases s with ⟨wa, u, ct, k, wg, can, cl, p, t⟩
    simp only at hpc hp
    subst hpc hp
    rfl
  · intro r x hpc
    have hs := hinv.sound
    generalize run cs = s at hpc hs
    have ho : s.chanClosed = false := hs.open_of_running (Or.inl (by rw [hpc]; rfl))
    obtain ⟨as, can, hset, _⟩ := ctl_settles s x hs ho
    rw [runFrom_append, hset]
    rcases s with ⟨wa, u, ct, k, wg, can0, cl, p, t⟩
    simp only at hpc ho
    subst hpc ho
    have hp : p = false := hs.no_panic
    subst hp
    simp [runFrom, step, stepWatch, sendOn, emit, viewOf_append, viewOf_map_other,
      viewOf_snoc_self, viewOf_cons, viewOf_nil]

/-- Witness for C13, in the sample session `cleanRun`. -/
theorem watch_pump_only_watches_witness :
    (∃ n e, viewOf .watch (run cleanRun).trace <+:
      List.replicate n (Action.readMessage none) ++
        [.readMessage (some e), .send .clientClosed none, .wgDone]) ∧
    step (run ([] : List (Choice Nat))) (.watch none) =
      emit (run ([] : List (Choice Nat))) .watch (.readMessage none) ∧
    (runFrom (run [Choice.watch (some (.other 1))])
      (List.replicate 4 (.controller none) ++ [watchStep, watchStep])).watch = .done :=
  ⟨(watch_pump_only_watches cleanRun).1,
   (watch_pump_only_watches ([] : List (Choice Nat))).2.1 rfl,
   ((watch_pump_only_watches [Choice.watch (some (.other 1))]).2.2 none none rfl).1⟩

/-! ## What the close calls return is ignored -/

theorem forgetClose_emit (s : State U) (g : Gor) (a : Action U) :
    (emit s g a).forgetClose = emit s.forgetClose g a.forgetClose := by
  simp [emit, State.forgetClose, Event.forgetClose]

theorem forgetClose_stepWatch (r : Option GoError) (s : State U) :
    (stepWatch r s).forgetClose = stepWatch r s.forgetClose := by
  rcases s with ⟨wa, u, ct, k, wg, can, cl, p, t⟩
  cases wa
  · cases r <;> simp [stepWatch, emit, State.forgetClose, Event.forgetClose, Action.forgetClose]
  · cases cl
    · cases ct <;>
        simp [stepWatch, sendOn, emit, State.forgetClose, Event.forgetClose, Action.forgetClose]
    · rfl
  · simp [stepWatch, emit, State.forgetClose, Event.forgetClose, Action.forgetClose]
  · rfl

theorem forgetClose_stepUp (r : RecvResult U) (w : Option GoError) (s : State U) :
    (stepUp r w s).forgetClose = stepUp r w s.forgetClose := by
  rcases s with ⟨wa, u, ct, k, wg, can, cl, p, t⟩
  cases u
  · cases r <;> simp [stepUp, emit, State.forgetClose, Event.forgetClose, Action.forgetClose]
  · simp only [stepUp, State.forgetClose]
    split <;> simp [emit, Event.forgetClose, Action.forgetClose]
  · cases cl
    · cases ct <;>
        simp [stepUp, sendOn, emit, State.forgetClose, Event.forgetClose, Action.forgetClose]
    · rfl
  · cases cl
    · cases ct <;>
        simp [stepUp, sendOn, emit, State.forgetClose, Event.forgetClose, Action.forgetClose]
    · rfl
  · cases w <;>
      simp [stepUp, writeJSONWithChannel, emit, State.forgetClose, Event.forgetClose,
        Action.forgetClose]
  · cases cl
    · cases ct <;>
        simp [stepUp, sendOn, emit, State.forgetClose, Event.forgetClose, Action.forgetClose]
    · rfl
  · simp [stepUp, emit, State.forgetClose, Event.forgetClose, Action.forgetClose]
  · rfl

theorem forgetClose_stepCtl (x : Option GoError) (s : State U) :
    (stepCtl x s).forgetClose = stepCtl none s.forgetClose := by
  rcases s with ⟨wa, u, ct, k, wg, can, cl, p, t⟩
  cases ct
  · cases cl <;> rfl
  · rename_i sig
    cases sig
    · rfl
    · simp [stepCtl, emit, State.forgetClose, Event.forgetClose, Action.forgetClose]
  · simp [stepCtl, emit, State.forgetClose, Event.forgetClose, Action.forgetClose]
  · simp [stepCtl, emit, State.forgetClose, Event.forgetClose, Action.forgetClose]
  · simp [stepCtl, emit, State.forgetClose, Event.forgetClose, Action.forgetClose]
  · simp [stepCtl, emit, State.forgetClose, Event.forgetClose, Action.forgetClose]
  · rfl

theorem forgetClose_stepCloser (s : State U) :
    (stepCloser s).forgetClose = stepCloser s.forgetClose := by
  rcases s with ⟨wa, u, ct, k, wg, can, cl, p, t⟩
  cases k
  · simp only [stepCloser, State.forgetClose]
    split <;> rfl
  · simp [stepCloser, emit, State.forgetClose, Event.forgetClose, Action.forgetClose]
  · rfl

theorem forgetClose_step (s : State U) (c : Choice U) :
    (step s c).forgetClose = step s.forgetClose c.forgetClose := by
  have hp : s.forgetClose.panicked = s.panicked := rfl
  unfold step
  rw [hp]
  split
  · rfl
  · cases c with
    | watch r => exact forgetClose_stepWatch r s
    | upstream r w => exact forgetClose_stepUp r w s
    | controller x => exact forgetClose_stepCtl x s
    | closer => exact forgetClose_stepCloser s

theorem forgetClose_runFrom (cs : List (Choice U)) (s : State U) :
    (runFrom s cs).forgetClose = runFrom s.forgetClose (cs.map Choice.forgetClose) := by
  induction cs generalizing s with
  | nil => rfl
  | cons c cs ih =>
    have h1 : runFrom s (c :: cs) = runFrom (step s c) cs := rfl
    have h2 : runFrom s.forgetClose ((c :: cs).map Choice.forgetClose) =
        runFrom (step s.forgetClose c.forgetClose) (cs.map Choice.forgetClose) := rfl
    rw [h1, h2, ih, forgetClose_step]

theorem reported_forgetClose (t : List (Event U)) :
    reported (t.map Event.forgetClose) = reported t := by
  induction t with
  | nil => rfl
  | cons ev t ih =>
    rcases ev with ⟨g, a⟩
    cases a <;> simp_all [reported, Event.forgetClose, Action.forgetClose, List.filterMap_cons]

theorem received_forgetClose (t : List (Event U)) :
    received (t.map Event.forgetClose) = received t := by
  induction t with
  | nil => rfl
  | cons ev t ih =>
    rcases ev with ⟨g, a⟩
    cases a <;> simp_all [received, Event.forgetClose, Action.forgetClose, List.filterMap_cons]

/-- C12: (1) a session in which the close calls return errors is, goroutine by
goroutine and event by event, the session in which they all succeed: the
program counters, the context, the wait group and the channel are the same,
and the traces differ only in the recorded results of the close calls; in
particular the same errors are reported and the same values are received from
`errorchan`; (2) from line 124, whatever `stream.CloseSend()` and
`safeRW.Close()` return, the next three steps of the controller are
`CloseSend`, `Close` and `cancel()`, with no report and no send in between. -/
theorem close_errors_ignored (cs : List (Choice U)) :
    (run (cs.map Choice.forgetClose) = (run cs).forgetClose ∧
      reported (run (cs.map Choice.forgetClose)).trace = reported (run cs).trace ∧
      received (run (cs.map Choice.forgetClose)).trace = received (run cs).trace) ∧
    (∀ x y z, (run cs).ctl = .closeSend →
      (runFrom (run cs) [.controller x, .controller y, .controller z]).ctl = .range ∧
      (runFrom (run cs) [.controller x, .controller y, .controller z]).trace =
        (run cs).trace ++
          [⟨.controller, .closeSend x⟩, ⟨.controller, .wsClose y⟩, ⟨.controller, .cancel⟩]) := by
  have h1 : run (cs.map Choice.forgetClose) = (run cs).forgetClose :=
    (forgetClose_runFrom cs init).symm
  refine ⟨⟨h1, ?_, ?_⟩, ?_⟩
  · rw [h1]
    exact reported_forgetClose _
  · rw [h1]
    exact received_forgetClose _
  · intro x y z hc
    have hp := (inv_run cs).sound.no_panic
    generalize run cs = s at hc hp
    rcases s with ⟨wa, u, ct, k, wg, can, cl, p, t⟩
    simp only at hc hp
    subst hc hp
    simp [runFrom, step, stepCtl, emit]

/-- Witness for C12: the sample session `cleanRun`, with both close calls of
the first turn failing, reports nothing more; and the turn runs to its end. -/
theorem close_errors_ignored_witness :
    (runFrom (run (cleanRun.take 8))
        [.controller (some (.other 3)), .controller (some (.other 4)), .controller none]).ctl =
      .range :=
  ((close_errors_ignored (cleanRun.take 8)).2 (some (.other 3)) (some (.other 4)) none rfl).1

/-! ## The session can always be wound up -/

theorem rank_step_lt (s : State U) (hs : Sound s) (hc : s.ctl ≠ .done) :
    (step s (nextChoice s)).rank < s.rank := by
  have ho := hs.open_of_running
  obtain ⟨h1, h2, h3, h4, h5⟩ := hs
  rcases s with ⟨wa, u, ct, k, wg, can, cl, p, t⟩
  simp only at h1 h2 h3 h4 h5 hc ho
  subst h5
  cases ct with
  | done => exact absurd rfl hc
  | handle sig =>
    cases sig <;> simp [nextChoice, step, stepCtl, emit, State.rank, CtlPc.rank]
  | closeSend => simp [nextChoice, step, stepCtl, emit, State.rank, CtlPc.rank]
  | wsClose => simp [nextChoice, step, stepCtl, emit, State.rank, CtlPc.rank]
  | cancel => simp [nextChoice, step, stepCtl, emit, State.rank, CtlPc.rank]
  | deferred => simp [nextChoice, step, stepCtl, emit, State.rank, CtlPc.rank]
  | range =>
    cases u with
    | done =>
      cases wa with
      | done =>
        cases k with
        | wait =>
          have hwg : wg = 0 := by simpa [WatchPc.running, UpPc.running] using h1
          subst hwg
          simp [nextChoice, step, stepCloser, State.rank, CloserPc.rank, WatchPc.running,
            UpPc.running]
        | close =>
          simp [nextChoice, step, stepCloser, emit, State.rank, CloserPc.rank, WatchPc.running,
            UpPc.running]
        | done =>
          have hcl : cl = true := h3.mpr rfl
          subst hcl
          simp [nextChoice, step, stepCtl, State.rank, CtlPc.rank, WatchPc.running,
            UpPc.running]
      | read =>
        simp [nextChoice, step, stepWatch, emit, State.rank, WatchPc.rank, WatchPc.running,
          UpPc.running]
      | send =>
        obtain rfl := ho (Or.inl rfl)
        simp [nextChoice, step, stepWatch, sendOn, emit, State.rank, WatchPc.rank, CtlPc.rank,
          WatchPc.running, UpPc.running]
        omega
      | exit =>
        simp [nextChoice, step, stepWatch, emit, State.rank, WatchPc.rank, WatchPc.running,
          UpPc.running]
    | recv =>
      simp [nextChoice, step, stepUp, emit, State.rank, UpPc.rank, UpPc.running]
    | check e =>
      by_cases hcond : e = GoError.EOF ∨ can = true
      · simp [nextChoice, step, stepUp, hcond, emit, State.rank, UpPc.rank, UpPc.running]
      · simp [nextChoice, step, stepUp, hcond, emit, State.rank, UpPc.rank, UpPc.running]
    | sendNil =>
      obtain rfl := ho (Or.inr rfl)
      simp [nextChoice, step, stepUp, sendOn, emit, State.rank, UpPc.rank, CtlPc.rank,
        UpPc.running]
      omega
    | sendErr e =>
      obtain rfl := ho (Or.inr rfl)
      simp [nextChoice, step, stepUp, sendOn, emit, State.rank, UpPc.rank, CtlPc.rank,
        UpPc.running]
      omega
    | write u' =>
      simp [nextChoice, step, stepUp, writeJSONWithChannel, emit, State.rank, UpPc.rank,
        UpPc.running]
    | forward e =>
      obtain rfl := ho (Or.inr rfl)
      simp [nextChoice, step, stepUp, sendOn, emit, State.rank, UpPc.rank, CtlPc.rank,
        UpPc.running]
      omega
    | exit =>
      simp [nextChoice, step, stepUp, emit, State.rank, UpPc.rank, UpPc.running]

theorem step_of_returned (s : State U) (hc : s.ctl = .done) : step s (nextChoice s) = s := by
  rcases s with ⟨wa, u, ct, k, wg, can, cl, p, t⟩
  simp only at hc
  subst hc
  cases p <;> rfl

theorem finish_returns (n : Nat) (s : State U) (hs : Sound s) (hr : s.rank ≤ n) :
    (runFrom s (finish n s)).ctl = .done := by
  induction n generalizing s with
  | zero =>
    have h0 : s.rank = 0 := Nat.le_zero.mp hr
    rcases s with ⟨wa, u, ct, k, wg, can, cl, p, t⟩
    cases ct <;> simp [State.rank, CtlPc.rank] at h0
    rfl
  | succ n ih =>
    have h1 : runFrom s (finish (n + 1) s) =
        runFrom (step s (nextChoice s)) (finish n (step s (nextChoice s))) := rfl
    rw [h1]
    apply ih _ (sound_step s _ hs)
    by_cases hc : s.ctl = .done
    · rw [step_of_returned s hc]
      have hlt : s.rank ≤ n + 1 := hr
      rcases s with ⟨wa, u, ct, k, wg, can, cl, p, t⟩
      simp only at hc
      subst hc
      have hst := hs.stopped_of_returned rfl
      have hk := hs.closed_iff.mp (hs.ctl_closed rfl)
      simp only at hst hk
      subst hk
      cases wa <;> cases u <;> simp [WatchPc.running, UpPc.running] at hst
      simp [State.rank, WatchPc.rank, UpPc.rank, CtlPc.rank, CloserPc.rank]
    · have := rank_step_lt s hs hc
      omega

theorem rank_le (s : State U) : s.rank ≤ 48 := by
  rcases s with ⟨wa, u, ct, k, wg, can, cl, p, t⟩
  cases wa <;> cases u <;> cases ct <;> cases k <;>
    simp [State.rank, WatchPc.rank, UpPc.rank, CtlPc.rank, CloserPc.rank]

/-- From every reachable state forty-eight winding-up steps bring `ServeHTTP`
to its return. -/
theorem finish_run (cs : List (Choice U)) :
    (run (cs ++ finish 48 (run cs))).ctl = .done := by
  have h : run (cs ++ finish 48 (run cs)) = runFrom (run cs) (finish 48 (run cs)) :=
    runFrom_append init cs _
  rw [h]
  exact finish_returns 48 _ (inv_run cs).sound (rank_le _)

/-! ## A stream that ends at once -/

theorem UpTail.ending_of_fail {pc : UpPc U} {tail : List (Action U)} (h : UpTail pc tail)
    (items : List (U × Option GoError)) (l : List U) (e : GoError)
    (hr : recvResults (items.flatMap fwdActs ++ tail) = l.map RecvResult.update ++ [.fail e]) :
    pc.ending = true := by
  have hm : (items.map fun p => RecvResult.update p.1) =
      (items.map Prod.fst).map RecvResult.update := by simp
  rw [recvResults_append, recvResults_turns, hm] at hr
  cases h with
  | recv =>
    simp only [recvResults, List.filterMap_nil, List.append_nil] at hr
    exact absurd hr (map_update_snoc_ne _ _ _)
  | write u => exact absurd (map_update_snoc_inj hr).2 (by simp)
  | forward u e' => exact absurd (map_update_snoc_inj hr).2 (by simp)
  | check e' => rfl
  | sendNil e' c hc => rfl
  | sendErr e' he => rfl
  | exit e' c => rfl
  | done e' c => rfl

theorem ending_stepUp (r : RecvResult U) (w : Option GoError) (s : State U)
    (h : s.up.ending = true) :
    (stepUp r w s).up.ending = true ∧
      recvResults (viewOf .upstream (stepUp r w s).trace) =
        recvResults (viewOf .upstream s.trace) := by
  rcases s with ⟨wa, u, ct, k, wg, can, cl, p, t⟩
  cases u with
  | recv => exact Bool.noConfusion h
  | write u' => exact Bool.noConfusion h
  | forward e => exact Bool.noConfusion h
  | check e =>
    simp only [stepUp]
    split <;> simp [emit, UpPc.ending, viewOf_snoc_self, recvResults_append, recvResults]
  | sendNil =>
    cases cl
    · cases ct <;>
        simp [stepUp, sendOn, emit, UpPc.ending, viewOf_snoc_self, recvResults_append, recvResults]
    · exact ⟨rfl, rfl⟩
  | sendErr e =>
    cases cl
    · cases ct <;>
        simp [stepUp, sendOn, emit, UpPc.ending, viewOf_snoc_self, recvResults_append, recvResults]
    · exact ⟨rfl, rfl⟩
  | exit => simp [stepUp, emit, UpPc.ending, viewOf_snoc_self, recvResults_append, recvResults]
  | done => exact ⟨rfl, rfl⟩

theorem ending_step (s : State U) (c : Choice U) (h : s.up.ending = true) :
    (step s c).up.ending = true ∧
      recvResults (viewOf .upstream (step s c).trace) =
        recvResults (viewOf .upstream s.trace) := by
  unfold step
  split
  · exact ⟨h, rfl⟩
  · cases c with
    | watch r =>
      exact ⟨by rw [stepWatch_up]; exact h,
        by rw [(stepWatch_extends r s).viewOf_other (by decide)]⟩
    | upstream r w => exact ending_stepUp r w s h
    | controller e =>
      exact ⟨by rw [stepCtl_up]; exact h,
        by rw [(stepCtl_extends e s).viewOf_other (by decide)]⟩
    | closer =>
      exact ⟨by rw [stepCloser_up]; exact h,
        by rw [(stepCloser_extends s).viewOf_other (by decide)]⟩

theorem ending_runFrom (cs : List (Choice U)) (s : State U) (h : s.up.ending = true) :
    recvResults (viewOf .upstream (runFrom s cs).trace) =
      recvResults (viewOf .upstream s.trace) := by
  induction cs generalizing s with
  | nil => rfl
  | cons c cs ih =>
    have h1 : runFrom s (c :: cs) = runFrom (step s c) cs := rfl
    rw [h1, ih _ (ending_step s c h).1, (ending_step s c h).2]

theorem run_append (cs ds : List (Choice U)) : run (cs ++ ds) = runFrom (run cs) ds :=
  runFrom_append init cs ds

/-- A session that is over and in which the one result of `Recv` was
end-of-stream. -/
theorem eof_session_over (s : State U) (hinv : Inv s) (hc : s.ctl = .done)
    (h : recvResults (viewOf .upstream s.trace) = [.fail .EOF]) :
    reported s.trace = [] ∧ writeCalls (viewOf .upstream s.trace) = [] ∧
      CtlAct.closeSend ∈ ctlView s.trace ∧ CtlAct.wsClose ∈ ctlView s.trace := by
  obtain ⟨items, e, c, hv⟩ := upstream_of_returned s hinv hc
  have hm : (items.map fun p => RecvResult.update p.1) =
      (items.map Prod.fst).map RecvResult.update := by simp
  have h0 : ([] : List U).map RecvResult.update ++ [RecvResult.fail GoError.EOF] =
      [.fail .EOF] := rfl
  rw [hv, recvResults_append, recvResults_turns, recvResults_lastTurn, hm, ← h0] at h
  obtain ⟨hitems, he⟩ := map_update_snoc_inj h
  simp only [RecvResult.fail.injEq] at he
  subst he
  have hnil : items = [] := List.map_eq_nil_iff.mp hitems
  subst hnil
  have hrep : reported s.trace = [] := by
    have h1 := reported_eq s hinv.ctlShape
    rw [hc, received_errs_eq _ hinv.wellActed, hv] at h1
    have h2 : sentErrs (([] : List (U × Option GoError)).flatMap fwdActs ++
        (lastTurn GoError.EOF c : List (Action U))) = [] := by
      simp [lastTurn, endSend, sentErrs]
    rw [h2] at h1
    exact (List.append_eq_nil.mp h1).1
  refine ⟨hrep, ?_, ?_⟩
  · rw [hv]
    simp [writeCalls, lastTurn, endSend]
  · apply closes_mem_of_received s hinv.ctlShape hc
    intro hr
    have := two_received_of_returned s hinv hc
    rw [hr] at this
    simp at this

/-- C11: let `stream.Recv()` have returned end-of-stream on its first call, so
that this is all it has returned.  Then (1) however the session goes on, when
`ServeHTTP` has returned `HandleAPIErrorNoWrite` has not been called, nothing
has been passed to the client writer, and `stream.CloseSend()` and
`safeRW.Close()` have been called; (2) the session does terminate: the
winding-up schedule, in which the client's read fails, brings `ServeHTTP` to
its return. -/
theorem eof_at_once_session (cs : List (Choice U))
    (h : recvResults (viewOf .upstream (run cs).trace) = [.fail .EOF]) :
    (∀ ds, (run (cs ++ ds)).ctl = .done →
      reported (run (cs ++ ds)).trace = [] ∧
      writeCalls (viewOf .upstream (run (cs ++ ds)).trace) = [] ∧
      CtlAct.closeSend ∈ ctlView (run (cs ++ ds)).trace ∧
      CtlAct.wsClose ∈ ctlView (run (cs ++ ds)).trace) ∧
    (run (cs ++ finish 48 (run cs))).ctl = .done := by
  refine ⟨?_, finish_run cs⟩
  intro ds hc
  apply eof_session_over _ (inv_run _) hc
  obtain ⟨items, tail, hv, ht⟩ := (inv_run cs).upShape
  have hend : (run cs).up.ending = true := by
    apply ht.ending_of_fail items [] .EOF
    rw [← hv]
    exact h
  rw [run_append, ending_runFrom ds _ hend]
  exact h

/-- Witness for C11: the sample session `eofRun`, cut after its first step and
continued to its end. -/
theorem eof_at_once_session_witness :
    (reported (run ([pumpRecv (.fail .EOF)] ++ eofRun.drop 1)).trace = [] ∧
      writeCalls (viewOf .upstream (run ([pumpRecv (.fail .EOF)] ++ eofRun.drop 1)).trace) = [] ∧
      CtlAct.closeSend ∈ ctlView (run ([pumpRecv (.fail .EOF)] ++ eofRun.drop 1)).trace ∧
      CtlAct.wsClose ∈ ctlView (run ([pumpRecv (.fail .EOF)] ++ eofRun.drop 1)).trace) ∧
    (run ([pumpRecv (.fail .EOF)] ++ finish 48 (run [pumpRecv (.fail .EOF)]))).ctl = .done :=
  ⟨(eof_at_once_session [pumpRecv (.fail .EOF)] rfl).1 (eofRun.drop 1) rfl,
   (eof_at_once_session [pumpRecv (.fail .EOF)] rfl).2⟩

/-! ## `ServeHTTP` returns after both pumps -/

/-- C14: in every interleaving, (1) when the controller has left the range
loop (the deferred `cancel()` is pending, or `ServeHTTP` has returned) the
channel is closed and both pumps have returned, their `wg.Done()` being in the
trace; (2) at line 117 with the channel open the controller does not move on
its own: it goes on receiving; (3) while a pump is waiting in a send on
`errorchan` the channel is open, the controller is in the loop, and after at
most four of its steps it is receiving at line 117. -/
theorem returns_after_both_pumps (cs : List (Choice U)) :
    ((run cs).ctl = .deferred ∨ (run cs).ctl = .done →
      (run cs).chanClosed = true ∧ (run cs).watch = .done ∧ (run cs).up = .done ∧
      (⟨.watch, .wgDone⟩ : Event U) ∈ (run cs).trace ∧
      (⟨.upstream, .wgDone⟩ : Event U) ∈ (run cs).trace) ∧
    (∀ x, (run cs).ctl = .range → (run cs).chanClosed = false →
      step (run cs) (.controller x) = run cs) ∧
    ((run cs).watch = .send ∨ (run cs).up = .sendNil ∨ (∃ e, (run cs).up = .sendErr e) ∨
        (∃ e, (run cs).up = .forward e) →
      ∀ x, (run cs).chanClosed = false ∧ (run cs).ctl.inLoop = true ∧
        (runFrom (run cs) (List.replicate 4 (.controller x))).ctl = .range) := by
  have hinv := inv_run cs
  have hs := hinv.sound
  refine ⟨?_, ?_, ?_⟩
  · intro hc
    have hloop : (run cs).ctl.inLoop = false := by
      rcases hc with hc | hc <;> rw [hc] <;> rfl
    have hcl := hs.ctl_closed hloop
    have hst := hs.stopped_of_closed hcl
    have hwg := wgDone_mem_of_stopped _ hinv
    refine ⟨hcl, ?_, ?_, hwg.1 hst.1, hwg.2 hst.2⟩
    · cases hw : (run cs).watch <;> rw [hw] at hst <;> simp [WatchPc.running] at hst
    · cases hu : (run cs).up <;> rw [hu] at hst <;> simp [UpPc.running] at hst
  · intro x hc ho
    have hp := hs.no_panic
    generalize run cs = s at hc ho hp
    rcases s with ⟨wa, u, ct, k, wg, can, cl, p, t⟩
    simp only at hc ho hp
    subst hc ho hp
    rfl
  · intro hw x
    have ho : (run cs).chanClosed = false := by
      apply hs.open_of_running
      rcases hw with hw | hw | ⟨e, hw⟩ | ⟨e, hw⟩
      · exact Or.inl (by rw [hw]; rfl)
      · exact Or.inr (by rw [hw]; rfl)
      · exact Or.inr (by rw [hw]; rfl)
      · exact Or.inr (by rw [hw]; rfl)
    refine ⟨ho, ?_, ?_⟩
    · cases hl : (run cs).ctl.inLoop
      · have := hs.ctl_closed hl
        rw [ho] at this
        exact Bool.noConfusion this
      · rfl
    · obtain ⟨as, can, hset, _⟩ := ctl_settles _ x hs ho
      rw [hset]

/-- Witness for C14, in the sample session `cleanRun`: at its end, and at the
moment the upstream pump waits in its send. -/
theorem returns_after_both_pumps_witness :
    ((run cleanRun).chanClosed = true ∧ (run cleanRun).watch = .done ∧
      (run cleanRun).up = .done ∧
      (⟨.watch, .wgDone⟩ : Event Nat) ∈ (run cleanRun).trace ∧
      (⟨.upstream, .wgDone⟩ : Event Nat) ∈ (run cleanRun).trace) ∧
    ((run (cleanRun.take 6)).chanClosed = false ∧ (run (cleanRun.take 6)).ctl.inLoop = true ∧
      (runFrom (run (cleanRun.take 6)) (List.replicate 4 (.controller none))).ctl = .range) :=
  ⟨(returns_after_both_pumps cleanRun).1 (Or.inr rfl),
   (returns_after_both_pumps (cleanRun.take 6)).2.2 (Or.inr (Or.inl rfl)) none⟩

/-! ## Who receives and who closes -/

theorem closes_append (t t' : List (Event U)) : closes (t ++ t') = closes t ++ closes t' := by
  simp [closes, List.filterMap_append]

theorem closes_map_of_ne (g : Gor) (as : List (Action U))
    (h : ∀ a ∈ as, a ≠ Action.closeChan) : closes (as.map (Event.mk g)) = [] := by
  induction as with
  | nil => rfl
  | cons a as ih =>
    have ih' := ih fun b hb => h b (List.mem_cons_of_mem _ hb)
    have ha := h a (List.mem_cons_self _ _)
    cases a with
    | closeChan => exact absurd rfl ha
    | _ => exact ih'

theorem closesOk_extend (s s' : State U) (g : Gor) (as : List (Action U))
    (ht : s'.trace = s.trace ++ as.map (Event.mk g))
    (hc : s'.chanClosed = s.chanClosed)
    (hno : ∀ a ∈ as, a ≠ Action.closeChan) (h : ClosesOk s) : ClosesOk s' := by
  unfold ClosesOk at h ⊢
  rw [ht, hc, closes_append, closes_map_of_ne g as hno, List.append_nil]
  exact h

theorem closesOk_step (s : State U) (c : Choice U) (hs : Sound s) (h : ClosesOk s) :
    ClosesOk (step s c) := by
  unfold step
  split
  · exact h
  · cases c with
    | watch r =>
      obtain ⟨as, ht, hp⟩ := stepWatch_extends r s
      exact closesOk_extend s _ .watch as ht (stepWatch_chanClosed r s)
        (mayPerform_ne_close (by decide) hp) h
    | upstream r w =>
      obtain ⟨as, ht, hp⟩ := stepUp_extends r w s
      exact closesOk_extend s _ .upstream as ht (stepUp_chanClosed r w s)
        (mayPerform_ne_close (by decide) hp) h
    | controller e =>
      obtain ⟨as, ht, hp⟩ := stepCtl_extends e s
      exact closesOk_extend s _ .controller as ht (stepCtl_chanClosed e s)
        (mayPerform_ne_close (by decide) hp) h
    | closer =>
      have h3 := hs.closed_iff
      rcases s with ⟨wa, u, ct, k, wg, can, cl, p, t⟩
      cases k with
      | wait =>
        simp only [stepCloser]
        split
        · exact h
        · exact h
      | done => exact h
      | close =>
        have hcl : cl = false := by
          cases hc : cl with
          | false => rfl
          | true =>
            have := h3.mp hc
            cases this
        subst hcl
        unfold ClosesOk at h ⊢
        simp only [stepCloser, emit, closes_append, if_true]
        simp only [Bool.false_eq_true, if_false] at h
        rw [h]
        rfl

theorem closesOk_run (cs : List (Choice U)) : ClosesOk (run cs) := by
  have key : ∀ (ds : List (Choice U)) (s : State U), Sound s → ClosesOk s →
      ClosesOk (runFrom s ds) := by
    intro ds
    induction ds with
    | nil => exact fun _ _ h => h
    | cons c ds ih =>
      exact fun s hs h => ih (step s c) (sound_step s c hs) (closesOk_step s c hs h)
  exact key cs init sound_init rfl

/-- What the two pumps have sent is what has been received. -/
theorem received_length_eq (t : List (Event U))
    (h : ∀ ev ∈ t, mayPerform ev.actor ev.act = true) :
    (received t).length =
      (sends (viewOf .watch t)).length + (sends (viewOf .upstream t)).length := by
  induction t with
  | nil => rfl
  | cons ev t ih =>
    have ih' := ih fun ev' hev' => h ev' (List.mem_cons_of_mem _ hev')
    have hp := h ev (List.mem_cons_self _ _)
    rcases ev with ⟨g, a⟩
    cases a with
    | send site sig =>
      have h1 : received (⟨g, .send site sig⟩ :: t) = (site, sig) :: received t := rfl
      rw [h1, List.length_cons]
      cases g
      · have h2 : sends (viewOf .watch (⟨.watch, .send site sig⟩ :: t)) =
            (site, sig) :: sends (viewOf .watch t) := rfl
        have h3 : viewOf .upstream (⟨.watch, .send site sig⟩ :: t) = viewOf .upstream t := rfl
        rw [h2, h3, List.length_cons]
        omega
      · have h2 : sends (viewOf .upstream (⟨.upstream, .send site sig⟩ :: t)) =
            (site, sig) :: sends (viewOf .upstream t) := rfl
        have h3 : viewOf .watch (⟨.upstream, .send site sig⟩ :: t) = viewOf .watch t := rfl
        rw [h2, h3, List.length_cons]
        omega
      · exact Bool.noConfusion hp
      · exact Bool.noConfusion hp
    | _ => cases g <;> exact ih'

/-- C15, as amended: in every interleaving, (1) the controller has received
from `errorchan` once for every value the two pumps have sent; (2)
`errorchan` has been closed by the closer goroutine of lines 77-80, once, when
it is closed, and by nobody when it is open: never by the controller; (3)
when `ServeHTTP` has returned the controller has received at least twice and
the closer has closed the channel. -/
theorem receives_and_close (cs : List (Choice U)) :
    (received (run cs).trace).length =
      (sends (viewOf .watch (run cs).trace)).length +
        (sends (viewOf .upstream (run cs).trace)).length ∧
    closes (run cs).trace = (if (run cs).chanClosed then [.closer] else []) ∧
    ((run cs).ctl = .done →
      2 ≤ (received (run cs).trace).length ∧ closes (run cs).trace = [.closer]) := by
  have hinv := inv_run cs
  have hcl := closesOk_run cs
  refine ⟨received_length_eq _ hinv.wellActed, hcl, ?_⟩
  intro hc
  refine ⟨two_received_of_returned _ hinv hc, ?_⟩
  unfold ClosesOk at hcl
  rw [hcl, hinv.sound.ctl_closed (by rw [hc]; rfl)]
  rfl

/-- Counterexample to C15: in the sample session `cleanRun`, a session that is
over, the controller has received two values from `errorchan`, and the channel
has been closed by the closer goroutine, not by the controller. -/
theorem controller_receives_twice_closer_closes :
    (run cleanRun).ctl = .done ∧ (received (run cleanRun).trace).length = 2 ∧
      closes (run cleanRun).trace = [.closer] ∧
      Action.closeChan ∉ viewOf .controller (run cleanRun).trace :=
  ⟨rfl, rfl, rfl, by decide⟩

/-- Witness for C15 as amended, in the sample session `failedSendRun`. -/
theorem receives_and_close_witness :
    2 ≤ (received (run failedSendRun).trace).length ∧
      closes (run failedSendRun).trace = [.closer] :=
  (receives_and_close failedSendRun).2.2 rfl

/-! ## When the client goes away -/

theorem ctlView_append (t t' : List (Event U)) :
    ctlView (t ++ t') = ctlView t ++ ctlView t' := by
  simp [ctlView, List.filterMap_append]

theorem received_not_mem_rest (sig : Option GoError) (site : Site) (sig' : Option GoError) :
    CtlAct.received site sig' ∉ reportOf sig ++ teardown := by
  cases sig <;> simp [reportOf, teardown]

theorem teardownFollows_turns (rs : List (Site × Option GoError)) (ep : List CtlAct)
    (h : ∀ site sig, CtlAct.received site sig ∉ ep) :
    TeardownFollows (rs.flatMap iteration ++ ep) := by
  induction rs with
  | nil =>
    intro pre site sig post hs
    exact absurd (by rw [List.flatMap_nil, List.nil_append] at hs; rw [hs]; simp) (h site sig)
  | cons p rs ih =>
    intro pre site sig post hs
    rw [List.flatMap_cons, List.append_assoc] at hs
    rcases p with ⟨site0, sig0⟩
    cases pre with
    | nil =>
      simp only [iteration, List.cons_append, List.nil_append, List.cons.injEq,
        CtlAct.received.injEq] at hs
      obtain ⟨⟨_, rfl⟩, rfl⟩ := hs
      exact ⟨_, rfl⟩
    | cons x pre' =>
      have hs' : CtlAct.received site0 sig0 ::
          ((reportOf sig0 ++ teardown) ++ (rs.flatMap iteration ++ ep)) =
          x :: (pre' ++ .received site sig :: post) := hs
      have hs2 := (List.cons.inj hs').2
      obtain ⟨t', h1, _⟩ := append_split_of_not_mem hs2 (received_not_mem_rest sig0 site sig)
      exact ih t' site sig post h1

/-- C16, as amended: in every interleaving, (1) the receipt of the value the
client-watch pump publishes when it has detected the closure is followed, in
the controller, by `stream.CloseSend()`, `safeRW.Close()` and `cancel()` (what
of them is not yet done is what remains of the controller's current turn);
(2) the cancellation does come: from any reachable state in which the pump
waits in its send, the controller finishing its turn, the pump sending and
the controller running its next turn leaves the context cancelled; (3) the
detection does not stop the upstream pump: whatever the client-watch pump and
the controller have done, an update that `Recv` returns is passed to
`WriteJSONWithChannel`. -/
theorem client_closure_handling (cs : List (Choice U)) :
    (∀ pre post, ctlView (run cs).trace = pre ++ .received .clientClosed none :: post →
      [.closeSend, .wsClose, .cancel] <+: post ++ (run cs).ctl.remaining) ∧
    (∀ r x, (run cs).watch = .send →
      (runFrom (run cs) (List.replicate 4 (.controller x) ++ [.watch r] ++
          List.replicate 4 (.controller x))).cancelled = true ∧
      ctlView (runFrom (run cs) (List.replicate 4 (.controller x) ++ [.watch r] ++
          List.replicate 4 (.controller x))).trace =
        ctlView (run cs).trace ++ (run cs).ctl.remaining ++
          [.received .clientClosed none, .closeSend, .wsClose, .cancel]) ∧
    (∀ u w r, (run cs).up = .recv →
      viewOf .upstream (runFrom (run cs) [.upstream (.update u) w, .upstream r w]).trace =
        viewOf .upstream (run cs).trace ++ [.recv (.update u), .writeJSON u w]) := by
  have hinv := inv_run cs
  refine ⟨?_, ?_, ?_⟩
  · intro pre post hs
    have hshape := hinv.ctlShape
    unfold CtlShape at hshape
    have hT := teardownFollows_turns (received (run cs).trace) (run cs).ctl.epilogue
      (by intro site sig; cases (run cs).ctl <;> simp [CtlPc.epilogue])
    rw [← hshape, hs] at hT
    have := hT pre .clientClosed none (post ++ (run cs).ctl.remaining) (by simp)
    simpa [reportOf, teardown] using this
  · intro r x hpc
    have hs := hinv.sound
    generalize run cs = s at hpc hs
    have ho : s.chanClosed = false := hs.open_of_running (Or.inl (by rw [hpc]; rfl))
    obtain ⟨as, can, hset, hview⟩ := ctl_settles s x hs ho
    rw [runFrom_append, runFrom_append, hset]
    rcases s with ⟨wa, u, ct, k, wg, can0, cl, p, t⟩
    simp only at hpc ho hview
    subst hpc ho
    have hp : p = false := hs.no_panic
    subst hp
    simp only [runFrom, step, stepWatch, stepCtl, sendOn, emit, List.replicate, List.foldl,
      Bool.false_eq_true, if_false, List.append_assoc, List.singleton_append, List.cons_append,
      List.nil_append]
    refine ⟨trivial, ?_⟩
    rw [ctlView_append, ctlView_append, hview]
    rfl
  · intro u w r hpc
    have hp := hinv.sound.no_panic
    generalize run cs = s at hpc hp
    rcases s with ⟨wa, up, ct, k, wg, can0, cl, p, t⟩
    simp only at hpc hp
    subst hpc hp
    cases w <;>
      simp [runFrom, step, stepUp, writeJSONWithChannel, emit, viewOf_append, viewOf_cons,
        viewOf_nil]

/-- Counterexample to C16: in the sample session `lateUpdateRun` the
client-watch pump detects the closure first; after that `Recv` returns the
update 3, which is passed to the client writer, the write succeeding; only
then is the context cancelled. -/
theorem update_after_closure_written :
    (run lateUpdateRun).trace.take 8 =
      [⟨.watch, .readMessage (some (.other 1))⟩, ⟨.upstream, .recv (.update 3)⟩,
       ⟨.upstream, .writeJSON 3 none⟩, ⟨.watch, .send .clientClosed none⟩,
       ⟨.controller, .closeSend none⟩, ⟨.controller, .wsClose none⟩, ⟨.controller, .cancel⟩,
       ⟨.upstream, .recv (.fail (.other 9))⟩] ∧
    (run lateUpdateRun).ctl = .done :=
  ⟨rfl, rfl⟩

/-- Witness for C16 as amended, in the sample session `lateUpdateRun`. -/
theorem client_closure_handling_witness :
    ([CtlAct.closeSend, .wsClose, .cancel] <+:
      [CtlAct.closeSend, .wsClose, .cancel, .received .upstreamEnd none, .closeSend, .wsClose,
        .cancel, .cancel] ++ (run lateUpdateRun).ctl.remaining) ∧
    (runFrom (run (lateUpdateRun.take 1)) (List.replicate 4 (.controller none) ++ [watchStep] ++
      List.replicate 4 (.controller none))).cancelled = true :=
  ⟨(client_closure_handling lateUpdateRun).1 [] _ rfl,
   ((client_closure_handling (lateUpdateRun.take 1)).2.1 none none rfl).1⟩

end Porter.StreamState

namespace Porter.Credentials

/-! ## The credentials exchange handler -/

/-- The decimal value of a string of digits, read after the value `n`. -/
theorem parseUintLoop_ok (cs : List Char) (n m : Nat) (h : parseUintLoop cs n = .ok m) :
    (∀ c ∈ cs, '0' ≤ c ∧ c ≤ '9') ∧
      m = cs.foldl (fun a c => a * 10 + (c.toNat - '0'.toNat)) n ∧ (cs ≠ [] → m ≤ maxVal) := by
  induction cs generalizing n with
  | nil =>
    simp only [parseUintLoop, Except.ok.injEq] at h
    exact ⟨by simp, h.symm, fun hne => absurd rfl hne⟩
  | cons c cs ih =>
    unfold parseUintLoop at h
    by_cases hd : '0' ≤ c ∧ c ≤ '9'
    · simp only [digitOf, hd, and_self, if_true] at h
      split at h
      · cases h
      · split at h
        · cases h
        · rename_i h1 h2
          obtain ⟨ih1, ih2, ih3⟩ := ih _ h
          refine ⟨?_, ?_, ?_⟩
          · intro c' hc'
            rcases List.mem_cons.mp hc' with rfl | hc'
            · exact hd
            · exact ih1 c' hc'
          · simpa using ih2
          · intro _
            cases cs with
            | nil =>
              simp only [parseUintLoop, Except.ok.injEq] at h
              omega
            | cons c2 cs2 => exact ih3 (by simp)
    · simp only [digitOf, hd, if_false] at h
      cases h

theorem foldl_digits_ge (cs : List Char) (n : Nat) :
    n ≤ cs.foldl (fun a c => a * 10 + (c.toNat - '0'.toNat)) n := by
  induction cs generalizing n with
  | nil => exact Nat.le_refl _
  | cons c cs ih =>
    have := ih (n * 10 + (c.toNat - '0'.toNat))
    simp only [List.foldl_cons]
    omega

theorem parseUintLoop_of_digits (cs : List Char) (n : Nat)
    (hd : ∀ c ∈ cs, '0' ≤ c ∧ c ≤ '9')
    (hv : cs.foldl (fun a c => a * 10 + (c.toNat - '0'.toNat)) n ≤ maxVal) :
    parseUintLoop cs n = .ok (cs.foldl (fun a c => a * 10 + (c.toNat - '0'.toNat)) n) := by
  induction cs generalizing n with
  | nil => rfl
  | cons c cs ih =>
    have hc := hd c (List.mem_cons_self _ _)
    simp only [List.foldl_cons] at hv ⊢
    have hge := foldl_digits_ge cs (n * 10 + (c.toNat - '0'.toNat))
    have hmax : maxVal = 18446744073709551615 := by decide
    have hcut : cutoff = 1844674407370955162 := by decide
    unfold parseUintLoop
    simp only [digitOf, hc, and_self, if_true]
    rw [if_neg (by rw [hcut]; rw [hmax] at hv; omega), if_neg (by omega)]
    exact ih _ (fun c' hc' => hd c' (List.mem_cons_of_mem _ hc')) hv

/-- `ParseUint` succeeds exactly on the non-empty strings of decimal digits
whose value is at most `maxUint64`, and gives that value. -/
theorem parseUint_ok_iff (s : String) (m : Nat) :
    parseUint s = .ok m ↔
      s ≠ "" ∧ (∀ c ∈ s.toList, '0' ≤ c ∧ c ≤ '9') ∧
        m = s.toList.foldl (fun a c => a * 10 + (c.toNat - '0'.toNat)) 0 ∧ m < 2 ^ 64 := by
  have hmax : maxVal = 18446744073709551615 := by decide
  constructor
  · intro h
    unfold parseUint at h
    split at h
    · cases h
    · rename_i hne
      obtain ⟨h1, h2, h3⟩ := parseUintLoop_ok _ _ _ h
      refine ⟨hne, h1, h2, ?_⟩
      have hl : s.toList ≠ [] := by
        intro hnil
        apply hne
        rcases s with ⟨l⟩
        simp only [String.toList] at hnil
        rw [hnil]
      have := h3 hl
      rw [hmax] at this
      omega
  · rintro ⟨hne, hd, hv, hlt⟩
    unfold parseUint
    rw [if_neg hne, hv]
    apply parseUintLoop_of_digits _ _ hd
    rw [← hv, hmax]
    omega

theorem verifyToken_false (cfg : Config) (reqToken : String) (ceToken : CredentialsExchangeToken)
    (h : (verifyToken cfg reqToken ceToken).1 = false) :
    ∃ e, verifyToken cfg reqToken ceToken = (false, some e) := by
  unfold verifyToken at h ⊢
  split
  · exact ⟨_, rfl⟩
  · rename_i hexp
    rw [if_neg hexp] at h
    split
    · exact ⟨_, rfl⟩
    · rename_i hcmp
      rw [hcmp] at h
      cases h

theorem verifyToken_true (cfg : Config) (reqToken : String) (ceToken : CredentialsExchangeToken)
    (h : (verifyToken cfg reqToken ceToken).1 = true) :
    verifyToken cfg reqToken ceToken = (true, none) ∧ cfg.IsExpired ceToken = false ∧
      cfg.CompareHashAndPassword ceToken.Token reqToken = none := by
  unfold verifyToken at h ⊢
  by_cases hexp : cfg.IsExpired ceToken = true
  · rw [if_pos hexp] at h
    cases h
  · rw [if_neg hexp] at h ⊢
    cases hcmp : cfg.CompareHashAndPassword ceToken.Token reqToken with
    | some err =>
      rw [hcmp] at h
      cases h
    | none => exact ⟨rfl, by simpa using hexp, rfl⟩

/-- C18: `verifyToken(reqToken, ceToken)` returns `(true, nil)` exactly when
`ceToken.IsExpired()` is false and `bcrypt.CompareHashAndPassword` accepts
`reqToken` against `ceToken.Token`; for an expired token it returns `false`
with the error "token is expired", whatever the comparison would give; it
returns `false` only with a non-nil error, and `true` only with `nil`. -/
theorem verifyToken_result (cfg : Config) (reqToken : String)
    (ceToken : CredentialsExchangeToken) :
    (verifyToken cfg reqToken ceToken = (true, none) ↔
      cfg.IsExpired ceToken = false ∧
        cfg.CompareHashAndPassword ceToken.Token reqToken = none) ∧
    (cfg.IsExpired ceToken = true →
      verifyToken cfg reqToken ceToken = (false, some (.msg "token is expired"))) ∧
    ((verifyToken cfg reqToken ceToken).1 = false →
      (verifyToken cfg reqToken ceToken).2 ≠ none) ∧
    ((verifyToken cfg reqToken ceToken).1 = true →
      (verifyToken cfg reqToken ceToken).2 = none) := by
  refine ⟨⟨?_, ?_⟩, ?_, ?_, ?_⟩
  · intro h
    exact (verifyToken_true cfg reqToken ceToken (by rw [h])).2
  · rintro ⟨hexp, hcmp⟩
    unfold verifyToken
    rw [hexp, hcmp]
    rfl
  · intro hexp
    unfold verifyToken
    rw [if_pos hexp]
  · intro h
    obtain ⟨e, he⟩ := verifyToken_false cfg reqToken ceToken h
    rw [he]
    simp
  · intro h
    rw [(verifyToken_true cfg reqToken ceToken h).1]

/-- Witness for C18: with the sample configuration, the right password, the
wrong password, and an expired token. -/
theorem verifyToken_result_witness :
    verifyToken sampleConfig "secret" ⟨"hash", 1, 0, 0, 3⟩ = (true, none) ∧
    (verifyToken sampleConfig "guess" ⟨"hash", 1, 0, 0, 3⟩).2 ≠ none ∧
    verifyToken { sampleConfig with IsExpired := fun _ => true } "secret" ⟨"hash", 1, 0, 0, 3⟩ =
      (false, some (.msg "token is expired")) :=
  ⟨(verifyToken_result sampleConfig "secret" ⟨"hash", 1, 0, 0, 3⟩).1.mpr ⟨rfl, rfl⟩,
   (verifyToken_result sampleConfig "guess" ⟨"hash", 1, 0, 0, 3⟩).2.2.1 rfl,
   (verifyToken_result { sampleConfig with IsExpired := fun _ => true } "secret"
      ⟨"hash", 1, 0, 0, 3⟩).2.1 rfl⟩

/-- C17: (1) when `CredentialsGetHandler.ServeHTTP` writes a credentials
response, `ParseUint` has parsed the `X-Porter-Token-ID` header, the
credentials-exchange token with that id is found, and `verifyToken` accepts
the `X-Porter-Token` header against it; (2) when the header does not parse,
(3) when the token is not found, and (4) when `verifyToken` rejects, the
handler reports a forbidden error with a non-nil error, and so writes no
credentials. -/
theorem credentials_need_three_checks (cfg : Config)
    (xPorterToken xPorterTokenID xVaultToken : String) :
    (∀ resp, serveHTTP cfg xPorterToken xPorterTokenID xVaultToken = .wrote resp →
      ∃ tokID ceToken, cfg.ParseUint xPorterTokenID = .ok tokID ∧
        cfg.ReadCredentialsExchangeToken tokID = .ok ceToken ∧
        verifyToken cfg xPorterToken ceToken = (true, none)) ∧
    ((∀ tokID, cfg.ParseUint xPorterTokenID ≠ .ok tokID) →
      ∃ e, serveHTTP cfg xPorterToken xPorterTokenID xVaultToken = .forbidden (some e)) ∧
    (∀ tokID, cfg.ParseUint xPorterTokenID = .ok tokID →
      (∀ ceToken, cfg.ReadCredentialsExchangeToken tokID ≠ .ok ceToken) →
      ∃ e, serveHTTP cfg xPorterToken xPorterTokenID xVaultToken = .forbidden (some e)) ∧
    (∀ tokID ceToken, cfg.ParseUint xPorterTokenID = .ok tokID →
      cfg.ReadCredentialsExchangeToken tokID = .ok ceToken →
      (verifyToken cfg xPorterToken ceToken).1 = false →
      ∃ e, serveHTTP cfg xPorterToken xPorterTokenID xVaultToken = .forbidden (some e)) := by
  refine ⟨?_, ?_, ?_, ?_⟩
  · intro resp h
    unfold serveHTTP at h
    cases hp : cfg.ParseUint xPorterTokenID with
    | error e =>
      rw [hp] at h
      cases h
    | ok tokID =>
      rw [hp] at h
      simp only at h
      cases hr : cfg.ReadCredentialsExchangeToken tokID with
      | error e =>
        rw [hr] at h
        cases h
      | ok ceToken =>
        rw [hr] at h
        simp only at h
        cases hv : (verifyToken cfg xPorterToken ceToken).1 with
        | false =>
          obtain ⟨e, he⟩ := verifyToken_false cfg xPorterToken ceToken hv
          rw [he] at h
          cases h
        | true =>
          exact ⟨tokID, ceToken, rfl, hr, (verifyToken_true cfg xPorterToken ceToken hv).1⟩
  · intro hno
    unfold serveHTTP
    cases hp : cfg.ParseUint xPorterTokenID with
    | error e => exact ⟨_, rfl⟩
    | ok tokID => exact absurd hp (hno tokID)
  · intro tokID hp hno
    unfold serveHTTP
    rw [hp]
    simp only
    cases hr : cfg.ReadCredentialsExchangeToken tokID with
    | error e => exact ⟨_, rfl⟩
    | ok ceToken => exact absurd hr (hno ceToken)
  · intro tokID ceToken hp hr hv
    obtain ⟨e, he⟩ := verifyToken_false cfg xPorterToken ceToken hv
    unfold serveHTTP
    rw [hp]
    simp only
    rw [hr]
    simp only
    rw [he]
    exact ⟨e, rfl⟩

/-- Witness for C17, with the sample configuration: a good request, a header
that is no number, an unknown id, and a wrong token. -/
theorem credentials_need_three_checks_witness :
    (∃ tokID ceToken, sampleConfig.ParseUint "7" = .ok tokID ∧
        sampleConfig.ReadCredentialsExchangeToken tokID = .ok ceToken ∧
        verifyToken sampleConfig "secret" ceToken = (true, none)) ∧
    (∃ e, serveHTTP sampleConfig "secret" "-7" "" = .forbidden (some e)) ∧
    (∃ e, serveHTTP sampleConfig "secret" "8" "" = .forbidden (some e)) ∧
    (∃ e, serveHTTP sampleConfig "guess" "7" "" = .forbidden (some e)) :=
  ⟨(credentials_need_three_checks sampleConfig "secret" "7" "").1 _ rfl,
   (credentials_need_three_checks sampleConfig "secret" "-7" "").2.1
     (fun tokID h => by cases h),
   (credentials_need_three_checks sampleConfig "secret" "8" "").2.2.1 8 rfl
     (fun ceToken h => by cases h),
   (credentials_need_three_checks sampleConfig "guess" "7" "").2.2.2 7 ⟨"hash", 1, 0, 0, 3⟩
     rfl rfl rfl⟩

end Porter.Credentials

namespace Porter.OAuthCallback

/-! ## The GitLab OAuth callback: the redirect -/

/-- C19, what the code does: when the session's `redirect_uri` is a non-empty
string on which `url.Parse` returns an error (and, as it then does, the nil
pointer), the handler issues the redirect to `/dashboard` with status 302 and
then faults: line 107 reads `redirectURI.Path` through the nil pointer. -/
theorem redirect_parse_failure_faults (parse : String → Option URL × Option String)
    (redirectStr : String) (hne : redirectStr ≠ "") (herr : (parse redirectStr).2.isSome = true)
    (hnil : (parse redirectStr).1 = none) :
    redirectAfterCreate parse (some redirectStr) = ⟨[.redirect "/dashboard" 302], true⟩ := by
  unfold redirectAfterCreate
  simp only [hne, ne_eq, not_false_eq_true, if_true, herr, hnil]
  rfl

/-- Witness for C19: the session's `redirect_uri` is `":"`. -/
theorem redirect_parse_failure_faults_witness :
    redirectAfterCreate sampleParse (some ":") = ⟨[.redirect "/dashboard" 302], true⟩ :=
  redirect_parse_failure_faults sampleParse ":" (by decide) rfl rfl

end Porter.OAuthCallback

namespace Porter.Stack

/-! ## Creating a stack: the resource models -/

theorem foldl_linked_eq_empty (sourceConfigs : List StackSourceConfig) (name linked : String)
    (huid : ∀ sc ∈ sourceConfigs, sc.UID ≠ "") :
    sourceConfigs.foldl (fun linked sourceConfig =>
        if sourceConfig.Name = name then sourceConfig.UID else linked) linked = "" ↔
      linked = "" ∧ ∀ sc ∈ sourceConfigs, sc.Name ≠ name := by
  induction sourceConfigs generalizing linked with
  | nil => simp
  | cons sc rest ih =>
    have ih' := fun l => ih l fun sc' h => huid sc' (List.mem_cons_of_mem _ h)
    have hsc := huid sc (List.mem_cons_self _ _)
    rw [List.foldl_cons, ih']
    by_cases hn : sc.Name = name
    · simp [hn, hsc]
    · simp [hn]

/-- With non-empty UIDs, no UID is linked exactly when no source config has
the name. -/
theorem linked_eq_empty_iff (sourceConfigs : List StackSourceConfig) (name : String)
    (huid : ∀ sc ∈ sourceConfigs, sc.UID ≠ "") :
    linkedSourceConfigUID sourceConfigs name = "" ↔ ∀ sc ∈ sourceConfigs, sc.Name ≠ name := by
  unfold linkedSourceConfigUID
  rw [foldl_linked_eq_empty sourceConfigs name "" huid]
  simp

theorem loop_found (gen : Nat → Except String String) (sourceConfigs : List StackSourceConfig)
    (hgen : ∀ k, ∃ uid, gen k = .ok uid)
    (appResources : List CreateStackAppResourceRequest) (calls : Nat) (res : List StackResource)
    (h : ∀ r ∈ appResources, linkedSourceConfigUID sourceConfigs r.SourceConfigName ≠ "") :
    ∃ out, getResourceModelsLoop gen sourceConfigs appResources calls res = .ok out ∧
      out.length = res.length + appResources.length := by
  induction appResources generalizing calls res with
  | nil => exact ⟨res, rfl, rfl⟩
  | cons r rest ih =>
    obtain ⟨uid, hu⟩ := hgen calls
    have hr := h r (List.mem_cons_self _ _)
    unfold getResourceModelsLoop
    rw [hu]
    simp only [hr, if_false]
    obtain ⟨out, h1, h2⟩ := ih (calls + 1) _ fun r' hr' => h r' (List.mem_cons_of_mem _ hr')
    refine ⟨out, h1, ?_⟩
    rw [h2]
    simp only [List.length_append, List.length_cons, List.length_nil]
    omega

theorem loop_first_missing (gen : Nat → Except String String)
    (sourceConfigs : List StackSourceConfig) (hgen : ∀ k, ∃ uid, gen k = .ok uid)
    (pre : List CreateStackAppResourceRequest) (r : CreateStackAppResourceRequest)
    (post : List CreateStackAppResourceRequest) (calls : Nat) (res : List StackResource)
    (hpre : ∀ r' ∈ pre, linkedSourceConfigUID sourceConfigs r'.SourceConfigName ≠ "")
    (hr : linkedSourceConfigUID sourceConfigs r.SourceConfigName = "") :
    getResourceModelsLoop gen sourceConfigs (pre ++ r :: post) calls res =
      .error (missingSourceConfig r.SourceConfigName) := by
  induction pre generalizing calls res with
  | nil =>
    obtain ⟨uid, hu⟩ := hgen calls
    simp only [List.nil_append]
    unfold getResourceModelsLoop
    rw [hu]
    simp only [hr, if_true]
  | cons r0 pre ih =>
    obtain ⟨uid, hu⟩ := hgen calls
    have h0 := hpre r0 (List.mem_cons_self _ _)
    simp only [List.cons_append]
    unfold getResourceModelsLoop
    rw [hu]
    simp only [h0, if_false]
    exact ih (calls + 1) _ fun r' hr' => hpre r' (List.mem_cons_of_mem _ hr')

theorem exists_first {α : Type} (p : α → Prop) (l : List α) (h : ∃ x ∈ l, p x) :
    ∃ pre x post, l = pre ++ x :: post ∧ (∀ y ∈ pre, ¬ p y) ∧ p x := by
  induction l with
  | nil =>
    obtain ⟨x, hx, _⟩ := h
    cases hx
  | cons a l ih =>
    by_cases ha : p a
    · exact ⟨[], a, l, rfl, by simp, ha⟩
    · obtain ⟨x, hx, hpx⟩ := h
      rcases List.mem_cons.mp hx with rfl | hx
      · exact absurd hpx ha
      · obtain ⟨pre, y, post, h1, h2, h3⟩ := ih ⟨x, hx, hpx⟩
        refine ⟨a :: pre, y, post, by rw [h1]; rfl, ?_, h3⟩
        intro z hz
        rcases List.mem_cons.mp hz with rfl | hz
        · exact ha
        · exact h2 z hz

/-- C20: let every source config of the list have a non-empty UID and let
every UID generation succeed.  Then (1) `getResourceModels` returns an error
exactly when some app resource names a source config that is in the list
under no `Name`; (2) the error is "source config <name> does not exist in
source config list" for the `SourceConfigName` of the first such resource, and
being an error return it carries no resource list; (3) otherwise a list is
returned, one resource model for every app resource. -/
theorem getResourceModels_missing_source_config (gen : Nat → Except String String)
    (appResources : List CreateStackAppResourceRequest)
    (sourceConfigs : List StackSourceConfig)
    (huid : ∀ sc ∈ sourceConfigs, sc.UID ≠ "") (hgen : ∀ k, ∃ uid, gen k = .ok uid) :
    ((∃ err, getResourceModels gen appResources sourceConfigs = .error err) ↔
      ∃ r ∈ appResources, ∀ sc ∈ sourceConfigs, sc.Name ≠ r.SourceConfigName) ∧
    (∀ pre r post, appResources = pre ++ r :: post →
      (∀ r' ∈ pre, ∃ sc ∈ sourceConfigs, sc.Name = r'.SourceConfigName) →
      (∀ sc ∈ sourceConfigs, sc.Name ≠ r.SourceConfigName) →
      getResourceModels gen appResources sourceConfigs =
        .error ("source config " ++ r.SourceConfigName ++
          " does not exist in source config list")) ∧
    ((∀ r ∈ appResources, ∃ sc ∈ sourceConfigs, sc.Name = r.SourceConfigName) →
      ∃ res, getResourceModels gen appResources sourceConfigs = .ok res ∧
        res.length = appResources.length) := by
  have hfound : ∀ r : CreateStackAppResourceRequest,
      (∃ sc ∈ sourceConfigs, sc.Name = r.SourceConfigName) →
      linkedSourceConfigUID sourceConfigs r.SourceConfigName ≠ "" := by
    intro r ⟨sc, hsc, hn⟩ hl
    exact (linked_eq_empty_iff sourceConfigs _ huid).mp hl sc hsc hn
  have hfirst : ∀ pre r post, appResources = pre ++ r :: post →
      (∀ r' ∈ pre, ∃ sc ∈ sourceConfigs, sc.Name = r'.SourceConfigName) →
      (∀ sc ∈ sourceConfigs, sc.Name ≠ r.SourceConfigName) →
      getResourceModels gen appResources sourceConfigs =
        .error (missingSourceConfig r.SourceConfigName) := by
    intro pre r post hs hpre hr
    unfold getResourceModels
    rw [hs]
    exact loop_first_missing gen sourceConfigs hgen pre r post 0 []
      (fun r' hr' => hfound r' (hpre r' hr'))
      ((linked_eq_empty_iff sourceConfigs _ huid).mpr hr)
  have hall : (∀ r ∈ appResources, ∃ sc ∈ sourceConfigs, sc.Name = r.SourceConfigName) →
      ∃ res, getResourceModels gen appResources sourceConfigs = .ok res ∧
        res.length = appResources.length := by
    intro h
    obtain ⟨out, h1, h2⟩ := loop_found gen sourceConfigs hgen appResources 0 []
      (fun r hr => hfound r (h r hr))
    exact ⟨out, h1, by simpa using h2⟩
  refine ⟨⟨?_, ?_⟩, hfirst, hall⟩
  · rintro ⟨err, herr⟩
    by_contra hno
    have hall' : ∀ r ∈ appResources, ∃ sc ∈ sourceConfigs, sc.Name = r.SourceConfigName := by
      intro r hr
      by_contra hnone
      exact hno ⟨r, hr, fun sc hsc hn => hnone ⟨sc, hsc, hn⟩⟩
    obtain ⟨res, hres, _⟩ := hall hall'
    rw [hres] at herr
    cases herr
  · intro h
    obtain ⟨pre, r, post, hs, hpre, hr⟩ :=
      exists_first (fun r => ∀ sc ∈ sourceConfigs, sc.Name ≠ r.SourceConfigName) appResources h
    refine ⟨_, hfirst pre r post hs ?_ hr⟩
    intro r' hr'
    by_contra hnone
    exact hpre r' hr' fun sc hsc hn => hnone ⟨sc, hsc, hn⟩

/-- Witness for C20: of the sample resources the second is the first that
names a missing source config, `redis`. -/
theorem getResourceModels_missing_source_config_witness :
    getResourceModels sampleGen sampleResources sampleConfigs =
      .error "source config redis does not exist in source config list" :=
  (getResourceModels_missing_source_config sampleGen sampleResources sampleConfigs
    (by decide) (fun k => ⟨_, rfl⟩)).2.1
    [⟨"app", "web", "charts", "web", "1.0"⟩] ⟨"cache", "redis", "charts", "redis", "1.0"⟩
    [⟨"queue", "kafka", "charts", "kafka", "1.0"⟩] rfl (by decide) (by decide)

end Porter.Stack

namespace Porter.Stack

/-! ## Creating a stack: the source config models and the handler -/

theorem getSourceConfigModelsLoop_ok {Build : Type} (gen : Nat → Except String String)
    (hgen : ∀ k, ∃ uid, gen k = .ok uid)
    (sourceConfigs : List (CreateStackSourceConfigRequest Build)) (calls : Nat)
    (res : List StackSourceConfig) :
    ∃ models, getSourceConfigModelsLoop gen sourceConfigs calls res = .ok (res ++ models) ∧
      models.map (fun m => (m.Name, m.ImageRepoURI, m.ImageTag)) =
        (sourceConfigs.filter (fun sc => sc.StackSourceConfigBuild.isNone)).map
          (fun sc => (sc.Name, sc.ImageRepoURI, sc.ImageTag)) ∧
      ∀ i m, models[i]? = some m → gen (calls + i) = .ok m.UID := by
  induction sourceConfigs generalizing calls res with
  | nil =>
    refine ⟨[], by simp [getSourceConfigModelsLoop], rfl, ?_⟩
    intro i m h
    simp at h
  | cons sc rest ih =>
    cases hb : sc.StackSourceConfigBuild with
    | some b =>
      obtain ⟨models, h1, h2, h3⟩ := ih calls res
      refine ⟨models, ?_, ?_, h3⟩
      · unfold getSourceConfigModelsLoop
        simp only [hb]
        exact h1
      · rw [List.filter_cons_of_neg (by simp [hb])]
        exact h2
    | none =>
      obtain ⟨uid, hu⟩ := hgen calls
      obtain ⟨models, h1, h2, h3⟩ := ih (calls + 1)
        (res ++ [{ UID := uid, Name := sc.Name, ImageRepoURI := sc.ImageRepoURI,
                   ImageTag := sc.ImageTag }])
      refine ⟨{ UID := uid, Name := sc.Name, ImageRepoURI := sc.ImageRepoURI,
                ImageTag := sc.ImageTag } :: models, ?_, ?_, ?_⟩
      · unfold getSourceConfigModelsLoop
        simp only [hb, hu]
        rw [h1, List.append_assoc]
        rfl
      · rw [List.filter_cons_of_pos (by simp [hb]), List.map_cons, List.map_cons, h2]
      · intro i m h
        cases i with
        | zero =>
          simp only [List.getElem?_cons_zero, Option.some.injEq] at h
          rw [← h]
          exact hu
        | succ j =>
          simp only [List.getElem?_cons_succ] at h
          have := h3 j m h
          rw [show calls + (j + 1) = calls + 1 + j by omega]
          exact this

theorem getSourceConfigModelsLoop_names {Build : Type} (gen : Nat → Except String String)
    (sourceConfigs : List (CreateStackSourceConfigRequest Build)) (calls : Nat)
    (res out : List StackSourceConfig)
    (h : getSourceConfigModelsLoop gen sourceConfigs calls res = .ok out) :
    ∀ m ∈ out, m ∈ res ∨
      ∃ sc ∈ sourceConfigs, sc.StackSourceConfigBuild = none ∧ sc.Name = m.Name := by
  induction sourceConfigs generalizing calls res with
  | nil =>
    simp only [getSourceConfigModelsLoop, Except.ok.injEq] at h
    intro m hm
    exact Or.inl (h ▸ hm)
  | cons sc rest ih =>
    intro m hm
    unfold getSourceConfigModelsLoop at h
    cases hb : sc.StackSourceConfigBuild with
    | some b =>
      simp only [hb] at h
      rcases ih calls res h m hm with h1 | ⟨sc', h1, h2⟩
      · exact Or.inl h1
      · exact Or.inr ⟨sc', List.mem_cons_of_mem _ h1, h2⟩
    | none =>
      simp only [hb] at h
      cases hu : gen calls with
      | error e =>
        rw [hu] at h
        cases h
      | ok uid =>
        rw [hu] at h
        rcases ih _ _ h m hm with h1 | ⟨sc', h1, h2⟩
        · rcases List.mem_append.mp h1 with h1 | h1
          · exact Or.inl h1
          · rw [List.mem_singleton] at h1
            exact Or.inr ⟨sc, List.mem_cons_self _ _, hb, by rw [h1]⟩
        · exact Or.inr ⟨sc', List.mem_cons_of_mem _ h1, h2⟩

/-- No source config of the name: nothing is linked. -/
theorem linked_of_no_match (sourceConfigs : List StackSourceConfig) (name : String)
    (h : ∀ sc ∈ sourceConfigs, sc.Name ≠ name) :
    linkedSourceConfigUID sourceConfigs name = "" := by
  unfold linkedSourceConfigUID
  generalize "" = linked
  induction sourceConfigs generalizing linked with
  | nil => rfl
  | cons sc rest ih =>
    rw [List.foldl_cons, if_neg (h sc (List.mem_cons_self _ _))]
    exact ih (fun sc' h' => h sc' (List.mem_cons_of_mem _ h')) linked

/-- A resource that links to nothing makes the loop fail, whatever the UID
generation does. -/
theorem loop_error_of_missing (gen : Nat → Except String String)
    (sourceConfigs : List StackSourceConfig)
    (appResources : List CreateStackAppResourceRequest) (r : CreateStackAppResourceRequest)
    (hr : r ∈ appResources)
    (hl : linkedSourceConfigUID sourceConfigs r.SourceConfigName = "")
    (calls : Nat) (res : List StackResource) :
    ∃ err, getResourceModelsLoop gen sourceConfigs appResources calls res = .error err := by
  induction appResources generalizing calls res with
  | nil => cases hr
  | cons r0 rest ih =>
    unfold getResourceModelsLoop
    cases hu : gen calls with
    | error e => exact ⟨e, rfl⟩
    | ok uid =>
      simp only
      by_cases h0 : linkedSourceConfigUID sourceConfigs r0.SourceConfigName = ""
      · rw [if_pos h0]
        exact ⟨_, rfl⟩
      · rw [if_neg h0]
        rcases List.mem_cons.mp hr with rfl | hr'
        · exact absurd hl h0
        · exact ih hr' _ _

/-- C21: when every UID generation succeeds, `getSourceConfigModels` returns a
list of models that (1) has, in input order, the `Name`, `ImageRepoURI` and
`ImageTag` of exactly the requests whose `StackSourceConfigBuild` is nil, the
requests with a build section being left out; (2) is as long as there are
requests without a build section; (3) carries the generated UIDs in the order
of generation. -/
theorem getSourceConfigModels_image_sources {Build : Type}
    (gen : Nat → Except String String)
    (sourceConfigs : List (CreateStackSourceConfigRequest Build))
    (hgen : ∀ k, ∃ uid, gen k = .ok uid) :
    ∃ res, getSourceConfigModels gen sourceConfigs = .ok res ∧
      res.map (fun m => (m.Name, m.ImageRepoURI, m.ImageTag)) =
        (sourceConfigs.filter (fun sc => sc.StackSourceConfigBuild.isNone)).map
          (fun sc => (sc.Name, sc.ImageRepoURI, sc.ImageTag)) ∧
      res.length =
        (sourceConfigs.filter (fun sc => sc.StackSourceConfigBuild.isNone)).length ∧
      ∀ i m, res[i]? = some m → gen i = .ok m.UID := by
  obtain ⟨models, h1, h2, h3⟩ := getSourceConfigModelsLoop_ok gen hgen sourceConfigs 0 []
  refine ⟨models, by simpa [getSourceConfigModels] using h1, h2, ?_, ?_⟩
  · have := congrArg List.length h2
    simpa using this
  · intro i m h
    simpa using h3 i m h

/-- Witness for C21: of the three sample requests the second has a build
section; the models of the first and the third are returned. -/
theorem getSourceConfigModels_image_sources_witness :
    ∃ res, getSourceConfigModels sampleGen sampleRequests = .ok res ∧
      res.map (fun m => (m.Name, m.ImageRepoURI, m.ImageTag)) =
        [("web", "repo/web", "v1"), ("db", "repo/db", "v2")] ∧
      res.length = 2 ∧
      ∀ i m, res[i]? = some m → sampleGen i = .ok m.UID :=
  getSourceConfigModels_image_sources sampleGen sampleRequests (fun _ => ⟨_, rfl⟩)

/-- C24: let some app resource `r` of a create-stack request name only source
configs that carry a build section (every source config of the request with
the `Name` `r.SourceConfigName` has a non-nil `StackSourceConfigBuild`).  Then
(1) whatever the random source, the repository and the cluster do,
`StackCreateHandler.ServeHTTP` reports one internal error and does nothing
else: `CreateStack` is not called and no app resource is applied; (2) no model
that `getSourceConfigModels` returns has that name, and `getResourceModels`
fails on any such list of models. -/
theorem create_fails_for_build_sources {Build : Type} (world : World) (proj : Option Nat)
    (cluster : Option Cluster) (namespace_ : String) (req : CreateStackRequest Build)
    (r : CreateStackAppResourceRequest) (hr : r ∈ req.AppResources)
    (hbuild : ∀ sc ∈ req.SourceConfigs,
      sc.Name = r.SourceConfigName → sc.StackSourceConfigBuild ≠ none) :
    (∃ err, serveHTTP world proj cluster namespace_ (some req) =
      ⟨[.handleAPIError err], false⟩) ∧
    (∀ gen sourceConfigs, getSourceConfigModels gen req.SourceConfigs = .ok sourceConfigs →
      (∀ sc ∈ sourceConfigs, sc.Name ≠ r.SourceConfigName) ∧
      ∀ gen2, ∃ err, getResourceModels gen2 req.AppResources sourceConfigs = .error err) := by
  have hsecond : ∀ gen sourceConfigs,
      getSourceConfigModels gen req.SourceConfigs = .ok sourceConfigs →
      (∀ sc ∈ sourceConfigs, sc.Name ≠ r.SourceConfigName) ∧
      ∀ gen2, ∃ err, getResourceModels gen2 req.AppResources sourceConfigs = .error err := by
    intro gen sourceConfigs h
    have hnames : ∀ sc ∈ sourceConfigs, sc.Name ≠ r.SourceConfigName := by
      intro m hm hname
      rcases getSourceConfigModelsLoop_names gen req.SourceConfigs 0 [] sourceConfigs h m hm
        with h1 | ⟨sc, h1, h2, h3⟩
      · cases h1
      · exact hbuild sc h1 (h3.trans hname) h2
    refine ⟨hnames, fun gen2 => ?_⟩
    exact loop_error_of_missing gen2 sourceConfigs req.AppResources r hr
      (linked_of_no_match sourceConfigs _ hnames) 0 []
  refine ⟨?_, hsecond⟩
  unfold serveHTTP
  simp only
  cases h0 : world.GenerateRandomBytes 0 with
  | error e => exact ⟨e, rfl⟩
  | ok uid =>
    simp only
    cases h1 : getSourceConfigModels (fun k => world.GenerateRandomBytes (1 + k))
        req.SourceConfigs with
    | error e => exact ⟨e, rfl⟩
    | ok sourceConfigs =>
      simp only
      obtain ⟨err, he⟩ := (hsecond _ sourceConfigs h1).2
        (fun k => world.GenerateRandomBytes (1 + sourceConfigs.length + k))
      rw [he]
      exact ⟨err, rfl⟩

/-- Witness for C24: the sample request deploys its app resource from the
source config `api`, which is built from source. -/
theorem create_fails_for_build_sources_witness :
    (∃ err, serveHTTP sampleWorld (some 1) (some ⟨1, 1⟩) "default" (some sampleStackRequest) =
      ⟨[.handleAPIError err], false⟩) ∧
    serveHTTP sampleWorld (some 1) (some ⟨1, 1⟩) "default" (some sampleStackRequest) =
      ⟨[.handleAPIError "source config api does not exist in source config list"], false⟩ :=
  ⟨(create_fails_for_build_sources sampleWorld (some 1) (some ⟨1, 1⟩) "default"
      sampleStackRequest ⟨"backend", "api", "charts", "web", "1.0"⟩
      (List.mem_cons_self _ _) (by decide)).1, rfl⟩

end Porter.Stack

namespace Porter.RouterV1

/-! ## The registry routes of the v1 API -/

theorem hasRegistryID_of_append (before after : String) :
    hasRegistryID (before ++ "{registry_id}" ++ after) :=
  ⟨before.toList, after.toList, by simp [String.toList]⟩

/-- C22: among the routes of `getV1RegistryRoutes`, (1) a route has
`RegistryScope` among its scopes exactly when its relative path contains
`{registry_id}`; (2) that is the case exactly for the routes whose operation
is named with `registryPathParams`; (3) every route has `UserScope` and
`ProjectScope`; (4) the operations of the routes with `RegistryScope` are the
five named with `registryPathParams`, and there are seven routes. -/
theorem registry_scope_iff_registry_id {P : Type} (basePath : P) (wildcard : String) :
    (∀ route ∈ (getV1RegistryRoutes basePath wildcard).1,
      (PermissionScope.RegistryScope ∈ route.Endpoint.Scopes ↔
        hasRegistryID route.Endpoint.Path.RelativePath) ∧
      (hasRegistryID route.Endpoint.Path.RelativePath ↔
        route.operation ∈ registryPathParamsOperations) ∧
      PermissionScope.UserScope ∈ route.Endpoint.Scopes ∧
      PermissionScope.ProjectScope ∈ route.Endpoint.Scopes) ∧
    (((getV1RegistryRoutes basePath wildcard).1.filter
        (fun route => decide (PermissionScope.RegistryScope ∈ route.Endpoint.Scopes))).map
        (fun route => route.operation) =
      ["getRegistry", "deleteRegistry", "createRegistryRepository",
        "listRegistryRepositories", "listRegistryImages"]) ∧
    (getV1RegistryRoutes basePath wildcard).1.length = 7 := by
  have himages :
      hasRegistryID ("/registries" ++ "/{registry_id}/repositories/" ++ wildcard) := by
    rw [show "/registries" ++ "/{registry_id}/repositories/" =
      "/registries/" ++ "{registry_id}" ++ "/repositories/" by decide, String.append_assoc]
    exact hasRegistryID_of_append _ _
  refine ⟨?_, rfl, rfl⟩
  intro route hroute
  simp only [getV1RegistryRoutes, List.nil_append, List.cons_append, List.mem_cons,
    List.mem_singleton, List.not_mem_nil, or_false] at hroute
  rcases hroute with rfl | rfl | rfl | rfl | rfl | rfl | rfl
  · refine ⟨?_, ?_, ?_, ?_⟩ <;> dsimp only <;> decide
  · refine ⟨?_, ?_, ?_, ?_⟩ <;> dsimp only <;> decide
  · refine ⟨?_, ?_, ?_, ?_⟩ <;> dsimp only <;> decide
  · refine ⟨?_, ?_, ?_, ?_⟩ <;> dsimp only <;> decide
  · refine ⟨?_, ?_, ?_, ?_⟩ <;> dsimp only <;> decide
  · refine ⟨?_, ?_, ?_, ?_⟩ <;> dsimp only <;> decide
  · refine ⟨⟨fun _ => himages, fun _ => ?_⟩, ⟨fun _ => ?_, fun _ => himages⟩, ?_, ?_⟩ <;>
      dsimp only <;> decide

end Porter.RouterV1

namespace Porter.EnvironmentRepo

/-! ## The environment repository: reading a deployment by cluster -/

/-- C23, what the code does: the namespace value that
`ReadDeploymentByCluster` binds into the condition is `depl.Namespace` of the
deployment it has just allocated, the empty string, whatever the caller's
`namespace` is; so the result does not depend on that argument; the query of
`ReadDeployment` (line 86) binds the argument. -/
theorem readDeploymentByCluster_binds_empty_namespace
    (find : Query → Deployment → Deployment × Option String)
    (projectID clusterID environmentID : Nat) (namespace_ : String) :
    (readDeploymentByClusterQuery projectID clusterID namespace_).args =
      [.uint projectID, .uint clusterID, .str ""] ∧
    readDeploymentByCluster find projectID clusterID namespace_ =
      readDeploymentByCluster find projectID clusterID "" ∧
    (readDeploymentQuery environmentID namespace_).args =
      [.uint environmentID, .str namespace_] :=
  ⟨rfl, rfl, rfl⟩

/-- Witness for C23: the sample table holds a deployment in the namespace
`pr-12` of project 1, cluster 1; asked for it, the function returns the zero
deployment, which is not in `pr-12`. -/
theorem readDeploymentByCluster_binds_empty_namespace_witness :
    readDeploymentByCluster (sampleFind sampleTable) 1 1 "pr-12" = .ok ⟨0, 0, ""⟩ ∧
    (readDeploymentByClusterQuery 1 1 "pr-12").args = [.uint 1, .uint 1, .str ""] :=
  ⟨rfl, (readDeploymentByCluster_binds_empty_namespace (sampleFind sampleTable) 1 1 0
    "pr-12").1⟩

end Porter.EnvironmentRepo
